import Mathlib

/-! Table view controller (`source/assets/scripts.js`)

A shallow embedding of the script that toggles the visibility of HTML tables and
sorts their rows, together with the properties proved about it.

* The document is the list of its elements in document order, and an element
  is referred to by its position in that list.  An element carries what the
  script reads or writes: `id`, tag name, class list, `style.display` and, for a
  table or a row group, its `rows` collection.
* The rows of a table are one sequence, in the order of `table.rows`, and a row
  is a sequence of cells that carry their markup and their text.  These are the
  documents in which no table row holds an element that the script looks up (an
  arrow, a table): there a row changes place without any element changing its
  position in the document.  How the rows of a table are grouped in `thead`,
  `tbody` and `tfoot` is not represented: `table.appendChild(row)` puts the row
  last in `rows`, which is its place in `table.rows` as long as the rows that
  stay are not in a `tfoot`.  A row group is an element of its own, with the
  rows that `sortTable` reads when it is called on the group.
* Where a row does hold an arrow or a table, the element moves with the row.
  The section `Tree` embeds `sortBaseScoreDescending` on the document as a tree
  of nodes, rows and cells included, to show what the call does there.
* JavaScript strings that are compared with `<` and `>` are sequences of UTF-16
  code units.  The host functions `String.prototype.toLowerCase` and
  `parseFloat` are parameters of the functions that call them.
* A call ends normally, or by a thrown `TypeError` (reading a property of
  `null` or `undefined`); the `while` loop of `sortTable` runs on a budget of
  loop tests.
-/

namespace TableView

/-! ## Host values -/

/-- A JavaScript string: its sequence of UTF-16 code units. -/
abbrev JSString := List Nat

/-- Code units of a literal (characters of the Basic Multilingual Plane). -/
def jsStr (s : String) : JSString := s.data.map Char.toNat

/-- The string case of the relational operator `x < y`: `false` when `y` is a
prefix of `x`, `true` when `x` is a proper prefix of `y`, otherwise decided by
the code units at the first index where the two differ. -/
def jsLt : JSString → JSString → Bool
  | _, [] => false
  | [], _ :: _ => true
  | a :: x, b :: y => if a < b then true else if b < a then false else jsLt x y

/-- `String.prototype.toLowerCase` restricted to what it does on ASCII text:
`A`..`Z` (65..90) move to `a`..`z`, every other code unit is kept.  The sort is
parametric in the lower-casing function; this one instantiates it on concrete
ASCII inputs. -/
def asciiToLowerCase (s : JSString) : JSString :=
  s.map (fun u => if 65 ≤ u ∧ u ≤ 90 then u + 32 else u)

/-- A Number value as produced by `parseFloat` and by subtraction. A finite
double is a rational, carried exactly. -/
inductive JSNumber where
  | nan
  | negInf
  | fin (q : ℚ)
  | posInf
  deriving DecidableEq

/-- The operator `b - a` on Number values.  On finite operands the double is the
rounding of the exact difference; rounding keeps the sign and keeps zero (there
is no underflow to zero in a subtraction), and only the sign is read by the sort,
so the exact difference is carried. -/
def JSNumber.sub : JSNumber → JSNumber → JSNumber
  | .nan, _ => .nan
  | _, .nan => .nan
  | .posInf, .posInf => .nan
  | .negInf, .negInf => .nan
  | .posInf, _ => .posInf
  | .negInf, _ => .negInf
  | .fin _, .posInf => .negInf
  | .fin _, .negInf => .posInf
  | .fin x, .fin y => .fin (x - y)

/-- The comparison `v > 0` on a Number value. -/
def JSNumber.isPos : JSNumber → Bool
  | .posInf => true
  | .fin q => decide (0 < q)
  | _ => false

/-- The comparison `a >= b` on Number values (false as soon as one is NaN). -/
def JSNumber.ge : JSNumber → JSNumber → Bool
  | .nan, _ => false
  | _, .nan => false
  | .posInf, _ => true
  | _, .negInf => true
  | .negInf, _ => false
  | _, .posInf => false
  | .fin x, .fin y => decide (y ≤ x)

/-- How a call ends: normally, by a thrown `TypeError` (the state is the
document as the throw leaves it), or, for the model of a `while` loop, with the
pass budget used up. -/
inductive Outcome (σ : Type) where
  | done (s : σ)
  | threw (s : σ)
  | outOfFuel
  deriving DecidableEq

/-- Apply a function to the state an outcome carries. -/
def Outcome.map {σ τ : Type} (f : σ → τ) : Outcome σ → Outcome τ
  | .done s => .done (f s)
  | .threw s => .threw (f s)
  | .outOfFuel => .outOfFuel

/-- The state an outcome carries satisfies `P` (nothing is said of a run that
used up its budget). -/
def Outcome.Holds {σ : Type} (P : σ → Prop) : Outcome σ → Prop
  | .done s => P s
  | .threw s => P s
  | .outOfFuel => True

/-- The state an outcome carries, if any. -/
def Outcome.state? {σ : Type} : Outcome σ → Option σ
  | .done s => some s
  | .threw s => some s
  | .outOfFuel => none

/-! ## Data model -/

/-- Tag of a table cell. -/
inductive CellTag where
  | td
  | th
  deriving DecidableEq

/-- A cell of a row, with the three text views the script reads. -/
structure Cell where
  tag : CellTag
  innerHTML : JSString
  textContent : JSString
  innerText : JSString
  deriving DecidableEq

/-- A table row: its `cells` collection. -/
structure Row where
  cells : List Cell
  deriving DecidableEq

/-- An element of the document: `tagName` is its local name in lower case,
`display` is `style.display`, and `rows` is the `rows` collection of a table or
of a row group (`thead`, `tbody`, `tfoot`); it is empty on any other element. -/
structure Element where
  id : String
  tagName : String
  classList : List String
  display : String
  rows : List Row
  deriving DecidableEq

/-- The document: its elements in document order. -/
abbrev Document := List Element

/-- `row.getElementsByTagName("TD")`: the `TD` cells of the row, in order. -/
def Row.tds (r : Row) : List Cell := r.cells.filter (fun c => c.tag = CellTag.td)

/-! ## sortTable (lines 29-63) -/

/-- The variable `dir`. -/
inductive Dir where
  | asc
  | desc
  deriving DecidableEq

/-- Lines 38-50, the body of the `for` loop on the rows `rows[i]` and
`rows[i + 1]`: `none` is the `TypeError` of reading `innerHTML` of a missing
cell (or cells of a missing row), `some b` is the value of `shouldSwitch`. -/
def compareRows (toLowerCase : JSString → JSString) (dir : Dir) (columnIndex : Nat)
    (ri rj : Option Row) : Option Bool :=
  match ri, rj with
  | some a, some b =>
    match a.tds[columnIndex]?, b.tds[columnIndex]? with
    | some x, some y =>
      match dir with
      | Dir.asc => some (jsLt (toLowerCase y.innerHTML) (toLowerCase x.innerHTML))
      | Dir.desc => some (jsLt (toLowerCase x.innerHTML) (toLowerCase y.innerHTML))
    | _, _ => none
  | _, _ => none

/-- Lines 36-51, `for (i = 1; i < rows.length - 1; i++)`, entered at index `i`
with the current value of `shouldSwitch`; the first argument bounds the number
of iterations (the caller passes `rows.length`).  Returns the final `i` and
`shouldSwitch`, or `none` when an iteration throws. The loop test is written
`i + 1 < rows.length`, which is `i < rows.length - 1` also for an empty table. -/
def forLoop (toLowerCase : JSString → JSString) (rows : List Row) (columnIndex : Nat)
    (dir : Dir) : Nat → Nat → Bool → Option (Nat × Bool)
  | 0, i, shouldSwitch => some (i, shouldSwitch)
  | k + 1, i, shouldSwitch =>
    if i + 1 < rows.length then
      match compareRows toLowerCase dir columnIndex rows[i]? rows[i + 1]? with
      | none => none
      | some true => some (i, true)
      | some false => forLoop toLowerCase rows columnIndex dir k (i + 1) false
    else some (i, shouldSwitch)

/-- Line 53, `rows[i].parentNode.insertBefore(rows[i + 1], rows[i])`: the row at
`i + 1` moves in front of the row at `i`; `none` when one of the two is missing. -/
def insertBefore (rows : List Row) (i : Nat) : Option (List Row) :=
  match rows[i]?, rows[i + 1]? with
  | some a, some b => some ((rows.set i b).set (i + 1) a)
  | _, _ => none

/-- Lines 33-62, the `while (switching)` loop on the live `rows` collection; one
unit of fuel is one evaluation of the loop test. -/
def whileLoop (toLowerCase : JSString → JSString) (columnIndex : Nat) :
    Nat → List Row → Bool → Bool → Dir → Nat → Outcome (List Row)
  | 0, _, _, _, _, _ => Outcome.outOfFuel
  | fuel + 1, rows, switching, shouldSwitch, dir, switchcount =>
    if switching then
      match forLoop toLowerCase rows columnIndex dir rows.length 1 shouldSwitch with
      | none => Outcome.threw rows
      | some (i, shouldSwitch1) =>
        if shouldSwitch1 then
          match insertBefore rows i with
          | none => Outcome.threw rows
          | some rows1 =>
            whileLoop toLowerCase columnIndex fuel rows1 true shouldSwitch1 dir (switchcount + 1)
        else if switchcount = 0 ∧ dir = Dir.asc then
          whileLoop toLowerCase columnIndex fuel rows true shouldSwitch1 Dir.desc switchcount
        else
          whileLoop toLowerCase columnIndex fuel rows false shouldSwitch1 dir switchcount
    else Outcome.done rows

/-- `sortTable(table, columnIndex)`. `switching = true`, `dir = "asc"`,
`switchcount = 0`, and `shouldSwitch` is still undefined (falsy).  What line 35
reads as `table.rows` depends on the element: a table and a row group (`thead`,
`tbody`, `tfoot`) have a `rows` collection, which the loops sort; on a
`textarea`, `rows` is a number, `rows.length` is undefined and the test
`i < rows.length - 1` is false, so the loops run as on no rows and nothing is
written; any other element has no `rows`, and `rows.length` throws.  (The
obsolete `frameset`, whose `rows` is an attribute string, is left out.) -/
def sortTable (toLowerCase : JSString → JSString) (fuel : Nat) (table : Element)
    (columnIndex : Nat) : Outcome Element :=
  if table.tagName = "table" then
    (whileLoop toLowerCase columnIndex fuel table.rows true false Dir.asc 0).map
      (fun rows => { table with rows := rows })
  else if table.tagName = "thead" ∨ table.tagName = "tbody" ∨ table.tagName = "tfoot" then
    (whileLoop toLowerCase columnIndex fuel table.rows true false Dir.asc 0).map
      (fun rows => { table with rows := rows })
  else if table.tagName = "textarea" then
    (whileLoop toLowerCase columnIndex fuel [] true false Dir.asc 0).map (fun _ => table)
  else Outcome.threw table

/-- The sort key of a row: the lower-cased `innerHTML` of its `TD` cell at the
column (the empty string stands in when the cell is missing). -/
def sortKey (toLowerCase : JSString → JSString) (columnIndex : Nat) (r : Row) : JSString :=
  match r.tds[columnIndex]? with
  | some x => toLowerCase x.innerHTML
  | none => []

/-- Key order `a <= b` of two rows: not `key a > key b`. -/
def keyLe (toLowerCase : JSString → JSString) (columnIndex : Nat) (a b : Row) : Prop :=
  jsLt (sortKey toLowerCase columnIndex b) (sortKey toLowerCase columnIndex a) = false

instance (toLowerCase : JSString → JSString) (columnIndex : Nat) :
    DecidableRel (keyLe toLowerCase columnIndex) :=
  fun _ _ => inferInstanceAs (Decidable (jsLt _ _ = false))

/-- Whether the `if` of lines 40-50 sets `shouldSwitch` on the adjacent rows
`a`, `b`: `key a > key b` when ascending, `key a < key b` when descending. -/
def outOfOrder (toLowerCase : JSString → JSString) (columnIndex : Nat) (dir : Dir)
    (a b : Row) : Bool :=
  match dir with
  | Dir.asc => jsLt (sortKey toLowerCase columnIndex b) (sortKey toLowerCase columnIndex a)
  | Dir.desc => jsLt (sortKey toLowerCase columnIndex a) (sortKey toLowerCase columnIndex b)

/-- Offset of the first adjacent pair of a list on which `bad` holds. -/
def firstBad {α : Type} (bad : α → α → Bool) : List α → Option Nat
  | a :: b :: l => if bad a b then some 0 else (firstBad bad (b :: l)).map (· + 1)
  | _ => none

/-- Number of pairs of positions `p < q` with `bad l[p] l[q]`. -/
def inversions {α : Type} (bad : α → α → Bool) : List α → Nat
  | [] => 0
  | a :: l => l.countP (bad a) + inversions bad l

/-- One swap of `sortTable`: two adjacent data rows that are out of order
exchange places; the header row `h` is in front of them. -/
inductive BubbleStep (bad : Row → Row → Bool) : List Row → List Row → Prop where
  | swap (h : Row) (pre post : List Row) (a b : Row) (hbad : bad a b = true) :
      BubbleStep bad (h :: (pre ++ a :: b :: post)) (h :: (pre ++ b :: a :: post))

/-- A number of loop tests that `sortTable` never exceeds on these rows: one
per swap (ascending inversions, then descending ones) and three for the pass
that changes direction, the last pass and the final test. -/
def passBudget (toLowerCase : JSString → JSString) (columnIndex : Nat) (rows : List Row) : Nat :=
  inversions (outOfOrder toLowerCase columnIndex Dir.asc) rows.tail
    + inversions (outOfOrder toLowerCase columnIndex Dir.desc) rows.tail + 3

/-! ## Document queries and element updates -/

/-- Positions, in document order, of the elements that satisfy `p`: the content
of a live collection, computed from the document as it is when the collection is
read. -/
def collect (p : Element → Bool) (doc : Document) : List Nat :=
  (List.range doc.length).filter (fun i =>
    match doc[i]? with
    | some e => p e
    | none => false)

/-- `document.getElementsByTagName(tag)`. -/
def getElementsByTagName (doc : Document) (tag : String) : List Nat :=
  collect (fun e => e.tagName = tag) doc

/-- `document.getElementsByClassName(cls)`. -/
def getElementsByClassName (doc : Document) (cls : String) : List Nat :=
  collect (fun e => cls ∈ e.classList) doc

/-- Position of the first element whose `id` is the given one. -/
def findId (id : String) : Document → Option Nat
  | [] => none
  | e :: doc => if e.id = id then some 0 else (findId id doc).map (· + 1)

/-- `document.getElementById(id)`: the position of the element, `none` for
`null`. An element without an ID has `id = ""` and is never matched. -/
def getElementById (doc : Document) (id : String) : Option Nat :=
  if id = "" then none else findId id doc

/-- `element.style.display` of the element at a position. -/
def displayAt (doc : Document) (p : Nat) : Option String := doc[p]?.map Element.display

/-- `element.rows` of the element at a position. -/
def rowsAt (doc : Document) (p : Nat) : List Row := (doc[p]?.map Element.rows).getD []

/-- `element.style.display = v`. -/
def Element.setDisplay (v : String) (e : Element) : Element := { e with display := v }

/-- `element.classList.add(cls)`. -/
def Element.classListAdd (cls : String) (e : Element) : Element :=
  { e with classList := if cls ∈ e.classList then e.classList else e.classList ++ [cls] }

/-- `element.classList.remove(cls)`. -/
def Element.classListRemove (cls : String) (e : Element) : Element :=
  { e with classList := e.classList.filter (fun x => x ≠ cls) }

/-- Replace the `rows` of a table. -/
def Element.setRows (rows : List Row) (e : Element) : Element := { e with rows := rows }

/-- The table is visible: its display is not `"none"`. -/
def Element.visible (e : Element) : Prop := e.display ≠ "none"

/-- The arrow carries the class `rotated`. -/
def Element.rotated (e : Element) : Prop := "rotated" ∈ e.classList

instance (e : Element) : Decidable e.visible := inferInstanceAs (Decidable (_ ≠ _))

instance (e : Element) : Decidable e.rotated := inferInstanceAs (Decidable (_ ∈ _))

/-! ## sortBaseScoreDescending (lines 65-83) -/

/-- Lines 75-76, `parseFloat(a.cells[5].textContent || a.cells[5].innerText)`:
`none` is the `TypeError` of a row without a cell at index 5; an empty
`textContent` is falsy, and `innerText` is read instead. -/
def scoreOf (parseFloat : JSString → JSNumber) (a : Row) : Option JSNumber :=
  match a.cells[5]? with
  | none => none
  | some cell =>
    some (parseFloat (if cell.textContent ≠ [] then cell.textContent else cell.innerText))

/-- Lines 74-78, the comparison function: `bVal - aVal`. -/
def comparefn (parseFloat : JSString → JSNumber) (a b : Row) : Option JSNumber :=
  match scoreOf parseFloat a, scoreOf parseFloat b with
  | some aVal, some bVal => some (bVal.sub aVal)
  | _, _ => none

/-- Insert `x` in front of the first element `y` of a sorted array for which the
comparison `cmp x y` is not positive (a NaN result counts as `+0`). -/
def orderedInsertM {α : Type} (cmp : α → α → Option JSNumber) (x : α) :
    List α → Option (List α)
  | [] => some [x]
  | y :: l =>
    match cmp x y with
    | none => none
    | some v => if v.isPos then (orderedInsertM cmp x l).map (y :: ·) else some (x :: y :: l)

/-- `Array.prototype.sort(cmp)` of the host, as a stable insertion sort; `none`
when a call of `cmp` throws.  The sort of the host is stable, so on a consistent
comparison function its result is the one computed here whatever algorithm the
host runs; where the comparison function is not consistent (NaN scores) the
order is implementation-defined and this is one such order.  An array with at
most one element is returned without a call of `cmp`, and on a longer array
every element is compared at least once. -/
def arraySort {α : Type} (cmp : α → α → Option JSNumber) : List α → Option (List α)
  | [] => some []
  | x :: l =>
    match arraySort cmp l with
    | none => none
    | some s => orderedInsertM cmp x s

/-- Line 80, `table.appendChild(r)` on the rows of the table, each row paired
with its identity as a node: the node is taken out of where it is and put last. -/
def appendChild (rows : List (Nat × Row)) (r : Nat × Row) : List (Nat × Row) :=
  rows.filter (fun x => x.1 ≠ r.1) ++ [r]

/-- Lines 69-81 on the rows of one table: the data rows `rows[1..]` are pushed to
`arr`, `arr` is sorted, and each row of `arr` is appended to the table.  A row is
identified by its index in `rows` before the call; `none` when the comparison
function throws (nothing has been moved at that point). -/
def sortRowsByScore (parseFloat : JSString → JSNumber) (rows : List Row) : Option (List Row) :=
  match arraySort (fun a b => comparefn parseFloat a.2 b.2) (rows.enum.drop 1) with
  | none => none
  | some arr => some ((arr.foldl appendChild rows.enum).map Prod.snd)

/-- The parsed score of a row (NaN stands in for a row without a cell 5). -/
def rowScore (parseFloat : JSString → JSNumber) (r : Row) : JSNumber :=
  (scoreOf parseFloat r).getD JSNumber.nan

/-- The sort leaves `a` in front of `b`: `score b - score a` is not positive. -/
def keepsBefore (parseFloat : JSString → JSNumber) (a b : Row) : Prop :=
  ((rowScore parseFloat b).sub (rowScore parseFloat a)).isPos = false

instance (parseFloat : JSString → JSNumber) : DecidableRel (keepsBefore parseFloat) :=
  fun _ _ => inferInstanceAs (Decidable (_ = false))

/-- Score order of two rows: `score a >= score b` as Number values. -/
def scoreGe (parseFloat : JSString → JSNumber) (a b : Row) : Prop :=
  (rowScore parseFloat a).ge (rowScore parseFloat b) = true

instance (parseFloat : JSString → JSNumber) : DecidableRel (scoreGe parseFloat) :=
  fun _ _ => inferInstanceAs (Decidable (_ = true))

/-- The score text of the row parses as a number: the row has a cell 5 and
`parseFloat` of its text is not NaN. -/
def parses (parseFloat : JSString → JSNumber) (r : Row) : Prop :=
  rowScore parseFloat r ≠ JSNumber.nan

instance (parseFloat : JSString → JSNumber) (r : Row) : Decidable (parses parseFloat r) :=
  inferInstanceAs (Decidable (_ ≠ _))

/-- The rows of a table after the score sort when no comparison throws: the
header row, then the data rows in the order of the stable insertion. -/
def rowsByScore (parseFloat : JSString → JSNumber) (rows : List Row) : List Row :=
  rows.take 1 ++ List.insertionSort (keepsBefore parseFloat) rows.tail

/-- `for (var i = 0; i < tables.length; i++) body`, entered at index `i`, where
`tables` is the live collection of the `table` elements; the first argument
bounds the number of iterations (the caller passes `tables.length`). -/
def forTables (body : Nat → Document → Outcome Document) :
    Nat → Nat → Document → Outcome Document
  | 0, _, doc => Outcome.done doc
  | k + 1, i, doc =>
    if i < (getElementsByTagName doc "table").length then
      match body i doc with
      | Outcome.done doc1 => forTables body k (i + 1) doc1
      | Outcome.threw doc1 => Outcome.threw doc1
      | Outcome.outOfFuel => Outcome.outOfFuel
    else Outcome.done doc

/-- Lines 68-81, the body of the loop over the tables. -/
def sortBaseScoreBody (parseFloat : JSString → JSNumber) (i : Nat) (doc : Document) :
    Outcome Document :=
  match (getElementsByTagName doc "table")[i]? with
  | none => Outcome.threw doc
  | some t =>
    match sortRowsByScore parseFloat (rowsAt doc t) with
    | none => Outcome.threw doc
    | some rows => Outcome.done (doc.modify (Element.setRows rows) t)

/-- `sortBaseScoreDescending()`. -/
def sortBaseScoreDescending (parseFloat : JSString → JSNumber) (doc : Document) :
    Outcome Document :=
  forTables (sortBaseScoreBody parseFloat) (getElementsByTagName doc "table").length 0 doc

/-! ## toggleTable, toggleAll, onHeaderClick, collapseAll, expandAll -/

/-- `toggleTable(tableId, arrowId)`, lines 1-12. A `null` table throws at line 4
with nothing written; a `null` arrow throws at line 6 or 9, after the display of
the table has been written and before the sort. -/
def toggleTable (parseFloat : JSString → JSNumber) (doc : Document)
    (tableId arrowId : String) : Outcome Document :=
  match getElementById doc tableId with
  | none => Outcome.threw doc
  | some t =>
    if displayAt doc t = some "none" then
      let doc1 := doc.modify (Element.setDisplay "table") t
      match getElementById doc arrowId with
      | none => Outcome.threw doc1
      | some a =>
        sortBaseScoreDescending parseFloat (doc1.modify (Element.classListAdd "rotated") a)
    else
      let doc1 := doc.modify (Element.setDisplay "none") t
      match getElementById doc arrowId with
      | none => Outcome.threw doc1
      | some a =>
        sortBaseScoreDescending parseFloat (doc1.modify (Element.classListRemove "rotated") a)

/-- Lines 19-25, the body of the loop of `toggleAll`; `arrows[i]` undefined
throws after the display of `tables[i]` has been written. -/
def toggleAllBody (i : Nat) (doc : Document) : Outcome Document :=
  match (getElementsByTagName doc "table")[i]? with
  | none => Outcome.threw doc
  | some t =>
    if displayAt doc t = some "none" then
      let doc1 := doc.modify (Element.setDisplay "table") t
      match (getElementsByClassName doc1 "arrow")[i]? with
      | none => Outcome.threw doc1
      | some a => Outcome.done (doc1.modify (Element.classListAdd "rotated") a)
    else
      let doc1 := doc.modify (Element.setDisplay "none") t
      match (getElementsByClassName doc1 "arrow")[i]? with
      | none => Outcome.threw doc1
      | some a => Outcome.done (doc1.modify (Element.classListRemove "rotated") a)

/-- `toggleAll()`, lines 15-27. -/
def toggleAll (doc : Document) : Outcome Document :=
  forTables toggleAllBody (getElementsByTagName doc "table").length 0 doc

/-- `onHeaderClick(tableId, columnIndex)`, lines 88-91. With a `null` table,
`table.rows` throws in `sortTable` before anything is written. -/
def onHeaderClick (toLowerCase : JSString → JSString) (fuel : Nat) (doc : Document)
    (tableId : String) (columnIndex : Nat) : Outcome Document :=
  match getElementById doc tableId with
  | none => Outcome.threw doc
  | some t =>
    match doc[t]? with
    | none => Outcome.threw doc
    | some table =>
      (sortTable toLowerCase fuel table columnIndex).map (fun table1 => doc.set t table1)

/-- Lines 97-98, the body of the loop of `collapseAll`. -/
def collapseAllBody (i : Nat) (doc : Document) : Outcome Document :=
  match (getElementsByTagName doc "table")[i]? with
  | none => Outcome.threw doc
  | some t =>
    let doc1 := doc.modify (Element.setDisplay "none") t
    match (getElementsByClassName doc1 "arrow")[i]? with
    | none => Outcome.threw doc1
    | some a => Outcome.done (doc1.modify (Element.classListRemove "rotated") a)

/-- `collapseAll()`, lines 93-100. -/
def collapseAll (doc : Document) : Outcome Document :=
  forTables collapseAllBody (getElementsByTagName doc "table").length 0 doc

/-- Lines 106-107, the body of the loop of `expandAll`. -/
def expandAllBody (i : Nat) (doc : Document) : Outcome Document :=
  match (getElementsByTagName doc "table")[i]? with
  | none => Outcome.threw doc
  | some t =>
    let doc1 := doc.modify (Element.setDisplay "table") t
    match (getElementsByClassName doc1 "arrow")[i]? with
    | none => Outcome.threw doc1
    | some a => Outcome.done (doc1.modify (Element.classListAdd "rotated") a)

/-- `expandAll()`, lines 102-109. -/
def expandAll (doc : Document) : Outcome Document :=
  forTables expandAllBody (getElementsByTagName doc "table").length 0 doc

/-- A text cell. -/
def textCell (s : String) : Cell :=
  { tag := CellTag.td, innerHTML := jsStr s, textContent := jsStr s, innerText := jsStr s }

/-- A row of text cells. -/
def textRow (cols : List String) : Row := { cells := cols.map textCell }

/-- A header row. -/
def headRow (cols : List String) : Row :=
  { cells := cols.map (fun s => { textCell s with tag := CellTag.th }) }

/-- A table element with the given id, display and rows. -/
def mkTable (id display : String) (rows : List Row) : Element :=
  { id := id, tagName := "table", classList := [], display := display, rows := rows }


/-! ## Loops over the tables as sequences of element updates -/

/-- What the collections and `getElementById` read of an element: its id, its
tag name and whether it carries the class `arrow`. -/
def shapeOf (e : Element) : String × String × Bool :=
  (e.id, e.tagName, decide ("arrow" ∈ e.classList))

/-- The document after the first `i` updates `upd 0`, ..., `upd (i - 1)`. -/
def runUpdates (upd : Nat → Document → Document) (doc : Document) : Nat → Document
  | 0 => doc
  | i + 1 => upd i (runUpdates upd doc i)

/-- The update of iteration `i` of a loop that changes the element at `t` by
`f1 t` and then the element at `a` by `f2 t`, for the `i`-th pair `(t, a)`. -/
def staticUpdate (pairs : List (Nat × Nat)) (f1 f2 : Nat → Element → Element)
    (i : Nat) (d : Document) : Document :=
  match pairs[i]? with
  | some (t, a) => (d.modify (f1 t) t).modify (f2 t) a
  | none => d

/-- The element at position `p` after the first `i` such updates. -/
def elemRun (pairs : List (Nat × Nat)) (f1 f2 : Nat → Element → Element) (p : Nat) :
    Nat → Element → Element
  | 0, e => e
  | i + 1, e =>
    match pairs[i]? with
    | some (t, a) =>
      let e1 := if t = p then f1 t (elemRun pairs f1 f2 p i e) else elemRun pairs f1 f2 p i e
      if a = p then f2 t e1 else e1
    | none => elemRun pairs f1 f2 p i e

/-- The common form of the loop bodies of `toggleAll`, `collapseAll` and
`expandAll`: the display of `tables[i]` becomes `g` of its display, then
`arrows[i]` is changed by `h` of that display. -/
def pairBody (g : Option String → String) (h : Option String → Element → Element)
    (i : Nat) (doc : Document) : Outcome Document :=
  match (getElementsByTagName doc "table")[i]? with
  | none => Outcome.threw doc
  | some t =>
    match (getElementsByClassName (doc.modify (Element.setDisplay (g (displayAt doc t))) t)
        "arrow")[i]? with
    | none => Outcome.threw (doc.modify (Element.setDisplay (g (displayAt doc t))) t)
    | some a =>
      Outcome.done ((doc.modify (Element.setDisplay (g (displayAt doc t))) t).modify
        (h (displayAt doc t)) a)

/-- The display update of a loop of the common form on the table at `t`, read
off the document `doc` the loop starts from. -/
def pairDisplay (g : Option String → String) (doc : Document) (t : Nat) :
    Element → Element :=
  Element.setDisplay (g (displayAt doc t))

/-- The class update of a loop of the common form on the arrow paired with the
table at `t`, read off the document `doc` the loop starts from. -/
def pairClass (h : Option String → Element → Element) (doc : Document) (t : Nat) :
    Element → Element :=
  h (displayAt doc t)

/-- An element after the score sort when no comparison throws: a table has its
rows sorted, any other element is untouched. -/
def sortedElement (parseFloat : JSString → JSNumber) (e : Element) : Element :=
  if e.tagName = "table" then e.setRows (rowsByScore parseFloat e.rows) else e

/-- The element `e1` is `e` up to the order of its data rows: same id, tag,
classes and display, same header row, and the data rows are a permutation. -/
def SameButRowOrder (e e1 : Element) : Prop :=
  e1.id = e.id ∧ e1.tagName = e.tagName ∧ e1.classList = e.classList ∧
    e1.display = e.display ∧ e1.rows.head? = e.rows.head? ∧ e1.rows.tail.Perm e.rows.tail

/-- The document `d1` has the elements of `d`, position by position, up to `R`. -/
def DocRel (R : Element → Element → Prop) (d d1 : Document) : Prop :=
  d1.length = d.length ∧
    ∀ (p : Nat) (e : Element), d[p]? = some e → ∃ e1, d1[p]? = some e1 ∧ R e e1

/-- The document after lines 4-10 of `toggleTable`, for a table at position `t`
and an arrow at position `a`. -/
def toggled (doc : Document) (t a : Nat) : Document :=
  if displayAt doc t = some "none" then
    (doc.modify (Element.setDisplay "table") t).modify (Element.classListAdd "rotated") a
  else
    (doc.modify (Element.setDisplay "none") t).modify (Element.classListRemove "rotated") a

/-- The document after line 5 or 8 of `toggleTable`: only the display of the
element at `t` has been written. -/
def displayFlipped (doc : Document) (t : Nat) : Document :=
  if displayAt doc t = some "none" then doc.modify (Element.setDisplay "table") t
  else doc.modify (Element.setDisplay "none") t

/-- The write of line 5 or 8 of `toggleTable` on the table: a display of
`"none"` becomes `"table"`, any other display becomes `"none"`. -/
def flipDisplay (e : Element) : Element :=
  e.setDisplay (if e.display = "none" then "table" else "none")

/-- The element at a position exists and is visible. -/
def visibleAt (doc : Document) (t : Nat) : Bool :=
  match doc[t]? with
  | some e => decide e.visible
  | none => false

/-- The element at a position exists and is rotated. -/
def rotatedAt (doc : Document) (a : Nat) : Bool :=
  match doc[a]? with
  | some e => decide e.rotated
  | none => false

/-- The number of visible tables of the document. -/
def visibleTables (doc : Document) : Nat :=
  (getElementsByTagName doc "table").countP (visibleAt doc)

/-- The arrows reflect the tables: for every `i`, the `i`-th arrow is rotated
if and only if the `i`-th table is visible. -/
def arrowsReflect (doc : Document) : Prop :=
  ∀ ta ∈ (getElementsByTagName doc "table").zip (getElementsByClassName doc "arrow"),
    rotatedAt doc ta.2 = visibleAt doc ta.1

instance (doc : Document) : Decidable (arrowsReflect doc) :=
  inferInstanceAs (Decidable (∀ ta ∈ _, _ = _))

/-- A parser for test inputs: the value of the leading run of ASCII digits, NaN
when there is none. It agrees with `parseFloat` on the empty string, on text
that starts with a letter other than `I`, and on runs of at most 15 digits. -/
def parseDigits (s : JSString) : JSNumber :=
  match s.takeWhile (fun u => 48 ≤ u ∧ u ≤ 57) with
  | [] => JSNumber.nan
  | ds => JSNumber.fin ((ds.foldl (fun n u => 10 * n + (u - 48)) 0 : Nat) : ℚ)

/-- A data row whose cell 0 is a name and whose cell 5 is the score text. -/
def scoreRow (name score : String) : Row := textRow [name, "", "", "", "", score]

/-- An arrow indicator with the given id and classes. -/
def mkArrow (id : String) (classes : List String) : Element :=
  { id := id, tagName := "span", classList := classes, display := "", rows := [] }

/-- The table of the example: column 0 reads banana, apple, cherry. -/
def fruitTable : Element :=
  mkTable "fruit" "" [headRow ["name"], textRow ["banana"], textRow ["apple"], textRow ["cherry"]]

/-- The same table with column 0 ascending. -/
def fruitAscending : Element :=
  mkTable "fruit" "" [headRow ["name"], textRow ["apple"], textRow ["banana"], textRow ["cherry"]]

/-- The same table with column 0 descending. -/
def fruitDescending : Element :=
  mkTable "fruit" "" [headRow ["name"], textRow ["cherry"], textRow ["banana"], textRow ["apple"]]

/-- A table with a header and two data rows whose scores read abc and 7. -/
def nanTable : Element :=
  mkTable "scores" "" [headRow ["name", "", "", "", "", "score"], scoreRow "first" "abc",
    scoreRow "second" "7"]

/-- A document of one visible table, scores 3, 7, 5, and its unrotated arrow. -/
def scoreDoc : Document :=
  [mkArrow "arrow1" ["arrow"],
    mkTable "table1" "" [headRow ["name", "", "", "", "", "score"], scoreRow "a" "3",
      scoreRow "b" "7", scoreRow "c" "5"]]

/-- The document `scoreDoc` after the score sort. -/
def scoreDocSorted : Document :=
  [mkArrow "arrow1" ["arrow"],
    mkTable "table1" "" [headRow ["name", "", "", "", "", "score"], scoreRow "b" "7",
      scoreRow "c" "5", scoreRow "a" "3"]]

/-- A table whose column 0 reads Pear, apple, pear: two rows of equal key. -/
def pearTable : Element :=
  mkTable "pears" "" [headRow ["name", "n"], textRow ["Pear", "1"], textRow ["apple", "2"],
    textRow ["pear", "3"]]

/-- The table `pearTable` with column 0 ascending, the two pears in their order. -/
def pearAscending : Element :=
  mkTable "pears" "" [headRow ["name", "n"], textRow ["apple", "2"], textRow ["Pear", "1"],
    textRow ["pear", "3"]]

/-- A table that has a header row and one data row. -/
def oneRowTable : Element :=
  mkTable "one" "" [headRow ["name"], textRow ["apple"]]

/-- A document of two tables and two arrows in which each arrow reflects its
table: the first table is visible and its arrow rotated, the second table is
hidden and its arrow unrotated. -/
def pairDoc : Document :=
  [mkArrow "arrow1" ["arrow", "rotated"],
    mkTable "table1" "" [headRow ["name", "", "", "", "", "score"], scoreRow "a" "3",
      scoreRow "b" "7"],
    mkArrow "arrow2" ["arrow"],
    mkTable "table2" "none" [headRow ["name", "", "", "", "", "score"], scoreRow "c" "5"]]

/-- The document `pairDoc` after `toggleAll`. -/
def pairDocToggled : Document :=
  [mkArrow "arrow1" ["arrow"],
    mkTable "table1" "none" [headRow ["name", "", "", "", "", "score"], scoreRow "a" "3",
      scoreRow "b" "7"],
    mkArrow "arrow2" ["arrow", "rotated"],
    mkTable "table2" "table" [headRow ["name", "", "", "", "", "score"], scoreRow "c" "5"]]

/-! ## The text of a cell and its markup -/

/-- The key of a row read as the text of its cell at the column, every cell of
the row counted, `TH` cells included: the lower-cased `textContent` of
`row.cells[columnIndex]` (the empty string stands in when the row has no such
cell).  `sortTable` does not read this; it is what an order "by cell text" is
measured with. -/
def textKey (toLowerCase : JSString → JSString) (columnIndex : Nat) (r : Row) : JSString :=
  match r.cells[columnIndex]? with
  | some x => toLowerCase x.textContent
  | none => []

/-- Text order `a <= b` of two rows: not `text a > text b`. -/
def textLe (toLowerCase : JSString → JSString) (columnIndex : Nat) (a b : Row) : Prop :=
  jsLt (textKey toLowerCase columnIndex b) (textKey toLowerCase columnIndex a) = false

instance (toLowerCase : JSString → JSString) (columnIndex : Nat) :
    DecidableRel (textLe toLowerCase columnIndex) :=
  fun _ _ => inferInstanceAs (Decidable (jsLt _ _ = false))

/-- A `TD` cell whose markup is not its text: `innerHTML` is the serialised
content, `textContent` and `innerText` the text it shows. -/
def markupCell (html text : String) : Cell :=
  { tag := CellTag.td, innerHTML := jsStr html, textContent := jsStr text,
    innerText := jsStr text }

/-- A data row of one cell with the given markup and text. -/
def markupRow (html text : String) : Row := { cells := [markupCell html text] }

/-- A table whose column 0 shows `<`, `1`, `z`; the markup of the first cell is
the character reference `&lt;`, which sorts before `1`. -/
def entityTable : Element :=
  mkTable "entity" "" [headRow ["sign"], markupRow "&lt;" "<", textRow ["1"], textRow ["z"]]

/-- The table `entityTable` with column 0 showing `z`, `1`, `<`. -/
def entityDescending : Element :=
  mkTable "entity" "" [headRow ["sign"], textRow ["z"], textRow ["1"], markupRow "&lt;" "<"]

/-- A table whose column 0 shows `1`, `<`, `z`, in the order of the text. -/
def entityByText : Element :=
  mkTable "entity" "" [headRow ["sign"], textRow ["1"], markupRow "&lt;" "<", textRow ["z"]]

/-- The table `entityByText` with column 0 showing `<`, `1`, `z`. -/
def entityByMarkup : Element :=
  mkTable "entity" "" [headRow ["sign"], markupRow "&lt;" "<", textRow ["1"], textRow ["z"]]

/-- A data row that starts with a `TH` cell (a row heading) followed by one
`TD` cell: two cells, one of them a `TD`. -/
def keyedRow (key value : String) : Row :=
  { cells := [{ textCell key with tag := CellTag.th }, textCell value] }

/-- A table whose data rows are a row heading and a value; column 1 shows `2`,
`1`. -/
def keyedTable : Element :=
  mkTable "keyed" "" [headRow ["key", "value"], keyedRow "b" "2", keyedRow "a" "1"]

/-- A table of the same shape whose column 1 shows `1`, `2`. -/
def keyedAscending : Element :=
  mkTable "keyed" "" [headRow ["key", "value"], keyedRow "a" "1", keyedRow "b" "2"]

/-- A table whose two data rows both show `x` in column 0, the first in
italics and the second in bold. -/
def styledTable : Element :=
  mkTable "styled" "" [headRow ["mark"], markupRow "<i>x</i>" "x", markupRow "<b>x</b>" "x"]

/-- The table `styledTable` with the bold row first. -/
def styledSorted : Element :=
  mkTable "styled" "" [headRow ["mark"], markupRow "<b>x</b>" "x", markupRow "<i>x</i>" "x"]

/-! ## The document as a tree

The definitions above take a document whose table rows hold cells of text: no
element inside a row is looked up by the script, so a row can change place
without any element of the document changing position.  Where a row holds
elements of its own (an arrow, another table), `table.appendChild(row)` moves
them with the row, and their place in the live collections changes.  The
definitions of this section embed `sortBaseScoreDescending` on the document as
a tree of nodes, where a row is an element with children like any other. -/

namespace Tree

/-- A node of the document: a text node, or an element with its children.
`key` is the identity of the element node (no two elements of one document have
the same key); `tagName` is the local name in lower case and `display` is
`style.display`. -/
inductive Node where
  | text (data : JSString)
  | element (key : Nat) (tagName : String) (classList : List String) (display : String)
      (children : List Node)

mutual
/-- Equality of two nodes is decidable. -/
def Node.decEq : (a b : Node) → Decidable (a = b)
  | .text s, .text s1 =>
    if h : s = s1 then isTrue (by rw [h]) else isFalse (fun h1 => h (by cases h1; rfl))
  | .text _, .element _ _ _ _ _ => isFalse (fun h => by cases h)
  | .element _ _ _ _ _, .text _ => isFalse (fun h => by cases h)
  | .element k t c d cs, .element k1 t1 c1 d1 cs1 =>
    if h : k = k1 ∧ t = t1 ∧ c = c1 ∧ d = d1 then
      match decEqList cs cs1 with
      | isTrue h1 => isTrue (by rw [h.1, h.2.1, h.2.2.1, h.2.2.2, h1])
      | isFalse h1 => isFalse (fun h2 => h1 (by cases h2; rfl))
    else isFalse (fun h2 => h (by cases h2; exact ⟨rfl, rfl, rfl, rfl⟩))
termination_by structural a => a
/-- Equality of two lists of nodes is decidable. -/
def decEqList : (l l1 : List Node) → Decidable (l = l1)
  | [], [] => isTrue rfl
  | [], _ :: _ => isFalse (fun h => by cases h)
  | _ :: _, [] => isFalse (fun h => by cases h)
  | a :: l, b :: l1 =>
    match Node.decEq a b, decEqList l l1 with
    | isTrue h, isTrue h1 => isTrue (by rw [h, h1])
    | isFalse h, _ => isFalse (fun h2 => h (by cases h2; rfl))
    | _, isFalse h1 => isFalse (fun h2 => h1 (by cases h2; rfl))
termination_by structural l => l
end

instance : DecidableEq Node := Node.decEq

/-- `node.childNodes`. -/
def Node.children : Node → List Node
  | .text _ => []
  | .element _ _ _ _ cs => cs

/-- The local name of an element (empty on a text node, which has none). -/
def Node.tagName : Node → String
  | .text _ => ""
  | .element _ t _ _ _ => t

/-- `element.classList` (empty on a text node). -/
def Node.classList : Node → List String
  | .text _ => []
  | .element _ _ c _ _ => c

/-- `element.style.display` (empty on a text node). -/
def Node.display : Node → String
  | .text _ => ""
  | .element _ _ _ d _ => d

/-- The identity of an element node; `none` on a text node. -/
def Node.key? : Node → Option Nat
  | .text _ => none
  | .element k _ _ _ _ => some k

mutual
/-- The elements of the subtree of a node in document order: the node itself,
then the elements of its children, first child first. -/
def Node.elements : Node → List Node
  | .text _ => []
  | .element k t c d cs => Node.element k t c d cs :: elementsOf cs
termination_by structural n => n
/-- The elements of the subtrees of a list of siblings, in document order. -/
def elementsOf : List Node → List Node
  | [] => []
  | n :: ns => n.elements ++ elementsOf ns
termination_by structural l => l
end

mutual
/-- `node.textContent`: the data of the text nodes of the subtree, in document
order. -/
def Node.textContent : Node → JSString
  | .text s => s
  | .element _ _ _ _ cs => textContentOf cs
termination_by structural n => n
/-- The concatenated `textContent` of a list of siblings. -/
def textContentOf : List Node → JSString
  | [] => []
  | n :: ns => n.textContent ++ textContentOf ns
termination_by structural l => l
end

mutual
/-- The subtree of a node with the element of key `k` taken out, wherever it is
below the node. -/
def Node.remove (k : Nat) : Node → Node
  | .text s => Node.text s
  | .element key t c d cs => Node.element key t c d (removeOf k cs)
termination_by structural n => n
/-- The list of siblings with the element of key `k` taken out of it or of one of
the subtrees. -/
def removeOf (k : Nat) : List Node → List Node
  | [] => []
  | n :: ns => if n.key? = some k then removeOf k ns else Node.remove k n :: removeOf k ns
termination_by structural l => l
end

mutual
/-- The subtree of a node with `r` added as the last child of the element of key
`p`. -/
def Node.insertLast (p : Nat) (r : Node) : Node → Node
  | .text s => Node.text s
  | .element key t c d cs =>
    if key = p then Node.element key t c d (cs ++ [r])
    else Node.element key t c d (insertLastOf p r cs)
termination_by structural n => n
/-- The list of siblings with `r` added as the last child of the element of key
`p` in one of the subtrees. -/
def insertLastOf (p : Nat) (r : Node) : List Node → List Node
  | [] => []
  | n :: ns => Node.insertLast p r n :: insertLastOf p r ns
termination_by structural l => l
end

/-- `document.getElementsByTagName(tag)`: the elements with that tag in
document order, read off the document as it is when the collection is read. -/
def getElementsByTagName (doc : Node) (tag : String) : List Node :=
  doc.elements.filter (fun n => n.tagName = tag)

/-- `document.getElementsByClassName(cls)`. -/
def getElementsByClassName (doc : Node) (cls : String) : List Node :=
  doc.elements.filter (fun n => cls ∈ n.classList)

/-- The children of a node that are elements with the given tag. -/
def Node.childrenTagged (n : Node) (tag : String) : List Node :=
  n.children.filter (fun c => c.tagName = tag)

/-- `table.rows`: the `tr` children of the `thead` children of the table, then
the `tr` elements that are children of the table or of one of its `tbody`
children, in tree order, then the `tr` children of its `tfoot` children. -/
def Node.rows (table : Node) : List Node :=
  ((table.childrenTagged "thead").map (fun g => g.childrenTagged "tr")).flatten
    ++ (table.children.map (fun n =>
        if n.tagName = "tr" then [n]
        else if n.tagName = "tbody" then n.childrenTagged "tr" else [])).flatten
    ++ ((table.childrenTagged "tfoot").map (fun g => g.childrenTagged "tr")).flatten

/-- `row.cells`: the `td` and `th` children of the row. -/
def Node.cells (row : Node) : List Node :=
  row.children.filter (fun c => c.tagName = "td" ∨ c.tagName = "th")

/-- Lines 75-76, `parseFloat(a.cells[5].textContent || a.cells[5].innerText)`:
`none` is the `TypeError` of a row without a cell at index 5; `innerText`,
which depends on the rendering, is a parameter, read when `textContent` is
empty. -/
def scoreOf (parseFloat : JSString → JSNumber) (innerText : Node → JSString) (a : Node) :
    Option JSNumber :=
  match a.cells[5]? with
  | none => none
  | some cell =>
    some (parseFloat (if cell.textContent ≠ [] then cell.textContent else innerText cell))

/-- Lines 74-78, the comparison function: `bVal - aVal`. -/
def comparefn (parseFloat : JSString → JSNumber) (innerText : Node → JSString) (a b : Node) :
    Option JSNumber :=
  match scoreOf parseFloat innerText a, scoreOf parseFloat innerText b with
  | some aVal, some bVal => some (bVal.sub aVal)
  | _, _ => none

/-- Line 80, `table.appendChild(r)` for the table of key `p`: the row is taken
out of where it is, with its subtree, and becomes the last child of the table. -/
def appendChild (doc : Node) (p : Nat) (r : Node) : Node :=
  match r.key? with
  | none => doc
  | some k => Node.insertLast p r (Node.remove k doc)

/-- Lines 68-81, the body of the loop over the tables: the rows `rows[1..]` are
pushed to `arr`, `arr` is sorted (`none` when the comparison function throws,
before any row has moved), and each row of `arr` is appended to the table. -/
def sortBaseScoreBody (parseFloat : JSString → JSNumber) (innerText : Node → JSString)
    (i : Nat) (doc : Node) : Outcome Node :=
  match (getElementsByTagName doc "table")[i]? with
  | none => Outcome.threw doc
  | some table =>
    match table.key?, arraySort (comparefn parseFloat innerText) (table.rows.drop 1) with
    | some p, some arr => Outcome.done (arr.foldl (fun d r => appendChild d p r) doc)
    | _, _ => Outcome.threw doc

/-- `for (var i = 0; i < tables.length; i++) body`, entered at index `i`, on the
live collection of the tables; the first argument bounds the number of
iterations (the caller passes `tables.length`, which no iteration changes). -/
def forTables (body : Nat → Node → Outcome Node) : Nat → Nat → Node → Outcome Node
  | 0, _, doc => Outcome.done doc
  | k + 1, i, doc =>
    if i < (getElementsByTagName doc "table").length then
      match body i doc with
      | Outcome.done doc1 => forTables body k (i + 1) doc1
      | Outcome.threw doc1 => Outcome.threw doc1
      | Outcome.outOfFuel => Outcome.outOfFuel
    else Outcome.done doc

/-- `sortBaseScoreDescending()` on the document as a tree. -/
def sortBaseScoreDescending (parseFloat : JSString → JSNumber)
    (innerText : Node → JSString) (doc : Node) : Outcome Node :=
  forTables (sortBaseScoreBody parseFloat innerText)
    (getElementsByTagName doc "table").length 0 doc

/-- The keys of the elements of a document, in document order. -/
def keys (doc : Node) : List (Option Nat) := doc.elements.map Node.key?

/-- The element is visible: its display is not `"none"`. -/
def Node.visible (n : Node) : Bool := decide (n.display ≠ "none")

/-- The element carries the class `rotated`. -/
def Node.rotated (n : Node) : Bool := decide ("rotated" ∈ n.classList)

/-- The arrows reflect the tables: for every `i`, the `i`-th arrow is rotated
if and only if the `i`-th table is visible. -/
def arrowsReflect (doc : Node) : Prop :=
  ∀ ta ∈ (getElementsByTagName doc "table").zip (getElementsByClassName doc "arrow"),
    ta.2.rotated = ta.1.visible

instance (doc : Node) : Decidable (arrowsReflect doc) :=
  inferInstanceAs (Decidable (∀ ta ∈ _, _ = _))

/-- An element without class or display. -/
def plain (key : Nat) (tagName : String) (children : List Node) : Node :=
  Node.element key tagName [] "" children

/-- A text node of a literal. -/
def txt (s : String) : Node := Node.text (jsStr s)

/-- A header row of six `th` cells, with keys `key + 1` to `key + 6`. -/
def headerRow (key : Nat) : Node :=
  plain key "tr" [plain (key + 1) "th" [txt "name"], plain (key + 2) "th" [],
    plain (key + 3) "th" [], plain (key + 4) "th" [], plain (key + 5) "th" [],
    plain (key + 6) "th" [txt "score"]]

/-- A data row of six `td` cells, with keys `key + 1` to `key + 6`: the first
cell holds the given nodes, the last one the score text. -/
def dataRow (key : Nat) (first : List Node) (score : String) : Node :=
  plain key "tr" [plain (key + 1) "td" first, plain (key + 2) "td" [],
    plain (key + 3) "td" [], plain (key + 4) "td" [], plain (key + 5) "td" [],
    plain (key + 6) "td" [txt score]]

/-- An arrow indicator. -/
def arrow (key : Nat) (classes : List String) : Node :=
  Node.element key "span" classes "" []

/-- A document of two tables whose arrows stand in the data rows of the first
table: a visible table whose rows score 3 (with the rotated arrow of this
table) and 7 (with the unrotated arrow of the second table), and a hidden
table. For every `i` the `i`-th arrow reflects the `i`-th table. -/
def arrowRowsDoc : Node :=
  plain 0 "body" [
    Node.element 1 "table" [] "" [plain 2 "tbody" [headerRow 10,
      dataRow 20 [arrow 27 ["arrow", "rotated"], txt "first"] "3",
      dataRow 30 [arrow 37 ["arrow"], txt "second"] "7"]],
    Node.element 3 "table" [] "none" [plain 4 "tbody" [headerRow 40,
      dataRow 50 [txt "c"] "5"]]]

/-- The document `arrowRowsDoc` after the score sort: in each table the data
rows are the last children of the table, the row that scores 7 in front. -/
def arrowRowsSorted : Node :=
  plain 0 "body" [
    Node.element 1 "table" [] "" [plain 2 "tbody" [headerRow 10],
      dataRow 30 [arrow 37 ["arrow"], txt "second"] "7",
      dataRow 20 [arrow 27 ["arrow", "rotated"], txt "first"] "3"],
    Node.element 3 "table" [] "none" [plain 4 "tbody" [headerRow 40],
      dataRow 50 [txt "c"] "5"]]

/-- A document of three arrows (rotated, unrotated, rotated) followed by a
visible table whose data rows hold a table each: a hidden one in the row that
scores 3, a visible one in the row that scores 7. For every `i` the `i`-th
arrow reflects the `i`-th table. -/
def nestedTablesDoc : Node :=
  plain 0 "body" [arrow 1 ["arrow", "rotated"], arrow 2 ["arrow"],
    arrow 3 ["arrow", "rotated"],
    Node.element 4 "table" [] "" [plain 5 "tbody" [headerRow 10,
      dataRow 20 [Node.element 27 "table" [] "none" []] "3",
      dataRow 30 [Node.element 37 "table" [] "" []] "7"]]]

/-- The document `nestedTablesDoc` after the score sort. -/
def nestedTablesSorted : Node :=
  plain 0 "body" [arrow 1 ["arrow", "rotated"], arrow 2 ["arrow"],
    arrow 3 ["arrow", "rotated"],
    Node.element 4 "table" [] "" [plain 5 "tbody" [headerRow 10],
      dataRow 30 [Node.element 37 "table" [] "" []] "7",
      dataRow 20 [Node.element 27 "table" [] "none" []] "3"]]

/-- The document `pairDoc` as a tree: the two arrows stand in front of their
tables, outside every row; the first table is visible and its rows score 3 and
7, the second is hidden. -/
def pairTree : Node :=
  plain 0 "body" [arrow 1 ["arrow", "rotated"],
    Node.element 2 "table" [] "" [plain 3 "tbody" [headerRow 10,
      dataRow 20 [txt "a"] "3", dataRow 30 [txt "b"] "7"]],
    arrow 4 ["arrow"],
    Node.element 5 "table" [] "none" [plain 6 "tbody" [headerRow 40,
      dataRow 50 [txt "c"] "5"]]]

/-- The document `pairTree` after the score sort. -/
def pairTreeSorted : Node :=
  plain 0 "body" [arrow 1 ["arrow", "rotated"],
    Node.element 2 "table" [] "" [plain 3 "tbody" [headerRow 10],
      dataRow 30 [txt "b"] "7", dataRow 20 [txt "a"] "3"],
    arrow 4 ["arrow"],
    Node.element 5 "table" [] "none" [plain 6 "tbody" [headerRow 40],
      dataRow 50 [txt "c"] "5"]]

end Tree

/-- The document `pairDoc` followed by a `textarea` and by a row group (a
`tbody`) whose rows read b, a after its first row. -/
def notesDoc : Document :=
  pairDoc ++ [{ id := "notes", tagName := "textarea", classList := [], display := "", rows := [] },
    { id := "group", tagName := "tbody", classList := [], display := "",
      rows := [textRow ["first"], textRow ["b"], textRow ["a"]] }]

/-! ## Order facts about string comparison -/

theorem jsLt_irrefl (x : JSString) : jsLt x x = false := by
  induction x with
  | nil => rfl
  | cons a x ih => simp [jsLt, ih]

theorem jsLt_asymm : ∀ (x y : JSString), jsLt x y = true → jsLt y x = false
  | _, [], h => by simp [jsLt] at h
  | [], _ :: _, _ => by simp [jsLt]
  | a :: x, b :: y, h => by
    simp only [jsLt] at h ⊢
    by_cases h1 : a < b
    · have h2 : ¬ b < a := by omega
      simp [h2, h1]
    · by_cases h2 : b < a
      · simp [h1, h2] at h
      · simp only [h1, h2, if_false] at h ⊢
        exact jsLt_asymm x y h

theorem jsLt_trans : ∀ (x y z : JSString), jsLt x y = true → jsLt y z = true → jsLt x z = true
  | _, [], _, h1, _ => by simp [jsLt] at h1
  | _, _ :: _, [], _, h2 => by simp [jsLt] at h2
  | [], _ :: _, _ :: _, _, _ => by simp [jsLt]
  | a :: x, b :: y, c :: z, h1, h2 => by
    simp only [jsLt] at h1 h2 ⊢
    by_cases hab : a < b
    · by_cases hbc : b < c
      · have : a < c := by omega
        simp [this]
      · by_cases hcb : c < b
        · simp [hbc, hcb] at h2
        · have : a < c := by omega
          simp [this]
    · by_cases hba : b < a
      · simp [hab, hba] at h1
      · simp only [hab, hba, if_false] at h1
        have hab2 : a = b := by omega
        subst hab2
        by_cases hbc : a < c
        · simp [hbc]
        · by_cases hcb : c < a
          · simp [hbc, hcb] at h2
          · simp only [hbc, hcb, if_false] at h2 ⊢
            exact jsLt_trans x y z h1 h2

theorem jsLt_connex : ∀ (x y : JSString), jsLt x y = false → jsLt y x = false → x = y
  | [], [], _, _ => rfl
  | [], _ :: _, h, _ => by simp [jsLt] at h
  | _ :: _, [], _, h => by simp [jsLt] at h
  | a :: x, b :: y, h1, h2 => by
    simp only [jsLt] at h1 h2
    by_cases hab : a < b
    · simp [hab] at h1
    · by_cases hba : b < a
      · simp [hba] at h2
      · simp only [hab, hba, if_false] at h1 h2
        have : a = b := by omega
        rw [this, jsLt_connex x y h1 h2]

/-- The order `not (y < x)` on strings is transitive. -/
theorem jsLe_trans (x y z : JSString) (h1 : jsLt y x = false) (h2 : jsLt z y = false) :
    jsLt z x = false := by
  by_contra h
  have hzx : jsLt z x = true := by simpa using h
  by_cases hxy : jsLt x y = true
  · have := jsLt_trans z x y hzx hxy
    simp [this] at h2
  · have hxy2 : jsLt x y = false := by simpa using hxy
    have := jsLt_connex x y hxy2 h1
    subst this
    simp [hzx] at h2

/-! ## Inversions and the scan of one pass -/

theorem inversions_swap {α : Type} (bad : α → α → Bool) (a b : α)
    (hab : bad a b = true) (hba : bad b a = false) (pre post : List α) :
    inversions bad (pre ++ b :: a :: post) + 1 = inversions bad (pre ++ a :: b :: post) := by
  induction pre with
  | nil =>
    simp [inversions, List.countP_cons, hab, hba]
    omega
  | cons p pre ih =>
    have hperm : (pre ++ b :: a :: post).Perm (pre ++ a :: b :: post) :=
      List.Perm.append_left _ (List.Perm.swap a b post)
    have hc := hperm.countP_eq (bad p)
    show List.countP (bad p) (pre ++ b :: a :: post) + inversions bad (pre ++ b :: a :: post) + 1
      = List.countP (bad p) (pre ++ a :: b :: post) + inversions bad (pre ++ a :: b :: post)
    omega

theorem outOfOrder_asymm (toLowerCase : JSString → JSString) (c : Nat) (d : Dir) (a b : Row)
    (h : outOfOrder toLowerCase c d a b = true) : outOfOrder toLowerCase c d b a = false := by
  cases d <;> exact jsLt_asymm _ _ h

theorem firstBad_none {α : Type} (bad : α → α → Bool) :
    ∀ (l : List α), firstBad bad l = none → List.Chain' (fun a b => bad a b = false) l
  | [], _ => List.chain'_nil
  | [_], _ => List.chain'_singleton _
  | a :: b :: l, h => by
    simp only [firstBad] at h
    by_cases hb : bad a b = true
    · simp [hb] at h
    · simp only [hb] at h
      rw [List.chain'_cons]
      refine ⟨by simpa using hb, firstBad_none bad (b :: l) ?_⟩
      simpa using h

theorem firstBad_of_chain {α : Type} (bad : α → α → Bool) :
    ∀ (l : List α), List.Chain' (fun a b => bad a b = false) l → firstBad bad l = none
  | [], _ => rfl
  | [_], _ => rfl
  | a :: b :: l, h => by
    rw [List.chain'_cons] at h
    simp [firstBad, h.1, firstBad_of_chain bad (b :: l) h.2]

theorem firstBad_some {α : Type} (bad : α → α → Bool) :
    ∀ (l : List α) (j : Nat), firstBad bad l = some j →
      ∃ pre a b post, l = pre ++ a :: b :: post ∧ pre.length = j ∧ bad a b = true
  | [], _, h => by simp [firstBad] at h
  | [_], _, h => by simp [firstBad] at h
  | a :: b :: l, j, h => by
    simp only [firstBad] at h
    by_cases hb : bad a b = true
    · simp only [hb, if_true, Option.some.injEq] at h
      exact ⟨[], a, b, l, rfl, by simpa using h, hb⟩
    · simp only [hb] at h
      cases hr : firstBad bad (b :: l) with
      | none => simp [hr] at h
      | some j1 =>
        obtain ⟨pre, x, y, post, hl, hlen, hxy⟩ := firstBad_some bad (b :: l) j1 hr
        refine ⟨a :: pre, x, y, post, by simp [hl], ?_, hxy⟩
        simp [hr] at h
        simp [hlen, h]

theorem compareRows_eq (toLowerCase : JSString → JSString) (d : Dir) (c : Nat) (a b : Row)
    (ha : c < a.tds.length) (hb : c < b.tds.length) :
    compareRows toLowerCase d c (some a) (some b) = some (outOfOrder toLowerCase c d a b) := by
  simp only [compareRows, outOfOrder, sortKey, List.getElem?_eq_getElem ha,
    List.getElem?_eq_getElem hb]
  cases d <;> rfl

theorem forLoop_eq (toLowerCase : JSString → JSString) (rows : List Row) (c : Nat) (d : Dir) :
    ∀ (k i : Nat) (sw : Bool), (∀ r ∈ rows.drop i, c < r.tds.length) →
      (rows.drop i).length ≤ k →
      forLoop toLowerCase rows c d k i sw =
        some (match firstBad (outOfOrder toLowerCase c d) (rows.drop i) with
          | some j => (i + j, true)
          | none => (i + ((rows.drop i).length - 1),
              if 2 ≤ (rows.drop i).length then false else sw)) := by
  intro k
  induction k with
  | zero =>
    intro i sw _ hk
    have hnil : rows.drop i = [] := List.length_eq_zero.mp (Nat.le_zero.mp hk)
    simp [forLoop, hnil, firstBad]
  | succ k ih =>
    intro i sw hc hk
    have hlen := List.length_drop i rows
    cases hd : rows.drop i with
    | nil =>
      rw [hd] at hlen
      have : ¬ (i + 1 < rows.length) := by simp at hlen; omega
      simp [forLoop, this, firstBad]
    | cons a t =>
      cases t with
      | nil =>
        rw [hd] at hlen
        have : ¬ (i + 1 < rows.length) := by simp at hlen; omega
        simp [forLoop, this, firstBad]
      | cons b l =>
        rw [hd] at hlen
        have hlt : i + 1 < rows.length := by simp at hlen; omega
        have hi : rows[i]? = some a := by
          have := List.getElem?_drop rows i 0
          rw [hd] at this
          simpa using this.symm
        have hi1 : rows[i + 1]? = some b := by
          have := List.getElem?_drop rows i 1
          rw [hd] at this
          simpa using this.symm
        have hd1 : rows.drop (i + 1) = b :: l := by
          rw [← List.tail_drop, hd]
          rfl
        have ha : c < a.tds.length := hc a (by simp [hd])
        have hb : c < b.tds.length := hc b (by simp [hd])
        simp only [forLoop, hlt, if_true, hi, hi1, compareRows_eq toLowerCase d c a b ha hb]
        by_cases hbad : outOfOrder toLowerCase c d a b = true
        · simp [hbad, firstBad]
        · have hbad2 : outOfOrder toLowerCase c d a b = false := by simpa using hbad
          have hc1 : ∀ r ∈ rows.drop (i + 1), c < r.tds.length := by
            intro r hr
            apply hc r
            rw [hd]
            rw [hd1] at hr
            exact List.mem_cons_of_mem _ hr
          have hk1 : (rows.drop (i + 1)).length ≤ k := by
            rw [hd] at hk
            rw [hd1]
            simp at hk ⊢
            omega
          rw [hbad2]
          simp only [ih (i + 1) false hc1 hk1, hd1, firstBad, hbad2]
          cases hr : firstBad (outOfOrder toLowerCase c d) (b :: l) with
          | none => simp; omega
          | some j => simp; omega

theorem insertBefore_append (pre post : List Row) (a b : Row) :
    insertBefore (pre ++ a :: b :: post) pre.length = some (pre ++ b :: a :: post) := by
  induction pre with
  | nil => simp [insertBefore]
  | cons p pre ih =>
    simp only [insertBefore, List.cons_append, List.length_cons, List.getElem?_cons_succ,
      List.set_cons_succ] at ih ⊢
    cases h1 : (pre ++ a :: b :: post)[pre.length]? with
    | none => simp [h1] at ih
    | some x =>
      cases h2 : (pre ++ a :: b :: post)[pre.length + 1]? with
      | none => simp [h1, h2] at ih
      | some y =>
        simp only [h1, h2, Option.some.injEq] at ih ⊢
        rw [ih]

/-! ## The passes of `sortTable` -/

theorem whileLoop_phase (toLowerCase : JSString → JSString) (c : Nat) (d : Dir) :
    ∀ (fuel : Nat) (rows : List Row) (sw : Bool) (cnt : Nat),
      (∀ r ∈ rows.tail, c < r.tds.length) →
      inversions (outOfOrder toLowerCase c d) rows.tail + 2 ≤ fuel →
      (sw = true → 2 ≤ rows.tail.length) →
      (cnt = 0 → d = Dir.asc →
        ¬ List.Chain' (fun a b => outOfOrder toLowerCase c d a b = false) rows.tail) →
      ∃ rows1, whileLoop toLowerCase c fuel rows true sw d cnt = Outcome.done rows1 ∧
        Relation.ReflTransGen (BubbleStep (outOfOrder toLowerCase c d)) rows rows1 ∧
        List.Chain' (fun a b => outOfOrder toLowerCase c d a b = false) rows1.tail := by
  intro fuel
  induction fuel with
  | zero => intro rows sw cnt _ hf; omega
  | succ f ih =>
    intro rows sw cnt hc hf hsw hcnt
    have hfl := forLoop_eq toLowerCase rows c d rows.length 1 sw
      (by simpa [List.drop_one] using hc) (by simp)
    rw [List.drop_one] at hfl
    cases hfb : firstBad (outOfOrder toLowerCase c d) rows.tail with
    | some j =>
      obtain ⟨pre, a, b, post, hl, hlen, hab⟩ := firstBad_some _ _ _ hfb
      cases rows with
      | nil => simp at hl
      | cons h t =>
        simp only [List.tail_cons] at hl hc hf hfb hfl
        subst hl
        have hins := insertBefore_append (h :: pre) post a b
        simp only [List.cons_append, List.length_cons] at hins
        have hinv := inversions_swap (outOfOrder toLowerCase c d) a b hab
          (outOfOrder_asymm toLowerCase c d a b hab) pre post
        obtain ⟨rows1, hrun, hsteps, hchain⟩ := ih (h :: (pre ++ b :: a :: post)) true (cnt + 1)
          (by
            intro r hr
            apply hc r
            simp only [List.tail_cons, List.mem_append, List.mem_cons] at hr ⊢
            tauto)
          (by simp only [List.tail_cons]; omega)
          (by intro _; simp; omega)
          (by intro h0; omega)
        refine ⟨rows1, ?_, Relation.ReflTransGen.head (BubbleStep.swap h pre post a b hab) hsteps,
          hchain⟩
        rw [← hrun]
        simp only [whileLoop, if_true, hfl, hfb]
        rw [show 1 + j = pre.length + 1 by omega, hins]
    | none =>
      have hchain := firstBad_none _ _ hfb
      have hsw1 : (if 2 ≤ rows.tail.length then false else sw) = false := by
        by_cases h2 : 2 ≤ rows.tail.length
        · rw [if_pos h2]
        · cases sw with
          | false => simp
          | true => exact absurd (hsw rfl) h2
      have hnot : ¬ (cnt = 0 ∧ d = Dir.asc) := fun h => hcnt h.1 h.2 hchain
      refine ⟨rows, ?_, Relation.ReflTransGen.refl, hchain⟩
      obtain ⟨f1, rfl⟩ : ∃ f1, f = f1 + 1 := ⟨f - 1, by omega⟩
      simp only [whileLoop, if_true, hfl, hfb, hsw1, hnot, if_false]
      simp

theorem whileLoop_flip (toLowerCase : JSString → JSString) (c : Nat)
    (fuel : Nat) (rows : List Row)
    (hc : ∀ r ∈ rows.tail, c < r.tds.length)
    (hf : inversions (outOfOrder toLowerCase c Dir.desc) rows.tail + 3 ≤ fuel)
    (hsorted : List.Chain' (fun a b => outOfOrder toLowerCase c Dir.asc a b = false) rows.tail) :
    ∃ rows1, whileLoop toLowerCase c fuel rows true false Dir.asc 0 = Outcome.done rows1 ∧
      Relation.ReflTransGen (BubbleStep (outOfOrder toLowerCase c Dir.desc)) rows rows1 ∧
      List.Chain' (fun a b => outOfOrder toLowerCase c Dir.desc a b = false) rows1.tail := by
  obtain ⟨f, rfl⟩ : ∃ f, fuel = f + 1 := ⟨fuel - 1, by omega⟩
  have hfl := forLoop_eq toLowerCase rows c Dir.asc rows.length 1 false
    (by simpa [List.drop_one] using hc) (by simp)
  rw [List.drop_one, firstBad_of_chain _ _ hsorted] at hfl
  obtain ⟨rows1, hrun, hrest⟩ := whileLoop_phase toLowerCase c Dir.desc f rows false 0 hc
    (by omega) (by intro h; cases h) (by intro _ h; cases h)
  refine ⟨rows1, ?_, hrest⟩
  rw [← hrun]
  simp [whileLoop, hfl]

/-! ## What a sequence of swaps preserves -/

theorem BubbleStep.head_eq {bad : Row → Row → Bool} {l l1 : List Row}
    (h : BubbleStep bad l l1) : l1.head? = l.head? := by
  cases h; rfl

theorem BubbleStep.tail_perm {bad : Row → Row → Bool} {l l1 : List Row}
    (h : BubbleStep bad l l1) : l1.tail.Perm l.tail := by
  cases h
  exact List.Perm.append_left _ (List.Perm.swap _ _ _)

theorem bubbleSteps_head {bad : Row → Row → Bool} {l l1 : List Row}
    (h : Relation.ReflTransGen (BubbleStep bad) l l1) : l1.head? = l.head? := by
  induction h with
  | refl => rfl
  | tail _ hs ih => rw [hs.head_eq, ih]

theorem bubbleSteps_tail_perm {bad : Row → Row → Bool} {l l1 : List Row}
    (h : Relation.ReflTransGen (BubbleStep bad) l l1) : l1.tail.Perm l.tail := by
  induction h with
  | refl => exact List.Perm.refl _
  | tail _ hs ih => exact hs.tail_perm.trans ih

theorem keyLe_chain_pairwise (toLowerCase : JSString → JSString) (c : Nat) (l : List Row)
    (h : List.Chain' (keyLe toLowerCase c) l) : List.Pairwise (keyLe toLowerCase c) l := by
  haveI : IsTrans Row (keyLe toLowerCase c) :=
    ⟨fun x y z h1 h2 => jsLe_trans _ _ _ h1 h2⟩
  exact List.chain'_iff_pairwise.mp h

theorem keyGe_chain_pairwise (toLowerCase : JSString → JSString) (c : Nat) (l : List Row)
    (h : List.Chain' (fun a b => keyLe toLowerCase c b a) l) :
    List.Pairwise (fun a b => keyLe toLowerCase c b a) l := by
  haveI : IsTrans Row (fun a b => keyLe toLowerCase c b a) :=
    ⟨fun x y z h1 h2 => jsLe_trans _ _ _ h2 h1⟩
  exact List.chain'_iff_pairwise.mp h

theorem passBudget_asc (toLowerCase : JSString → JSString) (c : Nat) (rows : List Row) :
    inversions (outOfOrder toLowerCase c Dir.asc) rows.tail + 2
      ≤ passBudget toLowerCase c rows := by
  unfold passBudget; omega

theorem passBudget_desc (toLowerCase : JSString → JSString) (c : Nat) (rows : List Row) :
    inversions (outOfOrder toLowerCase c Dir.desc) rows.tail + 3
      ≤ passBudget toLowerCase c rows := by
  unfold passBudget; omega

/-! ## Frame of `sortTable`, whatever the cells are -/

theorem forLoop_ge (toLowerCase : JSString → JSString) (rows : List Row) (c : Nat) (d : Dir) :
    ∀ (k i : Nat) (sw : Bool) (i1 : Nat) (sw1 : Bool),
      forLoop toLowerCase rows c d k i sw = some (i1, sw1) → i ≤ i1 := by
  intro k
  induction k with
  | zero =>
    intro i sw i1 sw1 h
    simp only [forLoop, Option.some.injEq, Prod.mk.injEq] at h
    omega
  | succ k ih =>
    intro i sw i1 sw1 h
    simp only [forLoop] at h
    split at h
    · split at h
      · cases h
      · simp only [Option.some.injEq, Prod.mk.injEq] at h
        omega
      · have := ih _ _ _ _ h
        omega
    · simp only [Option.some.injEq, Prod.mk.injEq] at h
      omega

theorem insertBefore_some (rows rows1 : List Row) (i : Nat)
    (h : insertBefore rows i = some rows1) :
    ∃ pre a b post, rows = pre ++ a :: b :: post ∧ pre.length = i ∧
      rows1 = pre ++ b :: a :: post := by
  have hlt : i + 1 < rows.length := by
    by_contra hn
    have : rows[i + 1]? = none := List.getElem?_eq_none (by omega)
    simp only [insertBefore, this] at h
    split at h <;> simp_all
  have hsplit : rows = rows.take i ++ rows[i] :: rows[i + 1] :: rows.drop (i + 2) := by
    conv_lhs => rw [← List.take_append_drop i rows]
    rw [List.drop_eq_getElem_cons (by omega), List.drop_eq_getElem_cons hlt]
  have hlen : (rows.take i).length = i := by
    rw [List.length_take]; omega
  obtain ⟨pre, a, b, post, hs, hl⟩ : ∃ pre a b post, rows = pre ++ a :: b :: post ∧
      pre.length = i := ⟨_, _, _, _, hsplit, hlen⟩
  subst hs
  subst hl
  rw [insertBefore_append] at h
  exact ⟨pre, a, b, post, rfl, rfl, (Option.some.inj h).symm⟩

theorem whileLoop_mono (toLowerCase : JSString → JSString) (c : Nat) :
    ∀ (fuel fuel1 : Nat) (rows : List Row) (switching sw : Bool) (d : Dir) (cnt : Nat)
      (o : Outcome (List Row)), fuel ≤ fuel1 → o ≠ Outcome.outOfFuel →
      whileLoop toLowerCase c fuel rows switching sw d cnt = o →
      whileLoop toLowerCase c fuel1 rows switching sw d cnt = o := by
  intro fuel
  induction fuel with
  | zero =>
    intro fuel1 rows switching sw d cnt o _ ho h
    simp only [whileLoop] at h
    exact absurd h.symm ho
  | succ f ih =>
    intro fuel1 rows switching sw d cnt o hle ho h
    obtain ⟨f1, rfl⟩ : ∃ f1, fuel1 = f1 + 1 := ⟨fuel1 - 1, by omega⟩
    have hle1 : f ≤ f1 := by omega
    simp only [whileLoop] at h ⊢
    cases switching with
    | false => simpa using h
    | true =>
      simp only [if_true] at h ⊢
      cases hfl : forLoop toLowerCase rows c d rows.length 1 sw with
      | none => simpa [hfl] using h
      | some p =>
        obtain ⟨i, sw1⟩ := p
        simp only [hfl] at h ⊢
        cases sw1 with
        | true =>
          simp only [if_true] at h ⊢
          cases hins : insertBefore rows i with
          | none => simpa [hins] using h
          | some rows1 =>
            simp only [hins] at h ⊢
            exact ih _ _ _ _ _ _ _ hle1 ho h
        | false =>
          simp only [Bool.false_eq_true, if_false] at h ⊢
          split at h
          · rename_i hcond
            rw [if_pos hcond]
            exact ih _ _ _ _ _ _ _ hle1 ho h
          · rename_i hcond
            rw [if_neg hcond]
            exact ih _ _ _ _ _ _ _ hle1 ho h

theorem whileLoop_frame (toLowerCase : JSString → JSString) (c : Nat) :
    ∀ (fuel : Nat) (rows : List Row) (switching sw : Bool) (d : Dir) (cnt : Nat),
      (whileLoop toLowerCase c fuel rows switching sw d cnt).Holds
        (fun rows1 => rows1.head? = rows.head? ∧ rows1.tail.Perm rows.tail) := by
  intro fuel
  induction fuel with
  | zero => intro rows switching sw d cnt; simp [whileLoop, Outcome.Holds]
  | succ f ih =>
    intro rows switching sw d cnt
    simp only [whileLoop]
    split
    · split
      · simp [Outcome.Holds]
      · rename_i i sw1 hfl
        split
        · split
          · simp [Outcome.Holds]
          · rename_i rows1 hins
            obtain ⟨pre, a, b, post, hrows, hlen, hrows1⟩ := insertBefore_some _ _ _ hins
            have hi := forLoop_ge _ _ _ _ _ _ _ _ _ hfl
            have hframe := ih rows1 true sw1 d (cnt + 1)
            cases pre with
            | nil => simp at hlen; omega
            | cons h pre =>
              subst hrows hrows1
              revert hframe
              generalize whileLoop toLowerCase c f _ true sw1 d (cnt + 1) = o
              cases o with
              | outOfFuel => simp [Outcome.Holds]
              | done r =>
                simp only [Outcome.Holds, List.cons_append, List.head?_cons, List.tail_cons]
                exact fun hh => ⟨hh.1, hh.2.trans
                  (List.Perm.append_left _ (List.Perm.swap _ _ _))⟩
              | threw r =>
                simp only [Outcome.Holds, List.cons_append, List.head?_cons, List.tail_cons]
                exact fun hh => ⟨hh.1, hh.2.trans
                  (List.Perm.append_left _ (List.Perm.swap _ _ _))⟩
        · split
          · exact ih _ _ _ _ _
          · exact ih _ _ _ _ _
    · simp [Outcome.Holds]

/-! ## Claims about `sortTable` -/

/-- C1, amended. A table whose data rows (rows 1 and onward) all have a `TD`
cell at the column, counted among the `TD` cells of the row, and are not already
in non-decreasing order of the lower-cased `innerHTML` of that cell
(equivalently, some adjacent pair is strictly out of order) is sorted by
`sortTable` into non-decreasing order of that markup, compared as strings of
code units; the call completes on every budget of at least `passBudget` loop
tests, and the data rows are a rearrangement of those before. -/
theorem sortTable_ascending_when_unsorted (toLowerCase : JSString → JSString)
    (table : Element) (c : Nat)
    (htable : table.tagName = "table")
    (hcells : ∀ r ∈ table.rows.tail, c < r.tds.length)
    (hunsorted : ¬ List.Pairwise (keyLe toLowerCase c) table.rows.tail) :
    ∃ t1, (∀ fuel, passBudget toLowerCase c table.rows ≤ fuel →
        sortTable toLowerCase fuel table c = Outcome.done t1) ∧
      List.Pairwise (keyLe toLowerCase c) t1.rows.tail ∧
      t1.rows.tail.Perm table.rows.tail := by
  obtain ⟨rows1, hrun, hsteps, hchain⟩ := whileLoop_phase toLowerCase c Dir.asc
    (passBudget toLowerCase c table.rows) table.rows false 0 hcells
    (passBudget_asc toLowerCase c table.rows) (by intro h; cases h)
    (fun _ _ h => hunsorted (keyLe_chain_pairwise _ _ _ h))
  refine ⟨{ table with rows := rows1 }, ?_, keyLe_chain_pairwise _ _ _ hchain,
    bubbleSteps_tail_perm hsteps⟩
  intro fuel hfuel
  simp only [sortTable, htable, if_true]
  rw [whileLoop_mono toLowerCase c _ fuel _ _ _ _ _ _ hfuel (by simp) hrun]
  rfl

/-- C1, amended, at the example of the specification: column 0 reads banana,
apple, cherry (plain text, which is its own markup); the hypotheses hold, the
theorem applies, and the call returns the table with column 0 reading apple,
banana, cherry. -/
theorem sortTable_ascending_when_unsorted_witness :
    (fruitTable.tagName = "table" ∧
      (∀ r ∈ fruitTable.rows.tail, 0 < r.tds.length) ∧
      ¬ List.Pairwise (keyLe asciiToLowerCase 0) fruitTable.rows.tail) ∧
    (∃ t1, (∀ fuel, passBudget asciiToLowerCase 0 fruitTable.rows ≤ fuel →
        sortTable asciiToLowerCase fuel fruitTable 0 = Outcome.done t1) ∧
      List.Pairwise (keyLe asciiToLowerCase 0) t1.rows.tail ∧
      t1.rows.tail.Perm fruitTable.rows.tail) ∧
    sortTable asciiToLowerCase (passBudget asciiToLowerCase 0 fruitTable.rows) fruitTable 0
      = Outcome.done fruitAscending :=
  ⟨⟨rfl, by decide, by decide⟩,
    sortTable_ascending_when_unsorted asciiToLowerCase fruitTable 0 rfl (by decide) (by decide),
    by decide⟩

/-- C2, amended. A table whose data rows all have a `TD` cell at the column,
counted among the `TD` cells of the row, and are already in non-decreasing
order of the lower-cased `innerHTML` of that cell (the first ascending pass
finds nothing to swap) is left by `sortTable` in non-increasing order of that
markup: the sort flips to descending. The call completes on every budget of at
least `passBudget` loop tests, and the data rows are a rearrangement of those
before. -/
theorem sortTable_descending_when_sorted (toLowerCase : JSString → JSString)
    (table : Element) (c : Nat)
    (htable : table.tagName = "table")
    (hcells : ∀ r ∈ table.rows.tail, c < r.tds.length)
    (hsorted : List.Pairwise (keyLe toLowerCase c) table.rows.tail) :
    ∃ t1, (∀ fuel, passBudget toLowerCase c table.rows ≤ fuel →
        sortTable toLowerCase fuel table c = Outcome.done t1) ∧
      List.Pairwise (fun a b => keyLe toLowerCase c b a) t1.rows.tail ∧
      t1.rows.tail.Perm table.rows.tail := by
  obtain ⟨rows1, hrun, hsteps, hchain⟩ := whileLoop_flip toLowerCase c
    (passBudget toLowerCase c table.rows) table.rows hcells
    (passBudget_desc toLowerCase c table.rows) (List.Pairwise.chain' hsorted)
  refine ⟨{ table with rows := rows1 }, ?_, keyGe_chain_pairwise _ _ _ hchain,
    bubbleSteps_tail_perm hsteps⟩
  intro fuel hfuel
  simp only [sortTable, htable, if_true]
  rw [whileLoop_mono toLowerCase c _ fuel _ _ _ _ _ _ hfuel (by simp) hrun]
  rfl

/-- C2, amended, at the ascending fruit table: the hypotheses hold, the theorem
applies, and the call returns the table with column 0 reading cherry, banana,
apple. -/
theorem sortTable_descending_when_sorted_witness :
    (fruitAscending.tagName = "table" ∧
      (∀ r ∈ fruitAscending.rows.tail, 0 < r.tds.length) ∧
      List.Pairwise (keyLe asciiToLowerCase 0) fruitAscending.rows.tail) ∧
    (∃ t1, (∀ fuel, passBudget asciiToLowerCase 0 fruitAscending.rows ≤ fuel →
        sortTable asciiToLowerCase fuel fruitAscending 0 = Outcome.done t1) ∧
      List.Pairwise (fun a b => keyLe asciiToLowerCase 0 b a) t1.rows.tail ∧
      t1.rows.tail.Perm fruitAscending.rows.tail) ∧
    sortTable asciiToLowerCase (passBudget asciiToLowerCase 0 fruitAscending.rows)
      fruitAscending 0 = Outcome.done fruitDescending :=
  ⟨⟨rfl, by decide, by decide⟩,
    sortTable_descending_when_sorted asciiToLowerCase fruitAscending 0 rfl (by decide)
      (by decide),
    by decide⟩

/-- C8. Whenever `sortTable(table, c)` completes, row 0 (the header) is still the
row at index 0, the data rows are a permutation of the data rows before (none
lost, duplicated or altered), and nothing but the row order of the table has
changed. -/
theorem sortTable_header_and_permutation (toLowerCase : JSString → JSString) (fuel : Nat)
    (table t1 : Element) (c : Nat)
    (hdone : sortTable toLowerCase fuel table c = Outcome.done t1) :
    t1.rows.head? = table.rows.head? ∧ t1.rows.tail.Perm table.rows.tail ∧
      t1.id = table.id ∧ t1.tagName = table.tagName ∧ t1.classList = table.classList ∧
      t1.display = table.display := by
  have hrows : ∀ t2, (whileLoop toLowerCase c fuel table.rows true false Dir.asc 0).map
      (fun rows => { table with rows := rows }) = Outcome.done t2 →
      t2.rows.head? = table.rows.head? ∧ t2.rows.tail.Perm table.rows.tail ∧
        t2.id = table.id ∧ t2.tagName = table.tagName ∧ t2.classList = table.classList ∧
        t2.display = table.display := by
    intro t2
    have hframe := whileLoop_frame toLowerCase c fuel table.rows true false Dir.asc 0
    revert hframe
    generalize whileLoop toLowerCase c fuel table.rows true false Dir.asc 0 = o
    cases o with
    | outOfFuel => intro _ h; cases h
    | threw r => intro _ h; cases h
    | done r =>
      intro hframe h
      simp only [Outcome.map, Outcome.done.injEq] at h
      subst h
      exact ⟨hframe.1, hframe.2, rfl, rfl, rfl, rfl⟩
  unfold sortTable at hdone
  by_cases h1 : table.tagName = "table"
  · rw [if_pos h1] at hdone
    exact hrows t1 hdone
  · rw [if_neg h1] at hdone
    by_cases h2 : table.tagName = "thead" ∨ table.tagName = "tbody" ∨ table.tagName = "tfoot"
    · rw [if_pos h2] at hdone
      exact hrows t1 hdone
    · rw [if_neg h2] at hdone
      by_cases h3 : table.tagName = "textarea"
      · rw [if_pos h3] at hdone
        have ht : t1 = table := by
          revert hdone
          generalize whileLoop toLowerCase c fuel [] true false Dir.asc 0 = o
          cases o with
          | outOfFuel => intro h; cases h
          | threw r => intro h; cases h
          | done r =>
            intro h
            simp only [Outcome.map, Outcome.done.injEq] at h
            exact h.symm
        subst ht
        exact ⟨rfl, List.Perm.refl _, rfl, rfl, rfl, rfl⟩
      · rw [if_neg h3] at hdone
        cases hdone

/-- C8, at the fruit table, where the call completes within four loop tests. -/
theorem sortTable_header_and_permutation_witness :
    sortTable asciiToLowerCase 4 fruitTable 0 = Outcome.done fruitAscending ∧
    (fruitAscending.rows.head? = fruitTable.rows.head? ∧
      fruitAscending.rows.tail.Perm fruitTable.rows.tail ∧
      fruitAscending.id = fruitTable.id ∧ fruitAscending.tagName = fruitTable.tagName ∧
      fruitAscending.classList = fruitTable.classList ∧
      fruitAscending.display = fruitTable.display) :=
  ⟨by decide, sortTable_header_and_permutation asciiToLowerCase 4 fruitTable fruitAscending 0
    (by decide)⟩

/-! ## The score sort of one table -/

theorem orderedInsertM_perm {α : Type} (cmp : α → α → Option JSNumber) (x : α) :
    ∀ (l s : List α), orderedInsertM cmp x l = some s → s.Perm (x :: l)
  | [], s, h => by
    simp only [orderedInsertM, Option.some.injEq] at h
    subst h
    exact List.Perm.refl _
  | y :: l, s, h => by
    simp only [orderedInsertM] at h
    cases hc : cmp x y with
    | none => simp [hc] at h
    | some v =>
      simp only [hc] at h
      by_cases hv : v.isPos = true
      · simp only [hv, if_true, Option.map_eq_some'] at h
        obtain ⟨s1, hs1, rfl⟩ := h
        exact ((orderedInsertM_perm cmp x l s1 hs1).cons y).trans (List.Perm.swap x y l)
      · simp only [hv, Bool.false_eq_true, if_false, Option.some.injEq] at h
        subst h
        exact List.Perm.refl _

theorem arraySort_perm {α : Type} (cmp : α → α → Option JSNumber) :
    ∀ (l s : List α), arraySort cmp l = some s → s.Perm l
  | [], s, h => by
    simp only [arraySort, Option.some.injEq] at h
    subst h
    exact List.Perm.refl _
  | x :: l, s, h => by
    simp only [arraySort] at h
    cases hs : arraySort cmp l with
    | none => simp [hs] at h
    | some s1 =>
      simp only [hs] at h
      exact (orderedInsertM_perm cmp x s1 s h).trans ((arraySort_perm cmp l s1 hs).cons x)

theorem orderedInsertM_eq {α : Type} (cmp : α → α → Option JSNumber)
    (f : α → α → JSNumber) (x : α) :
    ∀ (l : List α), (∀ y ∈ l, cmp x y = some (f x y)) →
      orderedInsertM cmp x l = some (List.orderedInsert (fun a b => (f a b).isPos = false) x l)
  | [], _ => rfl
  | y :: l, h => by
    have hy := h y (List.mem_cons_self _ _)
    have ih := orderedInsertM_eq cmp f x l (fun z hz => h z (List.mem_cons_of_mem _ hz))
    simp only [orderedInsertM, hy, List.orderedInsert]
    by_cases hv : (f x y).isPos = true
    · simp [hv, ih]
    · simp [hv]

theorem arraySort_eq {α : Type} (cmp : α → α → Option JSNumber) (f : α → α → JSNumber) :
    ∀ (l : List α), (∀ x ∈ l, ∀ y ∈ l, cmp x y = some (f x y)) →
      arraySort cmp l = some (List.insertionSort (fun a b => (f a b).isPos = false) l)
  | [], _ => rfl
  | x :: l, h => by
    have ih := arraySort_eq cmp f l
      (fun a ha b hb => h a (List.mem_cons_of_mem _ ha) b (List.mem_cons_of_mem _ hb))
    simp only [arraySort, ih, List.insertionSort]
    apply orderedInsertM_eq
    intro y hy
    exact h x (List.mem_cons_self _ _) y
      (List.mem_cons_of_mem _ ((List.perm_insertionSort _ l).subset hy))

theorem foldl_appendChild :
    ∀ (arr rows : List (Nat × Row)), (arr.map Prod.fst).Nodup →
      arr.foldl appendChild rows
        = rows.filter (fun x => decide (x.1 ∉ arr.map Prod.fst)) ++ arr
  | [], rows, _ => by simp
  | r :: arr, rows, hnd => by
    rw [List.map_cons, List.nodup_cons] at hnd
    rw [List.foldl_cons, foldl_appendChild arr _ hnd.2]
    simp only [appendChild, List.filter_append, List.filter_filter, List.append_assoc]
    have hr : List.filter (fun x => decide (x.1 ∉ arr.map Prod.fst)) [r] = [r] := by
      simp [hnd.1]
    rw [hr]
    simp only [List.singleton_append]
    congr 1
    apply List.filter_congr
    intro x _
    simp only [List.map_cons, List.mem_cons, not_or]
    by_cases h1 : x.1 = r.1 <;> simp [h1]

theorem sortRows_reassemble (arr : List (Nat × Row)) (n : Nat) (h : Row) (t : List Row)
    (hperm : arr.Perm (List.enumFrom (n + 1) t)) :
    ((arr.foldl appendChild ((n, h) :: List.enumFrom (n + 1) t)).map Prod.snd)
      = h :: arr.map Prod.snd := by
  have hfst : (arr.map Prod.fst).Perm (List.range' (n + 1) t.length) := by
    rw [← List.enumFrom_map_fst]
    exact hperm.map _
  have hnd : (arr.map Prod.fst).Nodup :=
    (hfst.nodup_iff).mpr (List.nodup_range' _ _)
  rw [foldl_appendChild _ _ hnd, List.filter_cons]
  have h0 : n ∉ arr.map Prod.fst := by
    intro hmem
    have := hfst.subset hmem
    rw [List.mem_range'_1] at this
    omega
  have hrest : List.filter (fun x => decide (x.1 ∉ arr.map Prod.fst))
      (List.enumFrom (n + 1) t) = [] := by
    rw [List.filter_eq_nil_iff]
    intro x hx
    have : x.1 ∈ arr.map Prod.fst := List.mem_map_of_mem _ (hperm.symm.subset hx)
    simp [this]
  rw [hrest]
  simp [h0]

theorem sortRowsByScore_frame (parseFloat : JSString → JSNumber) (rows rows1 : List Row)
    (h : sortRowsByScore parseFloat rows = some rows1) :
    rows1.head? = rows.head? ∧ rows1.tail.Perm rows.tail := by
  unfold sortRowsByScore at h
  cases hs : arraySort (fun a b => comparefn parseFloat a.2 b.2) (rows.enum.drop 1) with
  | none => rw [hs] at h; cases h
  | some arr =>
    rw [hs] at h
    simp only [Option.some.injEq] at h
    have hperm := arraySort_perm _ _ _ hs
    cases rows with
    | nil =>
      simp only [List.enum_nil, List.drop_nil, List.perm_nil] at hperm
      subst hperm
      subst h
      simp
    | cons r t =>
      rw [List.enum_cons] at h hperm
      simp only [List.drop_succ_cons, List.drop_zero] at hperm
      rw [sortRows_reassemble arr 0 r t hperm] at h
      subst h
      refine ⟨rfl, ?_⟩
      simp only [List.tail_cons]
      have := hperm.map Prod.snd
      rwa [List.enumFrom_map_snd] at this

theorem scoreOf_of_cell (parseFloat : JSString → JSNumber) (r : Row)
    (h : 5 < r.cells.length) : scoreOf parseFloat r = some (rowScore parseFloat r) := by
  unfold rowScore scoreOf
  rw [List.getElem?_eq_getElem h]
  rfl

theorem comparefn_of_cells (parseFloat : JSString → JSNumber) (a b : Row)
    (ha : 5 < a.cells.length) (hb : 5 < b.cells.length) :
    comparefn parseFloat a b = some ((rowScore parseFloat b).sub (rowScore parseFloat a)) := by
  simp [comparefn, scoreOf_of_cell parseFloat a ha, scoreOf_of_cell parseFloat b hb]

theorem sortRowsByScore_eq (parseFloat : JSString → JSNumber) (rows : List Row)
    (hcells : ∀ r ∈ rows.tail, 5 < r.cells.length) :
    sortRowsByScore parseFloat rows = some (rowsByScore parseFloat rows) := by
  unfold sortRowsByScore rowsByScore
  cases rows with
  | nil => simp [arraySort]
  | cons r t =>
    simp only [List.tail_cons] at hcells
    rw [List.enum_cons]
    simp only [List.drop_succ_cons, List.drop_zero, List.tail_cons, List.take_succ_cons,
      List.take_zero]
    have hmem : ∀ x ∈ List.enumFrom 1 t, 5 < x.2.cells.length := by
      intro x hx
      apply hcells
      have := List.mem_map_of_mem Prod.snd hx
      rwa [List.enumFrom_map_snd] at this
    rw [arraySort_eq (fun a b => comparefn parseFloat a.2 b.2)
      (fun a b => (rowScore parseFloat b.2).sub (rowScore parseFloat a.2)) _
      (fun x hx y hy => comparefn_of_cells parseFloat x.2 y.2 (hmem x hx) (hmem y hy))]
    simp only [Option.some.injEq]
    rw [sortRows_reassemble _ 0 r t (List.perm_insertionSort _ _)]
    simp only [List.singleton_append, List.cons.injEq, true_and]
    have hmap := List.map_insertionSort
      (fun a b : Nat × Row =>
        ((rowScore parseFloat b.2).sub (rowScore parseFloat a.2)).isPos = false)
      (keepsBefore parseFloat) Prod.snd (List.enumFrom (0 + 1) t) (fun a _ b _ => Iff.rfl)
    rw [List.enumFrom_map_snd] at hmap
    exact hmap

/-! ## Order facts about Number values -/

theorem JSNumber.sub_isPos (a b : JSNumber) (ha : a ≠ JSNumber.nan) (hb : b ≠ JSNumber.nan) :
    (b.sub a).isPos = !(a.ge b) := by
  cases a <;> cases b <;> simp [JSNumber.sub, JSNumber.isPos, JSNumber.ge] at ha hb ⊢
  rename_i x y
  by_cases h : y ≤ x
  · simp [h, not_lt.mpr h]
  · simp [h, not_le.mp h]

theorem JSNumber.ge_total (a b : JSNumber) (ha : a ≠ JSNumber.nan) (hb : b ≠ JSNumber.nan) :
    a.ge b = true ∨ b.ge a = true := by
  cases a <;> cases b <;> simp [JSNumber.ge] at ha hb ⊢
  exact le_total _ _

theorem JSNumber.ge_trans (a b c : JSNumber) (h1 : a.ge b = true) (h2 : b.ge c = true) :
    a.ge c = true := by
  cases a <;> cases b <;> cases c <;> simp [JSNumber.ge] at h1 h2 ⊢
  exact le_trans h2 h1

theorem keepsBefore_iff (parseFloat : JSString → JSNumber) (a b : Row)
    (ha : parses parseFloat a) (hb : parses parseFloat b) :
    keepsBefore parseFloat a b ↔ scoreGe parseFloat a b := by
  unfold keepsBefore scoreGe
  rw [JSNumber.sub_isPos _ _ ha hb]
  simp

theorem orderedInsert_scoreGe (parseFloat : JSString → JSNumber) (x : Row)
    (hx : parses parseFloat x) :
    ∀ (s : List Row), (∀ y ∈ s, parses parseFloat y) → List.Pairwise (scoreGe parseFloat) s →
      List.Pairwise (scoreGe parseFloat) (List.orderedInsert (keepsBefore parseFloat) x s)
  | [], _, _ => by simp
  | y :: s, hs, hp => by
    have hy := hs y (List.mem_cons_self _ _)
    rw [List.pairwise_cons] at hp
    simp only [List.orderedInsert]
    by_cases hk : keepsBefore parseFloat x y
    · rw [if_pos hk]
      have hxy := (keepsBefore_iff parseFloat x y hx hy).mp hk
      refine List.pairwise_cons.mpr ⟨?_, List.pairwise_cons.mpr hp⟩
      intro z hz
      rcases List.mem_cons.mp hz with rfl | hz
      · exact hxy
      · exact JSNumber.ge_trans _ _ _ hxy (hp.1 z hz)
    · rw [if_neg hk]
      have hyx : scoreGe parseFloat y x := by
        rcases JSNumber.ge_total _ _ hx hy with h | h
        · exact absurd ((keepsBefore_iff parseFloat x y hx hy).mpr h) hk
        · exact h
      refine List.pairwise_cons.mpr ⟨?_, orderedInsert_scoreGe parseFloat x hx s
        (fun z hz => hs z (List.mem_cons_of_mem _ hz)) hp.2⟩
      intro z hz
      rcases List.mem_cons.mp ((List.perm_orderedInsert _ x s).subset hz) with rfl | hz
      · exact hyx
      · exact hp.1 z hz

theorem insertionSort_scoreGe (parseFloat : JSString → JSNumber) :
    ∀ (l : List Row), (∀ r ∈ l, parses parseFloat r) →
      List.Pairwise (scoreGe parseFloat) (List.insertionSort (keepsBefore parseFloat) l)
  | [], _ => by simp
  | x :: l, h => by
    simp only [List.insertionSort]
    apply orderedInsert_scoreGe parseFloat x (h x (List.mem_cons_self _ _))
    · intro y hy
      exact h y (List.mem_cons_of_mem _ ((List.perm_insertionSort _ l).subset hy))
    · exact insertionSort_scoreGe parseFloat l (fun r hr => h r (List.mem_cons_of_mem _ hr))

/-! ## Collections depend on the shape of the document only -/

theorem collect_congr (p : Element → Bool) (d d1 : Document)
    (h : d.map p = d1.map p) : collect p d = collect p d1 := by
  have hlen : d.length = d1.length := by simpa using congrArg List.length h
  unfold collect
  rw [hlen]
  apply List.filter_congr
  intro i _
  have hi : (d.map p)[i]? = (d1.map p)[i]? := by rw [h]
  rw [List.getElem?_map, List.getElem?_map] at hi
  cases h1 : d[i]? <;> cases h2 : d1[i]? <;> simp [h1, h2] at hi ⊢
  exact hi

theorem tables_congr (d d1 : Document) (h : d.map shapeOf = d1.map shapeOf) (tag : String) :
    getElementsByTagName d tag = getElementsByTagName d1 tag := by
  apply collect_congr
  have := congrArg (List.map (fun s : String × String × Bool => decide (s.2.1 = tag))) h
  simpa [List.map_map, Function.comp, shapeOf] using this

theorem arrows_congr (d d1 : Document) (h : d.map shapeOf = d1.map shapeOf) :
    getElementsByClassName d "arrow" = getElementsByClassName d1 "arrow" := by
  apply collect_congr
  have := congrArg (List.map (fun s : String × String × Bool => s.2.2)) h
  simpa [List.map_map, Function.comp, shapeOf] using this

theorem findId_congr (id : String) :
    ∀ (d d1 : Document), d.map shapeOf = d1.map shapeOf → findId id d = findId id d1
  | [], [], _ => rfl
  | [], _ :: _, h => by simp at h
  | _ :: _, [], h => by simp at h
  | e :: d, e1 :: d1, h => by
    simp only [List.map_cons, List.cons.injEq] at h
    have hid : e.id = e1.id := congrArg Prod.fst h.1
    simp only [findId, hid, findId_congr id d d1 h.2]

theorem getElementById_congr (d d1 : Document) (h : d.map shapeOf = d1.map shapeOf)
    (id : String) : getElementById d id = getElementById d1 id := by
  unfold getElementById
  rw [findId_congr id d d1 h]

theorem collect_nodup (p : Element → Bool) (d : Document) : (collect p d).Nodup :=
  (List.nodup_range _).filter _

theorem mem_collect (p : Element → Bool) (d : Document) (i : Nat) :
    i ∈ collect p d ↔ ∃ e, d[i]? = some e ∧ p e = true := by
  unfold collect
  rw [List.mem_filter, List.mem_range]
  constructor
  · rintro ⟨hlt, h⟩
    rw [List.getElem?_eq_getElem hlt] at h
    exact ⟨d[i], List.getElem?_eq_getElem hlt, h⟩
  · rintro ⟨e, he, hp⟩
    have hlt : i < d.length := (List.getElem?_eq_some.mp he).1
    refine ⟨hlt, ?_⟩
    rw [he]
    exact hp

/-! ## The loop over the tables -/

theorem forTables_iter (body : Nat → Document → Outcome Document)
    (upd : Nat → Document → Document) (doc : Document) (N : Nat)
    (hN : ∀ i, i < N → i < (getElementsByTagName (runUpdates upd doc i) "table").length)
    (hbody : ∀ i, i < N →
      body i (runUpdates upd doc i) = Outcome.done (upd i (runUpdates upd doc i))) :
    forTables body N 0 doc = Outcome.done (runUpdates upd doc N) := by
  have key : ∀ (k i : Nat), i + k = N →
      forTables body k i (runUpdates upd doc i) = Outcome.done (runUpdates upd doc N) := by
    intro k
    induction k with
    | zero =>
      intro i hi
      have : i = N := by omega
      subst this
      rfl
    | succ k ih =>
      intro i hi
      have hlt : i < N := by omega
      simp only [forTables, hN i hlt, if_true, hbody i hlt]
      exact ih (i + 1) (by omega)
  exact key N 0 (by omega)

theorem forTables_holds (body : Nat → Document → Outcome Document)
    (R : Document → Document → Prop) (hrefl : ∀ d, R d d)
    (htrans : ∀ a b c, R a b → R b c → R a c)
    (hbody : ∀ i d, (body i d).Holds (R d)) :
    ∀ (k i : Nat) (d : Document), (forTables body k i d).Holds (R d) := by
  intro k
  induction k with
  | zero => intro i d; exact hrefl d
  | succ k ih =>
    intro i d
    simp only [forTables]
    split
    · have hb := hbody i d
      revert hb
      cases body i d with
      | done d1 =>
        intro hb
        have := ih (i + 1) d1
        revert this
        simp only []
        cases forTables body k (i + 1) d1 with
        | done d2 => exact fun h2 => htrans _ _ _ hb h2
        | threw d2 => exact fun h2 => htrans _ _ _ hb h2
        | outOfFuel => exact fun _ => trivial
      | threw d1 => exact fun hb => hb
      | outOfFuel => exact fun _ => trivial
    · exact hrefl d

theorem runUpdates_getElem (pairs : List (Nat × Nat)) (f1 f2 : Nat → Element → Element)
    (doc : Document) (p : Nat) :
    ∀ (i : Nat), (runUpdates (staticUpdate pairs f1 f2) doc i)[p]?
      = doc[p]?.map (elemRun pairs f1 f2 p i)
  | 0 => by simp [runUpdates, elemRun]
  | i + 1 => by
    have ih := runUpdates_getElem pairs f1 f2 doc p i
    simp only [runUpdates, staticUpdate, elemRun]
    cases hp : pairs[i]? with
    | none => simpa [hp] using ih
    | some ta =>
      obtain ⟨t, a⟩ := ta
      simp only [List.getElem?_modify, ih]
      cases doc[p]? with
      | none => rfl
      | some e => by_cases h1 : t = p <;> by_cases h2 : a = p <;> simp [h1, h2]

theorem elemRun_shape (pairs : List (Nat × Nat)) (f1 f2 : Nat → Element → Element)
    (h1 : ∀ t e, shapeOf (f1 t e) = shapeOf e) (h2 : ∀ t e, shapeOf (f2 t e) = shapeOf e)
    (p : Nat) (e : Element) :
    ∀ (i : Nat), shapeOf (elemRun pairs f1 f2 p i e) = shapeOf e
  | 0 => rfl
  | i + 1 => by
    have ih := elemRun_shape pairs f1 f2 h1 h2 p e i
    simp only [elemRun]
    cases pairs[i]? with
    | none => exact ih
    | some ta =>
      obtain ⟨t, a⟩ := ta
      by_cases ht : t = p <;> by_cases ha : a = p <;> simp [ht, ha, h1, h2, ih]

theorem runUpdates_shape (pairs : List (Nat × Nat)) (f1 f2 : Nat → Element → Element)
    (h1 : ∀ t e, shapeOf (f1 t e) = shapeOf e) (h2 : ∀ t e, shapeOf (f2 t e) = shapeOf e)
    (doc : Document) (i : Nat) :
    (runUpdates (staticUpdate pairs f1 f2) doc i).map shapeOf = doc.map shapeOf := by
  apply List.ext_getElem?
  intro p
  rw [List.getElem?_map, List.getElem?_map, runUpdates_getElem]
  cases doc[p]? with
  | none => rfl
  | some e => simp [elemRun_shape pairs f1 f2 h1 h2 p e i]

theorem shapeOf_classListAdd (e : Element) :
    shapeOf (e.classListAdd "rotated") = shapeOf e := by
  unfold shapeOf Element.classListAdd
  by_cases h : "rotated" ∈ e.classList
  · simp [h]
  · simp [h]

theorem shapeOf_classListRemove (e : Element) :
    shapeOf (e.classListRemove "rotated") = shapeOf e := by
  unfold shapeOf Element.classListRemove
  simp [List.mem_filter]

theorem elemRun_proj {β : Type} (pairs : List (Nat × Nat)) (f1 f2 : Nat → Element → Element)
    (proj : Element → β) (h2 : ∀ t e, proj (f2 t e) = proj e) (p : Nat) (e : Element) :
    ∀ (i : Nat), p ∉ (pairs.take i).map Prod.fst → proj (elemRun pairs f1 f2 p i e) = proj e
  | 0, _ => rfl
  | i + 1, h => by
    rw [List.take_succ, List.map_append, List.mem_append, not_or] at h
    have ih := elemRun_proj pairs f1 f2 proj h2 p e i h.1
    simp only [elemRun]
    cases hp : pairs[i]? with
    | none => exact ih
    | some ta =>
      obtain ⟨t, a⟩ := ta
      have ht : ¬ t = p := by
        intro hc
        apply h.2
        simp [hp, hc]
      by_cases ha : a = p <;> simp [ht, ha, h2, ih]

theorem elemRun_fst (pairs : List (Nat × Nat)) (f1 f2 : Nat → Element → Element)
    (J Q : Element → Prop) (p : Nat) (e : Element) (hJ0 : J e)
    (hJ1 : ∀ x, J x → Q (f1 p x)) (hQJ : ∀ x, Q x → J x)
    (hJ2 : ∀ t x, J x → J (f2 t x)) (hQ2 : ∀ t x, Q x → Q (f2 t x)) :
    ∀ (i : Nat), J (elemRun pairs f1 f2 p i e) ∧
      (p ∈ (pairs.take i).map Prod.fst → Q (elemRun pairs f1 f2 p i e))
  | 0 => ⟨hJ0, by simp⟩
  | i + 1 => by
    obtain ⟨ihJ, ihQ⟩ := elemRun_fst pairs f1 f2 J Q p e hJ0 hJ1 hQJ hJ2 hQ2 i
    rw [List.take_succ, List.map_append, List.mem_append]
    simp only [elemRun]
    cases hp : pairs[i]? with
    | none => exact ⟨ihJ, fun h => ihQ (by simpa using h)⟩
    | some ta =>
      obtain ⟨t, a⟩ := ta
      by_cases ht : t = p
      · subst ht
        have hq := hJ1 _ ihJ
        by_cases ha : a = t
        · simp only [ha, if_true]
          exact ⟨hQJ _ (hQ2 _ _ hq), fun _ => hQ2 _ _ hq⟩
        · simp only [ha, if_true, if_false]
          exact ⟨hQJ _ hq, fun _ => hq⟩
      · have hmem : p ∈ List.map Prod.fst (some (t, a)).toList → False := by
          simp [Ne.symm ht]
        by_cases ha : a = p
        · simp only [ht, ha, if_true, if_false]
          exact ⟨hJ2 _ _ ihJ, fun h => hQ2 _ _ (ihQ (h.resolve_right hmem))⟩
        · simp only [ht, ha, if_false]
          exact ⟨ihJ, fun h => ihQ (h.resolve_right hmem)⟩

theorem elemRun_snd (pairs : List (Nat × Nat)) (f1 f2 : Nat → Element → Element)
    (J Q : Element → Prop) (p : Nat) (e : Element) (hJ0 : J e)
    (hJ2 : ∀ t x, J x → Q (f2 t x)) (hQJ : ∀ x, Q x → J x)
    (hJ1 : ∀ x, J x → J (f1 p x)) (hQ1 : ∀ x, Q x → Q (f1 p x)) :
    ∀ (i : Nat), J (elemRun pairs f1 f2 p i e) ∧
      (p ∈ (pairs.take i).map Prod.snd → Q (elemRun pairs f1 f2 p i e))
  | 0 => ⟨hJ0, by simp⟩
  | i + 1 => by
    obtain ⟨ihJ, ihQ⟩ := elemRun_snd pairs f1 f2 J Q p e hJ0 hJ2 hQJ hJ1 hQ1 i
    rw [List.take_succ, List.map_append, List.mem_append]
    simp only [elemRun]
    cases hp : pairs[i]? with
    | none => exact ⟨ihJ, fun h => ihQ (by simpa using h)⟩
    | some ta =>
      obtain ⟨t, a⟩ := ta
      by_cases ha : a = p
      · subst ha
        by_cases ht : t = a
        · simp only [ht, if_true]
          have hq := hJ2 a _ (hJ1 _ ihJ)
          exact ⟨hQJ _ hq, fun _ => hq⟩
        · simp only [ht, if_true, if_false]
          have hq := hJ2 t _ ihJ
          exact ⟨hQJ _ hq, fun _ => hq⟩
      · have hmem : p ∈ List.map Prod.snd (some (t, a)).toList → False := by
          simp [Ne.symm ha]
        by_cases ht : t = p
        · simp only [ht, ha, if_true, if_false]
          exact ⟨hJ1 _ ihJ, fun h => hQ1 _ (ihQ (h.resolve_right hmem))⟩
        · simp only [ht, ha, if_false]
          exact ⟨ihJ, fun h => ihQ (h.resolve_right hmem)⟩

theorem getElem_not_mem_take (l : List Nat) (hn : l.Nodup) (i : Nat) (t : Nat)
    (h : l[i]? = some t) : t ∉ l.take i := by
  obtain ⟨hi, rfl⟩ := List.getElem?_eq_some.mp h
  intro hm
  rw [List.mem_take_iff_getElem] at hm
  obtain ⟨j, hj, hje⟩ := hm
  have := (List.Nodup.getElem_inj_iff hn).mp hje
  omega

theorem docRel_refl (R : Element → Element → Prop) (hrefl : ∀ e, R e e) (d : Document) :
    DocRel R d d := ⟨rfl, fun _ e he => ⟨e, he, hrefl e⟩⟩

theorem docRel_trans (R : Element → Element → Prop) (htrans : ∀ a b c, R a b → R b c → R a c)
    (a b c : Document) (h1 : DocRel R a b) (h2 : DocRel R b c) : DocRel R a c := by
  refine ⟨h2.1.trans h1.1, fun p e he => ?_⟩
  obtain ⟨e1, he1, r1⟩ := h1.2 p e he
  obtain ⟨e2, he2, r2⟩ := h2.2 p e1 he1
  exact ⟨e2, he2, htrans _ _ _ r1 r2⟩

theorem docRel_modify (R : Element → Element → Prop) (hrefl : ∀ e, R e e)
    (f : Element → Element) (d : Document) (t : Nat)
    (h : ∀ e, d[t]? = some e → R e (f e)) : DocRel R d (d.modify f t) := by
  refine ⟨by simp, fun p e he => ?_⟩
  rw [List.getElem?_modify, he]
  by_cases htp : t = p
  · subst htp
    exact ⟨f e, by simp, h e he⟩
  · exact ⟨e, by simp [htp], hrefl e⟩

theorem sameButRowOrder_refl (e : Element) : SameButRowOrder e e :=
  ⟨rfl, rfl, rfl, rfl, rfl, List.Perm.refl _⟩

theorem sameButRowOrder_trans (a b c : Element) (h1 : SameButRowOrder a b)
    (h2 : SameButRowOrder b c) : SameButRowOrder a c :=
  ⟨h2.1.trans h1.1, h2.2.1.trans h1.2.1, h2.2.2.1.trans h1.2.2.1,
    h2.2.2.2.1.trans h1.2.2.2.1, h2.2.2.2.2.1.trans h1.2.2.2.2.1,
    h2.2.2.2.2.2.trans h1.2.2.2.2.2⟩

theorem sortBaseScoreBody_frame (parseFloat : JSString → JSNumber) (i : Nat) (d : Document) :
    (sortBaseScoreBody parseFloat i d).Holds (DocRel SameButRowOrder d) := by
  unfold sortBaseScoreBody
  split
  · exact docRel_refl _ sameButRowOrder_refl d
  · rename_i t _
    split
    · exact docRel_refl _ sameButRowOrder_refl d
    · rename_i rows hrows
      apply docRel_modify _ sameButRowOrder_refl
      intro e he
      have hr : rowsAt d t = e.rows := by simp [rowsAt, he]
      rw [hr] at hrows
      have := sortRowsByScore_frame parseFloat e.rows rows hrows
      exact ⟨rfl, rfl, rfl, rfl, this.1, this.2⟩

/-- Whatever way `sortBaseScoreDescending` ends, the document it leaves has the
same elements up to the order of the data rows of each. -/
theorem sortBaseScoreDescending_frame (parseFloat : JSString → JSNumber) (doc : Document) :
    (sortBaseScoreDescending parseFloat doc).Holds (DocRel SameButRowOrder doc) :=
  forTables_holds _ _ (docRel_refl _ sameButRowOrder_refl)
    (docRel_trans _ sameButRowOrder_trans) (sortBaseScoreBody_frame parseFloat) _ _ _

theorem rowsAt_eq (d : Document) (p : Nat) (e : Element) (h : d[p]? = some e) :
    rowsAt d p = e.rows := by
  simp [rowsAt, h]

theorem map_fst_diag (T : List Nat) : (T.map (fun t => (t, t))).map Prod.fst = T := by
  induction T with
  | nil => rfl
  | cons t T ih =>
    rw [List.map_cons, List.map_cons, ih]

/-- When the data rows of every table have a cell 5, `sortBaseScoreDescending`
completes, and it leaves each table with its rows in the order of the stable
insertion by score and every other element untouched. -/
theorem sortBaseScoreDescending_eq (parseFloat : JSString → JSNumber) (doc : Document)
    (hcells : ∀ e ∈ doc, e.tagName = "table" → ∀ r ∈ e.rows.tail, 5 < r.cells.length) :
    sortBaseScoreDescending parseFloat doc
      = Outcome.done (doc.map (sortedElement parseFloat)) := by
  have hfst := map_fst_diag (getElementsByTagName doc "table")
  generalize hT : getElementsByTagName doc "table" = T at hfst
  generalize hpairs : T.map (fun t => (t, t)) = pairs at hfst
  let f1 : Nat → Element → Element :=
    fun t => Element.setRows (rowsByScore parseFloat (rowsAt doc t))
  let f2 : Nat → Element → Element := fun _ => id
  have hshape : ∀ i, (runUpdates (staticUpdate pairs f1 f2) doc i).map shapeOf
      = doc.map shapeOf :=
    runUpdates_shape pairs f1 f2 (fun _ _ => rfl) (fun _ _ => rfl) doc
  have hTi : ∀ i, getElementsByTagName (runUpdates (staticUpdate pairs f1 f2) doc i) "table"
      = T := fun i => (tables_congr _ _ (hshape i) _).trans hT
  have hnd : T.Nodup := hT ▸ collect_nodup _ doc
  have hmemT : ∀ p, p ∈ T ↔ ∃ e, doc[p]? = some e ∧ e.tagName = "table" := by
    intro p
    rw [← hT]
    unfold getElementsByTagName
    rw [mem_collect]
    simp
  unfold sortBaseScoreDescending
  rw [hT, forTables_iter (sortBaseScoreBody parseFloat) (staticUpdate pairs f1 f2) doc T.length]
  · congr 1
    apply List.ext_getElem?
    intro p
    rw [runUpdates_getElem, List.getElem?_map]
    cases hp : doc[p]? with
    | none => rfl
    | some e =>
      simp only [Option.map_some', Option.some.injEq]
      have hall : (pairs.take T.length).map Prod.fst = T := by
        rw [List.map_take, hfst, List.take_length]
      unfold sortedElement
      by_cases htab : e.tagName = "table"
      · rw [if_pos htab]
        have hpT : p ∈ T := (hmemT p).mpr ⟨e, hp, htab⟩
        have := (elemRun_fst pairs f1 f2
          (fun x => x = e ∨ x = e.setRows (rowsByScore parseFloat e.rows))
          (fun x => x = e.setRows (rowsByScore parseFloat e.rows)) p e (Or.inl rfl)
          (by
            intro x hx
            show Element.setRows (rowsByScore parseFloat (rowsAt doc p)) x = _
            rw [rowsAt_eq doc p e hp]
            rcases hx with rfl | rfl <;> rfl)
          (fun x hx => Or.inr hx) (fun _ x hx => hx) (fun _ x hx => hx) T.length).2
        exact this (by rw [hall]; exact hpT)
      · rw [if_neg htab]
        have hpT : p ∉ T := fun hc => by
          obtain ⟨e1, he1, ht1⟩ := (hmemT p).mp hc
          rw [hp] at he1
          cases he1
          exact htab ht1
        exact elemRun_proj pairs f1 f2 id (fun _ _ => rfl) p e T.length
          (by rw [hall]; exact hpT)
  · intro i hi
    rw [hTi]
    exact hi
  · intro i hi
    have hti : T[i]? = some T[i] := List.getElem?_eq_getElem hi
    have hpi : pairs[i]? = some (T[i], T[i]) := by
      rw [← hpairs, List.getElem?_map, hti]
      rfl
    obtain ⟨e, he, htab⟩ := (hmemT T[i]).mp (List.getElem_mem hi)
    have hrows : rowsAt (runUpdates (staticUpdate pairs f1 f2) doc i) T[i] = e.rows := by
      unfold rowsAt
      rw [runUpdates_getElem, he]
      simp only [Option.map_some', Option.getD_some]
      apply elemRun_proj pairs f1 f2 Element.rows (fun _ _ => rfl)
      rw [List.map_take, hfst]
      exact getElem_not_mem_take T hnd i T[i] hti
    have hsort := sortRowsByScore_eq parseFloat e.rows
      (hcells e (List.mem_iff_getElem?.mpr ⟨_, he⟩) htab)
    simp only [sortBaseScoreBody, hTi, hti, hrows, hsort, staticUpdate, hpi]
    congr 1
    show _ = List.modify id _ _
    rw [List.modify_id]
    show _ = List.modify (Element.setRows (rowsByScore parseFloat (rowsAt doc T[i]))) _ _
    rw [rowsAt_eq doc T[i] e he]

theorem rowsByScore_tail (parseFloat : JSString → JSNumber) (rows : List Row) :
    (rowsByScore parseFloat rows).tail = List.insertionSort (keepsBefore parseFloat) rows.tail := by
  cases rows <;> simp [rowsByScore]

theorem rowsByScore_head (parseFloat : JSString → JSNumber) (rows : List Row) :
    (rowsByScore parseFloat rows).head? = rows.head? := by
  cases rows <;> simp [rowsByScore]

theorem map_modify_proj {β : Type} (proj : Element → β) (f : Element → Element)
    (h : ∀ e, proj (f e) = proj e) (d : Document) (t : Nat) :
    (d.modify f t).map proj = d.map proj := by
  apply List.ext_getElem?
  intro p
  rw [List.getElem?_map, List.getElem?_map, List.getElem?_modify]
  cases d[p]? with
  | none => rfl
  | some e => by_cases htp : t = p <;> simp [htp, h]

theorem docRel_shape (d d1 : Document) (h : DocRel SameButRowOrder d d1) :
    d1.map shapeOf = d.map shapeOf := by
  apply List.ext_getElem?
  intro p
  rw [List.getElem?_map, List.getElem?_map]
  cases hp : d[p]? with
  | none =>
    have : d1[p]? = none := by
      rw [List.getElem?_eq_none_iff] at hp ⊢
      rw [h.1]
      exact hp
    rw [this]
  | some e =>
    obtain ⟨e1, he1, hr⟩ := h.2 p e hp
    rw [he1]
    simp [shapeOf, hr.1, hr.2.1, hr.2.2.1]

/-! ## Claims about `sortBaseScoreDescending` -/

/-- C3, as stated, fails: on a table whose two data rows read abc and 7 in
column 5, `sortBaseScoreDescending` completes with the rows where they were, so
the row that does not parse as a number stays in front of the row that does.
(Every comparison between the two rows is NaN, read as zero, so a stable sort of
any kind keeps them in place.) -/
theorem sortBaseScoreDescending_keeps_unparsed_row_first :
    sortBaseScoreDescending parseDigits [nanTable] = Outcome.done [nanTable] ∧
    (∀ r ∈ nanTable.rows.tail, 5 < r.cells.length) ∧
    ¬ List.Pairwise (fun a b => parses parseDigits b → parses parseDigits a)
      nanTable.rows.tail := by
  refine ⟨by with_unfolding_all decide, by decide, by with_unfolding_all decide⟩

/-- C3, amended. In a document where the data rows of every table have at least
6 cells, `sortBaseScoreDescending` completes, and every table whose data rows
all have a column-5 text that parses as a number ends with the same data rows
in non-increasing order of the parsed value, first data row to last. Nothing is
promised on the position of a row whose text does not parse. -/
theorem sortBaseScoreDescending_non_increasing (parseFloat : JSString → JSNumber)
    (doc : Document)
    (hcells : ∀ e ∈ doc, e.tagName = "table" → ∀ r ∈ e.rows.tail, 5 < r.cells.length) :
    ∃ doc1, sortBaseScoreDescending parseFloat doc = Outcome.done doc1 ∧
      doc1.length = doc.length ∧
      ∀ (p : Nat) (e : Element), doc[p]? = some e → e.tagName = "table" →
        (∀ r ∈ e.rows.tail, parses parseFloat r) →
        ∃ e1, doc1[p]? = some e1 ∧ e1.rows.tail.Perm e.rows.tail ∧
          List.Pairwise (scoreGe parseFloat) e1.rows.tail := by
  refine ⟨_, sortBaseScoreDescending_eq parseFloat doc hcells, by simp, ?_⟩
  intro p e hp htab hparse
  refine ⟨sortedElement parseFloat e, by simp [hp], ?_, ?_⟩
  · simp only [sortedElement, htab, if_true, Element.setRows, rowsByScore_tail]
    exact List.perm_insertionSort _ _
  · simp only [sortedElement, htab, if_true, Element.setRows, rowsByScore_tail]
    exact insertionSort_scoreGe parseFloat _ hparse

/-- C3, amended, at the document `scoreDoc` (scores 3, 7, 5), which the call
leaves with the scores reading 7, 5, 3. -/
theorem sortBaseScoreDescending_non_increasing_witness :
    (∀ e ∈ scoreDoc, e.tagName = "table" → ∀ r ∈ e.rows.tail, 5 < r.cells.length) ∧
    (∃ doc1, sortBaseScoreDescending parseDigits scoreDoc = Outcome.done doc1 ∧
      doc1.length = scoreDoc.length ∧
      ∀ (p : Nat) (e : Element), scoreDoc[p]? = some e → e.tagName = "table" →
        (∀ r ∈ e.rows.tail, parses parseDigits r) →
        ∃ e1, doc1[p]? = some e1 ∧ e1.rows.tail.Perm e.rows.tail ∧
          List.Pairwise (scoreGe parseDigits) e1.rows.tail) ∧
    sortBaseScoreDescending parseDigits scoreDoc = Outcome.done scoreDocSorted :=
  ⟨by decide, sortBaseScoreDescending_non_increasing parseDigits scoreDoc (by decide),
    by with_unfolding_all decide⟩

/-- C9, amended. In a document none of whose table rows is or holds an arrow or
a table (the documents of `Document`), whenever `sortBaseScoreDescending()`
completes, the document has the same elements position by position, each with
its id, tag, classes and display unchanged, and the collections of the tables
and of the arrows are the same sequences (so the number of tables, their
visibility and the arrows are unchanged); each table keeps its header row at the
top, its data rows being a permutation of its data rows before. -/
theorem sortBaseScoreDescending_header_and_permutation (parseFloat : JSString → JSNumber)
    (doc doc1 : Document)
    (hdone : sortBaseScoreDescending parseFloat doc = Outcome.done doc1) :
    doc1.length = doc.length ∧
      (∀ (p : Nat) (e : Element), doc[p]? = some e →
        ∃ e1, doc1[p]? = some e1 ∧ e1.id = e.id ∧ e1.tagName = e.tagName ∧
          e1.classList = e.classList ∧ e1.display = e.display ∧
          (e.tagName = "table" →
            e1.rows.head? = e.rows.head? ∧ e1.rows.tail.Perm e.rows.tail)) ∧
      getElementsByTagName doc1 "table" = getElementsByTagName doc "table" ∧
      getElementsByClassName doc1 "arrow" = getElementsByClassName doc "arrow" := by
  have hframe := sortBaseScoreDescending_frame parseFloat doc
  rw [hdone] at hframe
  have hrel : DocRel SameButRowOrder doc doc1 := hframe
  refine ⟨hrel.1, ?_, tables_congr _ _ (docRel_shape _ _ hrel) _,
    arrows_congr _ _ (docRel_shape _ _ hrel)⟩
  intro p e hp
  obtain ⟨e1, he1, hid, htag, hcls, hdisp, hhead, hperm⟩ := hrel.2 p e hp
  exact ⟨e1, he1, hid, htag, hcls, hdisp, fun _ => ⟨hhead, hperm⟩⟩

/-- C9, amended, at the document `scoreDoc`. -/
theorem sortBaseScoreDescending_header_and_permutation_witness :
    sortBaseScoreDescending parseDigits scoreDoc = Outcome.done scoreDocSorted ∧
    (scoreDocSorted.length = scoreDoc.length ∧
      (∀ (p : Nat) (e : Element), scoreDoc[p]? = some e →
        ∃ e1, scoreDocSorted[p]? = some e1 ∧ e1.id = e.id ∧ e1.tagName = e.tagName ∧
          e1.classList = e.classList ∧ e1.display = e.display ∧
          (e.tagName = "table" →
            e1.rows.head? = e.rows.head? ∧ e1.rows.tail.Perm e.rows.tail)) ∧
      getElementsByTagName scoreDocSorted "table" = getElementsByTagName scoreDoc "table" ∧
      getElementsByClassName scoreDocSorted "arrow"
        = getElementsByClassName scoreDoc "arrow") :=
  ⟨by with_unfolding_all decide,
    sortBaseScoreDescending_header_and_permutation parseDigits scoreDoc scoreDocSorted
      (by with_unfolding_all decide)⟩

/-! ## toggleTable -/

theorem findId_some (id : String) :
    ∀ (d : Document) (t : Nat), findId id d = some t → ∃ e, d[t]? = some e ∧ e.id = id
  | [], _, h => by simp [findId] at h
  | e :: d, t, h => by
    simp only [findId] at h
    by_cases he : e.id = id
    · simp only [he, if_true, Option.some.injEq] at h
      subst h
      exact ⟨e, by simp, he⟩
    · simp only [he, if_false, Option.map_eq_some'] at h
      obtain ⟨t1, ht1, rfl⟩ := h
      obtain ⟨e1, he1, hid⟩ := findId_some id d t1 ht1
      exact ⟨e1, by simpa using he1, hid⟩

theorem getElementById_some (d : Document) (id : String) (t : Nat)
    (h : getElementById d id = some t) : ∃ e, d[t]? = some e ∧ e.id = id := by
  unfold getElementById at h
  split at h
  · cases h
  · exact findId_some id d t h

theorem toggleTable_resolved (parseFloat : JSString → JSNumber) (doc : Document)
    (tableId arrowId : String) (t a : Nat)
    (ht : getElementById doc tableId = some t) (ha : getElementById doc arrowId = some a) :
    toggleTable parseFloat doc tableId arrowId
      = sortBaseScoreDescending parseFloat (toggled doc t a) := by
  unfold toggleTable toggled
  simp only [ht, ha]
  split <;> rfl

theorem toggleTable_no_table (parseFloat : JSString → JSNumber) (doc : Document)
    (tableId arrowId : String) (ht : getElementById doc tableId = none) :
    toggleTable parseFloat doc tableId arrowId = Outcome.threw doc := by
  unfold toggleTable
  simp only [ht]

theorem toggleTable_no_arrow (parseFloat : JSString → JSNumber) (doc : Document)
    (tableId arrowId : String) (t : Nat)
    (ht : getElementById doc tableId = some t) (ha : getElementById doc arrowId = none) :
    toggleTable parseFloat doc tableId arrowId = Outcome.threw (displayFlipped doc t) := by
  unfold toggleTable displayFlipped
  simp only [ht, ha]
  split <;> rfl

theorem toggled_proj {β : Type} (proj : Element → β)
    (hd : ∀ v e, proj (Element.setDisplay v e) = proj e)
    (ha : ∀ e, proj (Element.classListAdd "rotated" e) = proj e)
    (hr : ∀ e, proj (Element.classListRemove "rotated" e) = proj e)
    (doc : Document) (t a : Nat) : (toggled doc t a).map proj = doc.map proj := by
  unfold toggled
  split
  · rw [map_modify_proj proj _ ha, map_modify_proj proj _ (hd _)]
  · rw [map_modify_proj proj _ hr, map_modify_proj proj _ (hd _)]

theorem toggled_shape (doc : Document) (t a : Nat) :
    (toggled doc t a).map shapeOf = doc.map shapeOf :=
  toggled_proj shapeOf (fun _ _ => rfl) shapeOf_classListAdd shapeOf_classListRemove doc t a

theorem forTables_ne_outOfFuel (body : Nat → Document → Outcome Document)
    (hbody : ∀ i d, body i d ≠ Outcome.outOfFuel) :
    ∀ (k i : Nat) (d : Document), forTables body k i d ≠ Outcome.outOfFuel := by
  intro k
  induction k with
  | zero => intro i d h; cases h
  | succ k ih =>
    intro i d
    simp only [forTables]
    split
    · have hb := hbody i d
      revert hb
      cases body i d with
      | done d1 => exact fun _ => ih (i + 1) d1
      | threw d1 => exact fun _ h => by cases h
      | outOfFuel => exact fun hb => absurd rfl hb
    · exact fun h => by cases h

theorem sortBaseScoreBody_ne_outOfFuel (parseFloat : JSString → JSNumber) (i : Nat)
    (d : Document) : sortBaseScoreBody parseFloat i d ≠ Outcome.outOfFuel := by
  unfold sortBaseScoreBody
  split
  · exact fun h => by cases h
  · split <;> exact fun h => by cases h

/-- The score sort always ends, normally or by a throw, and the document it
leaves has the same elements up to the order of the data rows of each. -/
theorem sortBaseScoreDescending_state (parseFloat : JSString → JSNumber) (doc : Document) :
    ∃ d1, (sortBaseScoreDescending parseFloat doc).state? = some d1 ∧
      DocRel SameButRowOrder doc d1 := by
  have hframe := sortBaseScoreDescending_frame parseFloat doc
  have hne : sortBaseScoreDescending parseFloat doc ≠ Outcome.outOfFuel :=
    forTables_ne_outOfFuel _ (sortBaseScoreBody_ne_outOfFuel parseFloat) _ _ _
  revert hframe hne
  cases sortBaseScoreDescending parseFloat doc with
  | done d1 => exact fun hf _ => ⟨d1, rfl, hf⟩
  | threw d1 => exact fun hf _ => ⟨d1, rfl, hf⟩
  | outOfFuel => exact fun _ hne => absurd rfl hne

theorem rotated_classListAdd (e : Element) : (e.classListAdd "rotated").rotated := by
  unfold Element.rotated Element.classListAdd
  by_cases h : "rotated" ∈ e.classList
  · simp [h]
  · simp [h]

theorem not_rotated_classListRemove (e : Element) : ¬ (e.classListRemove "rotated").rotated := by
  unfold Element.rotated Element.classListRemove
  simp [List.mem_filter]

/-- One pass through lines 4-10: the element at `t` changes visibility, and the
element at `a` ends rotated exactly when the element at `t` was hidden. -/
theorem toggled_effect (doc : Document) (t a : Nat) (et ea : Element)
    (ht : doc[t]? = some et) (ha : doc[a]? = some ea) :
    ∃ et1 ea1, (toggled doc t a)[t]? = some et1 ∧ (toggled doc t a)[a]? = some ea1 ∧
      (et1.visible ↔ ¬ et.visible) ∧ (ea1.rotated ↔ ¬ et.visible) := by
  unfold toggled displayAt
  rw [ht]
  simp only [Option.map_some', Option.some.injEq]
  by_cases hd : et.display = "none"
  · rw [if_pos hd]
    simp only [List.getElem?_modify, ht, ha, Option.map_eq_map, Option.map_some']
    refine ⟨_, _, rfl, rfl, ?_, ?_⟩
    · have hv : ¬ et.visible := fun h => h hd
      by_cases hat : a = t
      · simp only [hat, if_true, hv, not_false_eq_true, iff_true]
        show (Element.classListAdd "rotated" (Element.setDisplay "table" et)).display ≠ "none"
        simp [Element.classListAdd, Element.setDisplay]
      · simp only [hat, if_true, if_false, hv, not_false_eq_true, iff_true]
        show (Element.setDisplay "table" et).display ≠ "none"
        simp [Element.setDisplay]
    · have hv : ¬ et.visible := fun h => h hd
      simp only [if_true, hv, not_false_eq_true, iff_true]
      exact rotated_classListAdd _
  · rw [if_neg hd]
    simp only [List.getElem?_modify, ht, ha, Option.map_eq_map, Option.map_some']
    refine ⟨_, _, rfl, rfl, ?_, ?_⟩
    · have hv : et.visible := hd
      by_cases hat : a = t
      · simp only [hat, if_true, hv, not_true_eq_false, iff_false]
        show ¬ (Element.classListRemove "rotated" (Element.setDisplay "none" et)).display ≠ "none"
        simp [Element.classListRemove, Element.setDisplay]
      · simp only [hat, if_true, if_false, hv, not_true_eq_false, iff_false]
        show ¬ (Element.setDisplay "none" et).display ≠ "none"
        simp [Element.setDisplay]
    · have hv : et.visible := hd
      simp only [if_true, hv, not_true_eq_false, iff_false]
      exact not_rotated_classListRemove _

/-- One call of `toggleTable` on identifiers that resolve: the call ends
(normally, or by a throw of the sort), the identifiers resolve as before, the
element at `t` has changed visibility and the element at `a` is rotated exactly
when the element at `t` was hidden before the call. -/
theorem toggleTable_effect (parseFloat : JSString → JSNumber) (doc : Document)
    (tableId arrowId : String) (t a : Nat) (et ea : Element)
    (ht : getElementById doc tableId = some t) (ha : getElementById doc arrowId = some a)
    (het : doc[t]? = some et) (hea : doc[a]? = some ea) :
    ∃ d1 et1 ea1, (toggleTable parseFloat doc tableId arrowId).state? = some d1 ∧
      d1.map shapeOf = doc.map shapeOf ∧ d1[t]? = some et1 ∧ d1[a]? = some ea1 ∧
      (et1.visible ↔ ¬ et.visible) ∧ (ea1.rotated ↔ ¬ et.visible) := by
  rw [toggleTable_resolved parseFloat doc tableId arrowId t a ht ha]
  obtain ⟨d1, hs1, hrel⟩ := sortBaseScoreDescending_state parseFloat (toggled doc t a)
  obtain ⟨et0, ea0, h0t, h0a, hv0, hr0⟩ := toggled_effect doc t a et ea het hea
  obtain ⟨et1, h1t, hrt⟩ := hrel.2 t et0 h0t
  obtain ⟨ea1, h1a, hra⟩ := hrel.2 a ea0 h0a
  refine ⟨d1, et1, ea1, hs1, (docRel_shape _ _ hrel).trans (toggled_shape doc t a), h1t, h1a,
    ?_, ?_⟩
  · rw [← hv0]
    unfold Element.visible
    rw [hrt.2.2.2.1]
  · rw [← hr0]
    unfold Element.rotated
    rw [hra.2.2.1]

/-! ## Claims about `toggleTable` and `onHeaderClick` -/

/-- C4, as stated, fails: on a visible table whose arrow is not rotated, two
calls of `toggleTable` complete and leave the arrow rotated. -/
theorem two_toggles_rotate_unrotated_arrow :
    ∃ d1 d2, getElementById scoreDoc "table1" = some 1 ∧
      getElementById scoreDoc "arrow1" = some 0 ∧
      scoreDoc[1]?.map (fun e => e.tagName) = some "table" ∧
      scoreDoc[0]?.map (fun e => e.classList) = some ["arrow"] ∧
      toggleTable parseDigits scoreDoc "table1" "arrow1" = Outcome.done d1 ∧
      toggleTable parseDigits d1 "table1" "arrow1" = Outcome.done d2 ∧
      scoreDoc[0]?.map (fun e => decide e.rotated) = some false ∧
      d2[0]?.map (fun e => decide e.rotated) = some true :=
  ⟨[mkArrow "arrow1" ["arrow"],
      mkTable "table1" "none" [headRow ["name", "", "", "", "", "score"], scoreRow "b" "7",
        scoreRow "c" "5", scoreRow "a" "3"]],
    [mkArrow "arrow1" ["arrow", "rotated"],
      mkTable "table1" "table" [headRow ["name", "", "", "", "", "score"], scoreRow "b" "7",
        scoreRow "c" "5", scoreRow "a" "3"]],
    by decide, by decide, by decide, by decide,
    by with_unfolding_all decide, by with_unfolding_all decide, by decide, by decide⟩

/-- C4, amended. When `tableId` and `arrowId` resolve, two calls of
`toggleTable(tableId, arrowId)` in succession (each ends, normally or by a throw
of the sort) return the table to its original visibility and leave the arrow
rotated exactly when the table is visible; so the arrow returns to its original
rotation state when that state agreed with the visibility of the table before
the calls. -/
theorem toggleTable_twice (parseFloat : JSString → JSNumber) (doc : Document)
    (tableId arrowId : String) (t a : Nat)
    (ht : getElementById doc tableId = some t) (ha : getElementById doc arrowId = some a) :
    ∃ d1 d2 et ea et2 ea2,
      (toggleTable parseFloat doc tableId arrowId).state? = some d1 ∧
      (toggleTable parseFloat d1 tableId arrowId).state? = some d2 ∧
      doc[t]? = some et ∧ doc[a]? = some ea ∧ d2[t]? = some et2 ∧ d2[a]? = some ea2 ∧
      (et2.visible ↔ et.visible) ∧ (ea2.rotated ↔ et.visible) ∧
      ((ea.rotated ↔ et.visible) → (ea2.rotated ↔ ea.rotated)) := by
  obtain ⟨et, het, _⟩ := getElementById_some doc tableId t ht
  obtain ⟨ea, hea, _⟩ := getElementById_some doc arrowId a ha
  obtain ⟨d1, et1, ea1, hs1, hshape1, h1t, h1a, hv1, _⟩ :=
    toggleTable_effect parseFloat doc tableId arrowId t a et ea ht ha het hea
  have ht1 : getElementById d1 tableId = some t := by
    rw [getElementById_congr d1 doc hshape1]; exact ht
  have ha1 : getElementById d1 arrowId = some a := by
    rw [getElementById_congr d1 doc hshape1]; exact ha
  obtain ⟨d2, et2, ea2, hs2, _, h2t, h2a, hv2, hr2⟩ :=
    toggleTable_effect parseFloat d1 tableId arrowId t a et1 ea1 ht1 ha1 h1t h1a
  have hvis : et2.visible ↔ et.visible := by
    rw [hv2, hv1]
    exact not_not
  have hrot : ea2.rotated ↔ et.visible := by
    rw [hr2, hv1]
    exact not_not
  exact ⟨d1, d2, et, ea, et2, ea2, hs1, hs2, het, hea, h2t, h2a, hvis, hrot,
    fun h => hrot.trans h.symm⟩

/-- C4, amended, at the document `scoreDoc`, its table and its arrow. -/
theorem toggleTable_twice_witness :
    (getElementById scoreDoc "table1" = some 1 ∧ getElementById scoreDoc "arrow1" = some 0) ∧
    ∃ d1 d2 et ea et2 ea2,
      (toggleTable parseDigits scoreDoc "table1" "arrow1").state? = some d1 ∧
      (toggleTable parseDigits d1 "table1" "arrow1").state? = some d2 ∧
      scoreDoc[1]? = some et ∧ scoreDoc[0]? = some ea ∧ d2[1]? = some et2 ∧
      d2[0]? = some ea2 ∧
      (et2.visible ↔ et.visible) ∧ (ea2.rotated ↔ et.visible) ∧
      ((ea.rotated ↔ et.visible) → (ea2.rotated ↔ ea.rotated)) :=
  ⟨⟨by decide, by decide⟩,
    toggleTable_twice parseDigits scoreDoc "table1" "arrow1" 1 0 (by decide) (by decide)⟩

/-- C5, as stated, fails: with an identifier that matches no element,
`toggleTable` and `onHeaderClick` throw, and when only the arrow is missing
`toggleTable` has changed the document when it throws. -/
theorem missing_identifier_is_not_a_no_op :
    toggleTable parseDigits scoreDoc "missing" "arrow1" = Outcome.threw scoreDoc ∧
    onHeaderClick asciiToLowerCase 5 scoreDoc "missing" 0 = Outcome.threw scoreDoc ∧
    (∃ d, toggleTable parseDigits scoreDoc "table1" "missing" = Outcome.threw d ∧
      d ≠ scoreDoc) :=
  ⟨by decide, by decide,
    ⟨[mkArrow "arrow1" ["arrow"],
      mkTable "table1" "none" [headRow ["name", "", "", "", "", "score"], scoreRow "a" "3",
        scoreRow "b" "7", scoreRow "c" "5"]], by decide, by decide⟩⟩

/-- C5, amended. On a document in which a passed identifier matches no element,
`toggleTable` and `onHeaderClick` fail by a throw (there is no guard). When the
table identifier matches no element the document is left as it was: no display,
no class and no row order is modified. When the table identifier matches and
only the arrow identifier does not, `toggleTable` throws after the display of
that table has been written, and nothing else is modified: ids, tags, classes
and rows are as before. -/
theorem missing_identifier_throws (parseFloat : JSString → JSNumber)
    (toLowerCase : JSString → JSString) (fuel : Nat) (doc : Document)
    (tableId arrowId : String) (columnIndex : Nat)
    (hmiss : getElementById doc tableId = none ∨ getElementById doc arrowId = none) :
    (getElementById doc tableId = none →
      toggleTable parseFloat doc tableId arrowId = Outcome.threw doc ∧
      onHeaderClick toLowerCase fuel doc tableId columnIndex = Outcome.threw doc) ∧
    (∀ t, getElementById doc tableId = some t →
      toggleTable parseFloat doc tableId arrowId = Outcome.threw (displayFlipped doc t) ∧
      (displayFlipped doc t).map (fun e => (e.id, e.tagName, e.classList, e.rows))
        = doc.map (fun e => (e.id, e.tagName, e.classList, e.rows))) := by
  constructor
  · intro ht
    refine ⟨toggleTable_no_table parseFloat doc tableId arrowId ht, ?_⟩
    unfold onHeaderClick
    simp only [ht]
  · intro t ht
    have ha : getElementById doc arrowId = none := by
      rcases hmiss with h | h
      · rw [ht] at h; cases h
      · exact h
    refine ⟨toggleTable_no_arrow parseFloat doc tableId arrowId t ht ha, ?_⟩
    unfold displayFlipped
    split
    · exact map_modify_proj (fun e : Element => (e.id, e.tagName, e.classList, e.rows))
        (Element.setDisplay "table") (fun _ => rfl) _ _
    · exact map_modify_proj (fun e : Element => (e.id, e.tagName, e.classList, e.rows))
        (Element.setDisplay "none") (fun _ => rfl) _ _

/-- C5, amended, at the document `scoreDoc` with a table identifier that matches
no element. -/
theorem missing_identifier_throws_witness :
    (getElementById scoreDoc "missing" = none ∨ getElementById scoreDoc "arrow1" = none) ∧
    ((getElementById scoreDoc "missing" = none →
      toggleTable parseDigits scoreDoc "missing" "arrow1" = Outcome.threw scoreDoc ∧
      onHeaderClick asciiToLowerCase 5 scoreDoc "missing" 0 = Outcome.threw scoreDoc) ∧
    (∀ t, getElementById scoreDoc "missing" = some t →
      toggleTable parseDigits scoreDoc "missing" "arrow1"
        = Outcome.threw (displayFlipped scoreDoc t) ∧
      (displayFlipped scoreDoc t).map (fun e => (e.id, e.tagName, e.classList, e.rows))
        = scoreDoc.map (fun e => (e.id, e.tagName, e.classList, e.rows)))) :=
  ⟨Or.inl (by decide),
    missing_identifier_throws parseDigits asciiToLowerCase 5 scoreDoc "missing" "arrow1" 0
      (Or.inl (by decide))⟩

/-- C6. `toggleTable(tableId, arrowId)` fails by a throw whenever `tableId` or
`arrowId` does not resolve to an element of the document. -/
theorem toggleTable_throws_when_unresolved (parseFloat : JSString → JSNumber)
    (doc : Document) (tableId arrowId : String)
    (hmiss : getElementById doc tableId = none ∨ getElementById doc arrowId = none) :
    ∃ d, toggleTable parseFloat doc tableId arrowId = Outcome.threw d := by
  cases ht : getElementById doc tableId with
  | none => exact ⟨doc, toggleTable_no_table parseFloat doc tableId arrowId ht⟩
  | some t =>
    have ha : getElementById doc arrowId = none := by
      rcases hmiss with h | h
      · rw [ht] at h; cases h
      · exact h
    exact ⟨_, toggleTable_no_arrow parseFloat doc tableId arrowId t ht ha⟩

/-- C6, at the document `scoreDoc` with an arrow identifier that matches no
element. -/
theorem toggleTable_throws_when_unresolved_witness :
    (getElementById scoreDoc "table1" = none ∨ getElementById scoreDoc "missing" = none) ∧
    ∃ d, toggleTable parseDigits scoreDoc "table1" "missing" = Outcome.threw d :=
  ⟨Or.inr (by decide),
    toggleTable_throws_when_unresolved parseDigits scoreDoc "table1" "missing"
      (Or.inr (by decide))⟩

theorem sortedElement_rows (parseFloat : JSString → JSNumber) (d : Document) :
    (d.map (sortedElement parseFloat)).map Element.rows
      = (d.map (fun e => (e.tagName, e.rows))).map
          (fun x => if x.1 = "table" then rowsByScore parseFloat x.2 else x.2) := by
  rw [List.map_map, List.map_map]
  apply List.map_congr_left
  intro e _
  simp only [Function.comp, sortedElement]
  split <;> rfl

theorem sortedElement_tagName (parseFloat : JSString → JSNumber) (e : Element) :
    (sortedElement parseFloat e).tagName = e.tagName := by
  unfold sortedElement
  split <;> rfl

/-- C7. When both identifiers resolve and the data rows of every table have at
least 6 cells, `toggleTable(tableId, arrowId)` completes and the rows of every
element of the document, so of every table and not only the toggled one, are
the rows that `sortBaseScoreDescending` produces from the document before the
call; in particular every table whose data rows all parse as numbers in column
5 has them in non-increasing order of that value. -/
theorem toggleTable_resorts_every_table (parseFloat : JSString → JSNumber) (doc : Document)
    (tableId arrowId : String) (t a : Nat)
    (ht : getElementById doc tableId = some t) (ha : getElementById doc arrowId = some a)
    (hcells : ∀ e ∈ doc, e.tagName = "table" → ∀ r ∈ e.rows.tail, 5 < r.cells.length) :
    ∃ doc1 doc2, toggleTable parseFloat doc tableId arrowId = Outcome.done doc1 ∧
      sortBaseScoreDescending parseFloat doc = Outcome.done doc2 ∧
      doc1.map Element.rows = doc2.map Element.rows ∧
      doc1.map Element.tagName = doc.map Element.tagName ∧
      ∀ e1 ∈ doc1, e1.tagName = "table" → (∀ r ∈ e1.rows.tail, parses parseFloat r) →
        List.Pairwise (scoreGe parseFloat) e1.rows.tail := by
  have hproj : (toggled doc t a).map (fun e => (e.tagName, e.rows))
      = doc.map (fun e => (e.tagName, e.rows)) :=
    toggled_proj (fun e : Element => (e.tagName, e.rows)) (fun _ _ => rfl) (fun _ => rfl)
      (fun _ => rfl) doc t a
  have hcells1 : ∀ e ∈ toggled doc t a, e.tagName = "table" →
      ∀ r ∈ e.rows.tail, 5 < r.cells.length := by
    intro e he htab
    have hmem : (e.tagName, e.rows) ∈ (toggled doc t a).map (fun e => (e.tagName, e.rows)) :=
      List.mem_map_of_mem (fun e : Element => (e.tagName, e.rows)) he
    rw [hproj, List.mem_map] at hmem
    obtain ⟨e0, he0, heq⟩ := hmem
    simp only [Prod.mk.injEq] at heq
    rw [← heq.2]
    exact hcells e0 he0 (heq.1.trans htab)
  refine ⟨_, _, (toggleTable_resolved parseFloat doc tableId arrowId t a ht ha).trans
    (sortBaseScoreDescending_eq parseFloat _ hcells1),
    sortBaseScoreDescending_eq parseFloat doc hcells, ?_, ?_, ?_⟩
  · rw [sortedElement_rows, sortedElement_rows, hproj]
  · rw [List.map_map]
    have htag : (toggled doc t a).map Element.tagName = doc.map Element.tagName :=
      toggled_proj Element.tagName (fun _ _ => rfl) (fun _ => rfl) (fun _ => rfl) doc t a
    rw [← htag]
    apply List.map_congr_left
    intro e _
    exact sortedElement_tagName parseFloat e
  · intro e1 he1 htab hparse
    rw [List.mem_map] at he1
    obtain ⟨e0, _, rfl⟩ := he1
    rw [sortedElement_tagName] at htab
    simp only [sortedElement, htab, if_true, Element.setRows, rowsByScore_tail] at hparse ⊢
    apply insertionSort_scoreGe
    intro r hr
    exact hparse r ((List.perm_insertionSort _ _).symm.subset hr)

/-- C7, at the document `scoreDoc`, its table and its arrow. -/
theorem toggleTable_resorts_every_table_witness :
    (getElementById scoreDoc "table1" = some 1 ∧ getElementById scoreDoc "arrow1" = some 0 ∧
      ∀ e ∈ scoreDoc, e.tagName = "table" → ∀ r ∈ e.rows.tail, 5 < r.cells.length) ∧
    ∃ doc1 doc2, toggleTable parseDigits scoreDoc "table1" "arrow1" = Outcome.done doc1 ∧
      sortBaseScoreDescending parseDigits scoreDoc = Outcome.done doc2 ∧
      doc1.map Element.rows = doc2.map Element.rows ∧
      doc1.map Element.tagName = scoreDoc.map Element.tagName ∧
      ∀ e1 ∈ doc1, e1.tagName = "table" → (∀ r ∈ e1.rows.tail, parses parseDigits r) →
        List.Pairwise (scoreGe parseDigits) e1.rows.tail :=
  ⟨⟨by decide, by decide, by decide⟩,
    toggleTable_resorts_every_table parseDigits scoreDoc "table1" "arrow1" 1 0 (by decide)
      (by decide) (by decide)⟩

/-! ## toggleAll, collapseAll, expandAll as loops over the pairs -/

theorem collapseAllBody_eq :
    collapseAllBody = pairBody (fun _ => "none") (fun _ => Element.classListRemove "rotated") := by
  funext i doc
  rfl

theorem expandAllBody_eq :
    expandAllBody = pairBody (fun _ => "table") (fun _ => Element.classListAdd "rotated") := by
  funext i doc
  rfl

theorem toggleAllBody_eq :
    toggleAllBody = pairBody (fun x => if x = some "none" then "table" else "none")
      (fun x => if x = some "none" then Element.classListAdd "rotated"
        else Element.classListRemove "rotated") := by
  funext i doc
  unfold toggleAllBody pairBody
  split
  · rfl
  · rename_i t _
    by_cases hd : displayAt doc t = some "none"
    · simp only [hd, if_true]
    · simp only [hd, if_false]

/-- A loop of the common form over a document with at least as many arrows as
tables completes; it leaves the ids, tags and `arrow` classes as they were, and
the element at each position is the one the sequence of updates produces. -/
theorem pairLoop_result (g : Option String → String) (h : Option String → Element → Element)
    (hshape : ∀ x e, shapeOf (h x e) = shapeOf e) (hdisp : ∀ x e, (h x e).display = e.display)
    (doc : Document) (T A : List Nat)
    (hT : getElementsByTagName doc "table" = T) (hA : getElementsByClassName doc "arrow" = A)
    (hle : T.length ≤ A.length) :
    ∃ d1, forTables (pairBody g h) T.length 0 doc = Outcome.done d1 ∧
      d1.map shapeOf = doc.map shapeOf ∧
      ∀ p, d1[p]? = doc[p]?.map
        (elemRun (T.zip A) (pairDisplay g doc) (pairClass h doc) p T.length) := by
  have hnd : T.Nodup := hT ▸ collect_nodup _ doc
  have h1 : ∀ t e, shapeOf (pairDisplay g doc t e) = shapeOf e := fun _ _ => rfl
  have h2 : ∀ t e, shapeOf (pairClass h doc t e) = shapeOf e := fun _ _ => hshape _ _
  have hsh : ∀ i, (runUpdates (staticUpdate (T.zip A) (pairDisplay g doc) (pairClass h doc))
      doc i).map shapeOf = doc.map shapeOf :=
    runUpdates_shape (T.zip A) _ _ h1 h2 doc
  have hTi : ∀ i, getElementsByTagName
      (runUpdates (staticUpdate (T.zip A) (pairDisplay g doc) (pairClass h doc)) doc i)
      "table" = T := fun i => (tables_congr _ _ (hsh i) _).trans hT
  refine ⟨runUpdates (staticUpdate (T.zip A) (pairDisplay g doc) (pairClass h doc)) doc
    T.length, ?_, hsh _, fun p => runUpdates_getElem (T.zip A) _ _ doc p T.length⟩
  apply forTables_iter
  · intro i hi
    rw [hTi]
    exact hi
  · intro i hi
    have hti : T[i]? = some T[i] := List.getElem?_eq_getElem hi
    have hiA : i < A.length := by omega
    have hai : A[i]? = some A[i] := List.getElem?_eq_getElem hiA
    have hpi : (T.zip A)[i]? = some (T[i], A[i]) :=
      List.getElem?_zip_eq_some.mpr ⟨hti, hai⟩
    have hdispAt : displayAt
        (runUpdates (staticUpdate (T.zip A) (pairDisplay g doc) (pairClass h doc)) doc i) T[i]
        = displayAt doc T[i] := by
      unfold displayAt
      rw [runUpdates_getElem]
      cases doc[T[i]]? with
      | none => rfl
      | some e =>
        simp only [Option.map_some', Option.some.injEq]
        apply elemRun_proj (T.zip A) _ _ Element.display (fun t e => hdisp _ _)
        rw [List.map_take, List.map_fst_zip _ _ hle]
        exact getElem_not_mem_take T hnd i T[i] hti
    have hA1 : getElementsByClassName
        ((runUpdates (staticUpdate (T.zip A) (pairDisplay g doc) (pairClass h doc)) doc
          i).modify (Element.setDisplay (g (displayAt doc T[i]))) T[i]) "arrow" = A := by
      refine (arrows_congr _ _ ?_).trans hA
      rw [map_modify_proj shapeOf (Element.setDisplay (g (displayAt doc T[i])))
        (fun _ => rfl)]
      exact hsh i
    simp only [pairBody, hTi, hti, hdispAt, hA1, hai, staticUpdate, hpi]
    rfl

/-- A loop that sets every display to `v` and changes every arrow by `op`, on a
document with as many arrows as tables: it completes, every table has display
`v`, and every arrow has the property `Q` that `op` establishes. -/
theorem pairLoop_const (v : String) (op : Element → Element)
    (hshape : ∀ e, shapeOf (op e) = shapeOf e) (hdisp : ∀ e, (op e).display = e.display)
    (Q : Element → Prop) (hop : ∀ e, Q (op e)) (hQd : ∀ w e, Q e → Q (e.setDisplay w))
    (doc : Document)
    (hN : (getElementsByTagName doc "table").length
      = (getElementsByClassName doc "arrow").length) :
    ∃ d1, forTables (pairBody (fun _ => v) (fun _ => op))
        (getElementsByTagName doc "table").length 0 doc = Outcome.done d1 ∧
      d1.map shapeOf = doc.map shapeOf ∧
      (∀ e ∈ d1, e.tagName = "table" → e.display = v) ∧
      (∀ e ∈ d1, "arrow" ∈ e.classList → Q e) := by
  obtain ⟨d1, hrun, hsh, hget⟩ := pairLoop_result (fun _ => v) (fun _ => op)
    (fun _ e => hshape e) (fun _ e => hdisp e) doc _ _ rfl rfl (le_of_eq hN)
  refine ⟨d1, hrun, hsh, ?_, ?_⟩
  · intro e he htab
    obtain ⟨p, hp⟩ := List.mem_iff_getElem?.mp he
    rw [hget p] at hp
    cases h0 : doc[p]? with
    | none => rw [h0] at hp; cases hp
    | some e0 =>
      rw [h0] at hp
      simp only [Option.map_some', Option.some.injEq] at hp
      have hs0 : shapeOf e = shapeOf e0 := by
        rw [← hp]
        exact elemRun_shape _ (pairDisplay (fun _ => v) doc) (pairClass (fun _ => op) doc)
          (fun _ _ => rfl) (fun _ e => hshape e) p e0 _
      have htab0 : e0.tagName = "table" := by
        have := congrArg (fun s : String × String × Bool => s.2.1) hs0
        exact this.symm.trans htab
      have hpT : p ∈ getElementsByTagName doc "table" := by
        unfold getElementsByTagName
        rw [mem_collect]
        exact ⟨e0, h0, by simpa using htab0⟩
      rw [← hp]
      refine (elemRun_fst _ _ _ (fun _ => True) (fun x => x.display = v) p e0 trivial
        (fun _ _ => rfl) (fun _ _ => trivial) (fun _ _ _ => trivial)
        (fun _ x hx => (hdisp x).trans hx) _).2 ?_
      rw [List.map_take, List.map_fst_zip _ _ (le_of_eq hN), List.take_length]
      exact hpT
  · intro e he harrow
    obtain ⟨p, hp⟩ := List.mem_iff_getElem?.mp he
    rw [hget p] at hp
    cases h0 : doc[p]? with
    | none => rw [h0] at hp; cases hp
    | some e0 =>
      rw [h0] at hp
      simp only [Option.map_some', Option.some.injEq] at hp
      have hs0 : shapeOf e = shapeOf e0 := by
        rw [← hp]
        exact elemRun_shape _ (pairDisplay (fun _ => v) doc) (pairClass (fun _ => op) doc)
          (fun _ _ => rfl) (fun _ e => hshape e) p e0 _
      have harrow0 : "arrow" ∈ e0.classList := by
        have := congrArg (fun s : String × String × Bool => s.2.2) hs0
        simp only [shapeOf, decide_eq_decide] at this
        exact this.mp harrow
      have hpA : p ∈ getElementsByClassName doc "arrow" := by
        unfold getElementsByClassName
        rw [mem_collect]
        exact ⟨e0, h0, by simpa using harrow0⟩
      rw [← hp]
      refine (elemRun_snd _ _ _ (fun _ => True) Q p e0 trivial
        (fun _ x _ => hop x) (fun _ _ => trivial) (fun _ _ => trivial)
        (fun x hx => hQd _ x hx) _).2 ?_
      rw [List.map_take, List.map_snd_zip _ _ (le_of_eq hN.symm), hN, List.take_length]
      exact hpA

/-- `collapseAll` on a document with as many arrows as tables: it completes,
every table is hidden and every arrow is unrotated. -/
theorem collapseAll_result (doc : Document)
    (hN : (getElementsByTagName doc "table").length
      = (getElementsByClassName doc "arrow").length) :
    ∃ d1, collapseAll doc = Outcome.done d1 ∧ d1.map shapeOf = doc.map shapeOf ∧
      (∀ e ∈ d1, e.tagName = "table" → e.display = "none") ∧
      (∀ e ∈ d1, "arrow" ∈ e.classList → ¬ e.rotated) := by
  unfold collapseAll
  rw [collapseAllBody_eq]
  exact pairLoop_const "none" (Element.classListRemove "rotated") shapeOf_classListRemove
    (fun _ => rfl) (fun e => ¬ e.rotated) not_rotated_classListRemove (fun _ _ hx => hx) doc hN

/-- `expandAll` on a document with as many arrows as tables: it completes, every
table has display `table` and every arrow is rotated. -/
theorem expandAll_result (doc : Document)
    (hN : (getElementsByTagName doc "table").length
      = (getElementsByClassName doc "arrow").length) :
    ∃ d1, expandAll doc = Outcome.done d1 ∧ d1.map shapeOf = doc.map shapeOf ∧
      (∀ e ∈ d1, e.tagName = "table" → e.display = "table") ∧
      (∀ e ∈ d1, "arrow" ∈ e.classList → e.rotated) := by
  unfold expandAll
  rw [expandAllBody_eq]
  exact pairLoop_const "table" (Element.classListAdd "rotated") shapeOf_classListAdd
    (fun _ => rfl) (fun e => e.rotated) rotated_classListAdd (fun _ _ hx => hx) doc hN

/-! ## Claims about `collapseAll` and `expandAll` -/

/-- C10. On a document with N tables and N arrows, in whatever state of display
and rotation, `collapseAll()` followed by `expandAll()` completes and leaves
every table visible, with display `table`, and every arrow rotated; the
elements, their ids, tags and `arrow` classes are those of the document before. -/
theorem collapseAll_then_expandAll (doc : Document)
    (hN : (getElementsByTagName doc "table").length
      = (getElementsByClassName doc "arrow").length) :
    ∃ d1 d2, collapseAll doc = Outcome.done d1 ∧ expandAll d1 = Outcome.done d2 ∧
      d2.map shapeOf = doc.map shapeOf ∧
      (∀ e ∈ d2, e.tagName = "table" → e.display = "table" ∧ e.visible) ∧
      (∀ e ∈ d2, "arrow" ∈ e.classList → e.rotated) := by
  obtain ⟨d1, hc, hsh1, _, _⟩ := collapseAll_result doc hN
  have hN1 : (getElementsByTagName d1 "table").length
      = (getElementsByClassName d1 "arrow").length := by
    rw [tables_congr d1 doc hsh1, arrows_congr d1 doc hsh1]
    exact hN
  obtain ⟨d2, he, hsh2, htab, harr⟩ := expandAll_result d1 hN1
  refine ⟨d1, d2, hc, he, hsh2.trans hsh1, ?_, harr⟩
  intro e hmem ht
  have hd := htab e hmem ht
  refine ⟨hd, ?_⟩
  unfold Element.visible
  rw [hd]
  decide

/-- C10, at the document `scoreDoc`: one visible table, one unrotated arrow. -/
theorem collapseAll_then_expandAll_witness :
    ((getElementsByTagName scoreDoc "table").length
      = (getElementsByClassName scoreDoc "arrow").length) ∧
    ∃ d1 d2, collapseAll scoreDoc = Outcome.done d1 ∧ expandAll d1 = Outcome.done d2 ∧
      d2.map shapeOf = scoreDoc.map shapeOf ∧
      (∀ e ∈ d2, e.tagName = "table" → e.display = "table" ∧ e.visible) ∧
      (∀ e ∈ d2, "arrow" ∈ e.classList → e.rotated) :=
  ⟨by decide, collapseAll_then_expandAll scoreDoc (by decide)⟩

/-! ## Stability of `sortTable` and its result as a whole -/

theorem outOfOrder_keys_ne (toLowerCase : JSString → JSString) (c : Nat) (d : Dir) (a b : Row)
    (h : outOfOrder toLowerCase c d a b = true) :
    sortKey toLowerCase c a ≠ sortKey toLowerCase c b := by
  intro heq
  cases d
  · simp only [outOfOrder, heq, jsLt_irrefl] at h
    cases h
  · simp only [outOfOrder, heq, jsLt_irrefl] at h
    cases h

theorem BubbleStep.filter_key (toLowerCase : JSString → JSString) (c : Nat) (d : Dir)
    {l l1 : List Row} (h : BubbleStep (outOfOrder toLowerCase c d) l l1) (k : JSString) :
    l1.tail.filter (fun r => decide (sortKey toLowerCase c r = k))
      = l.tail.filter (fun r => decide (sortKey toLowerCase c r = k)) := by
  cases h with
  | swap h pre post a b hbad =>
    have hne := outOfOrder_keys_ne toLowerCase c d a b hbad
    simp only [List.tail_cons, List.filter_append, List.filter_cons]
    congr 1
    by_cases ha : sortKey toLowerCase c a = k
    · have hb : ¬ sortKey toLowerCase c b = k := fun hb => hne (ha.trans hb.symm)
      simp [ha, hb]
    · simp [ha]

theorem bubbleSteps_filter_key (toLowerCase : JSString → JSString) (c : Nat) (d : Dir)
    {l l1 : List Row}
    (h : Relation.ReflTransGen (BubbleStep (outOfOrder toLowerCase c d)) l l1) (k : JSString) :
    l1.tail.filter (fun r => decide (sortKey toLowerCase c r = k))
      = l.tail.filter (fun r => decide (sortKey toLowerCase c r = k)) := by
  induction h with
  | refl => rfl
  | tail _ hs ih => rw [hs.filter_key toLowerCase c d k, ih]

/-- What `sortTable` does to a table whose data rows all have a `TD` cell at the
column: it completes on every budget of at least `passBudget` loop tests, the
header stays, the rows with any given key keep their order, and the data rows
end non-decreasing when they were not so before, and non-increasing when they
were. -/
theorem sortTable_spec (toLowerCase : JSString → JSString) (table : Element) (c : Nat)
    (htable : table.tagName = "table")
    (hcells : ∀ r ∈ table.rows.tail, c < r.tds.length) :
    ∃ rows1, (∀ fuel, passBudget toLowerCase c table.rows ≤ fuel →
        sortTable toLowerCase fuel table c = Outcome.done { table with rows := rows1 }) ∧
      rows1.head? = table.rows.head? ∧ rows1.tail.Perm table.rows.tail ∧
      (∀ k, rows1.tail.filter (fun r => decide (sortKey toLowerCase c r = k))
        = table.rows.tail.filter (fun r => decide (sortKey toLowerCase c r = k))) ∧
      (¬ List.Pairwise (keyLe toLowerCase c) table.rows.tail →
        List.Pairwise (keyLe toLowerCase c) rows1.tail) ∧
      (List.Pairwise (keyLe toLowerCase c) table.rows.tail →
        List.Pairwise (fun a b => keyLe toLowerCase c b a) rows1.tail) := by
  by_cases hs : List.Pairwise (keyLe toLowerCase c) table.rows.tail
  · obtain ⟨rows1, hrun, hsteps, hchain⟩ := whileLoop_flip toLowerCase c
      (passBudget toLowerCase c table.rows) table.rows hcells
      (passBudget_desc toLowerCase c table.rows) (List.Pairwise.chain' hs)
    refine ⟨rows1, ?_, bubbleSteps_head hsteps, bubbleSteps_tail_perm hsteps,
      bubbleSteps_filter_key toLowerCase c Dir.desc hsteps,
      fun h => absurd hs h, fun _ => keyGe_chain_pairwise _ _ _ hchain⟩
    intro fuel hfuel
    simp only [sortTable, htable, if_true]
    rw [whileLoop_mono toLowerCase c _ fuel _ _ _ _ _ _ hfuel (by simp) hrun]
    rfl
  · obtain ⟨rows1, hrun, hsteps, hchain⟩ := whileLoop_phase toLowerCase c Dir.asc
      (passBudget toLowerCase c table.rows) table.rows false 0 hcells
      (passBudget_asc toLowerCase c table.rows) (by intro h; cases h)
      (fun _ _ h => hs (keyLe_chain_pairwise _ _ _ h))
    refine ⟨rows1, ?_, bubbleSteps_head hsteps, bubbleSteps_tail_perm hsteps,
      bubbleSteps_filter_key toLowerCase c Dir.asc hsteps,
      fun _ => keyLe_chain_pairwise _ _ _ hchain, fun h => absurd h hs⟩
    intro fuel hfuel
    simp only [sortTable, htable, if_true]
    rw [whileLoop_mono toLowerCase c _ fuel _ _ _ _ _ _ hfuel (by simp) hrun]
    rfl

theorem countP_exclusive {α : Type} (p q : α → Bool) (hpq : ∀ x, p x = true → q x = false) :
    ∀ (l : List α), l.countP p + l.countP q ≤ l.length
  | [] => by simp
  | x :: l => by
    have ih := countP_exclusive p q hpq l
    simp only [List.countP_cons, List.length_cons]
    by_cases hp : p x = true
    · simp only [hp, hpq x hp, if_true]
      simp
      omega
    · by_cases hq : q x = true
      · simp only [hp, hq, if_true]
        simp
        omega
      · simp only [hp, hq]
        simp
        omega

theorem inversions_two_directions (toLowerCase : JSString → JSString) (c : Nat) :
    ∀ (l : List Row), inversions (outOfOrder toLowerCase c Dir.asc) l
      + inversions (outOfOrder toLowerCase c Dir.desc) l ≤ l.length * l.length
  | [] => by simp [inversions]
  | a :: l => by
    have ih := inversions_two_directions toLowerCase c l
    have hc := countP_exclusive (outOfOrder toLowerCase c Dir.asc a)
      (outOfOrder toLowerCase c Dir.desc a)
      (fun x hx => jsLt_asymm _ _ hx) l
    simp only [inversions, List.length_cons]
    nlinarith

theorem passBudget_le (toLowerCase : JSString → JSString) (c : Nat) (rows : List Row) :
    passBudget toLowerCase c rows ≤ rows.length ^ 2 + 3 := by
  unfold passBudget
  have h := inversions_two_directions toLowerCase c rows.tail
  have hl : rows.tail.length ≤ rows.length := by simp
  have : rows.tail.length * rows.tail.length ≤ rows.length ^ 2 := by
    rw [pow_two]
    exact Nat.mul_le_mul hl hl
  omega

theorem sortTable_mono (toLowerCase : JSString → JSString) (table : Element) (c : Nat)
    (fuel fuel1 : Nat) (o : Outcome Element) (hle : fuel ≤ fuel1)
    (ho : o ≠ Outcome.outOfFuel) (h : sortTable toLowerCase fuel table c = o) :
    sortTable toLowerCase fuel1 table c = o := by
  have hloop : ∀ (rows : List Row) (f : List Row → Element),
      (whileLoop toLowerCase c fuel rows true false Dir.asc 0).map f = o →
      (whileLoop toLowerCase c fuel1 rows true false Dir.asc 0).map f = o := by
    intro rows f hf
    have hne : whileLoop toLowerCase c fuel rows true false Dir.asc 0
        ≠ Outcome.outOfFuel := by
      intro hc
      rw [hc] at hf
      exact ho hf.symm
    rw [whileLoop_mono toLowerCase c fuel fuel1 _ _ _ _ _ _ hle hne rfl]
    exact hf
  unfold sortTable at h ⊢
  by_cases h1 : table.tagName = "table"
  · rw [if_pos h1] at h ⊢
    exact hloop _ _ h
  · rw [if_neg h1] at h ⊢
    by_cases h2 : table.tagName = "thead" ∨ table.tagName = "tbody" ∨ table.tagName = "tfoot"
    · rw [if_pos h2] at h ⊢
      exact hloop _ _ h
    · rw [if_neg h2] at h ⊢
      by_cases h3 : table.tagName = "textarea"
      · rw [if_pos h3] at h ⊢
        exact hloop _ _ h
      · rw [if_neg h3] at h ⊢
        exact h

theorem rows_eq_of_head_tail {α : Type} :
    ∀ (l l1 : List α), l.head? = l1.head? → l.tail = l1.tail → l = l1
  | [], [], _, _ => rfl
  | [], _ :: _, h, _ => by simp at h
  | _ :: _, [], h, _ => by simp at h
  | a :: l, b :: l1, h, ht => by
    simp only [List.head?_cons, Option.some.injEq] at h
    simp only [List.tail_cons] at ht
    rw [h, ht]

/-- Two lists that are sorted by key for the same antisymmetric order and list
the rows of each key in the same order are one list. -/
theorem sorted_unique (key : Row → JSString) (R : JSString → JSString → Prop)
    (hanti : ∀ x y, R x y → R y x → x = y) :
    ∀ (l1 l2 : List Row), List.Pairwise (fun a b => R (key a) (key b)) l1 →
      List.Pairwise (fun a b => R (key a) (key b)) l2 →
      (∀ k, l1.filter (fun r => decide (key r = k)) = l2.filter (fun r => decide (key r = k))) →
      l1 = l2
  | [], [], _, _, _ => rfl
  | [], b :: l2, _, _, h => by
    have := h (key b)
    simp at this
  | a :: l1, [], _, _, h => by
    have := h (key a)
    simp at this
  | a :: l1, b :: l2, h1, h2, h => by
    rw [List.pairwise_cons] at h1 h2
    have hhead : ∀ (x : Row) (l : List Row) (y : Row),
        (∀ z ∈ l, R (key x) (key z)) → y ∈ x :: l → key y = key x ∨ R (key x) (key y) := by
      intro x l y hx hy
      rcases List.mem_cons.mp hy with rfl | hy
      · exact Or.inl rfl
      · exact Or.inr (hx y hy)
    have hb : b ∈ a :: l1 := by
      have hm : b ∈ (b :: l2).filter (fun r => decide (key r = key b)) := by simp
      rw [← h (key b)] at hm
      exact (List.mem_filter.mp hm).1
    have ha : a ∈ b :: l2 := by
      have hm : a ∈ (a :: l1).filter (fun r => decide (key r = key a)) := by simp
      rw [h (key a)] at hm
      exact (List.mem_filter.mp hm).1
    have hk : key a = key b := by
      rcases hhead a l1 b h1.1 hb with hab | hab
      · exact hab.symm
      · rcases hhead b l2 a h2.1 ha with hba | hba
        · exact hba
        · exact hanti _ _ hab hba
    have h0 := h (key a)
    simp only [List.filter_cons, hk, decide_True, if_true, List.cons.injEq] at h0
    obtain ⟨hab, _⟩ := h0
    subst hab
    congr 1
    apply sorted_unique key R hanti l1 l2 h1.2 h2.2
    intro k
    have hk0 := h k
    simp only [List.filter_cons] at hk0
    by_cases hka : key a = k
    · simp only [hka, decide_True, if_true, List.cons.injEq, true_and] at hk0
      exact hk0
    · simp only [hka, decide_False] at hk0
      exact hk0

theorem ascending_unique (toLowerCase : JSString → JSString) (c : Nat) (l1 l2 : List Row)
    (h1 : List.Pairwise (keyLe toLowerCase c) l1) (h2 : List.Pairwise (keyLe toLowerCase c) l2)
    (h : ∀ k, l1.filter (fun r => decide (sortKey toLowerCase c r = k))
      = l2.filter (fun r => decide (sortKey toLowerCase c r = k))) : l1 = l2 :=
  sorted_unique (sortKey toLowerCase c) (fun x y => jsLt y x = false)
    (fun x y hxy hyx => jsLt_connex x y hyx hxy) l1 l2 h1 h2 h

theorem descending_unique (toLowerCase : JSString → JSString) (c : Nat) (l1 l2 : List Row)
    (h1 : List.Pairwise (fun a b => keyLe toLowerCase c b a) l1)
    (h2 : List.Pairwise (fun a b => keyLe toLowerCase c b a) l2)
    (h : ∀ k, l1.filter (fun r => decide (sortKey toLowerCase c r = k))
      = l2.filter (fun r => decide (sortKey toLowerCase c r = k))) : l1 = l2 :=
  sorted_unique (sortKey toLowerCase c) (fun x y => jsLt x y = false)
    (fun x y hxy hyx => jsLt_connex x y hxy hyx) l1 l2 h1 h2 h

/-- The swaps of one call of `sortTable` all go in one direction: ascending
swaps when the data rows were not in non-decreasing order, descending swaps
when they were. -/
theorem sortTable_steps (toLowerCase : JSString → JSString) (table : Element) (c : Nat)
    (htable : table.tagName = "table")
    (hcells : ∀ r ∈ table.rows.tail, c < r.tds.length) :
    ∃ rows1, (∀ fuel, passBudget toLowerCase c table.rows ≤ fuel →
        sortTable toLowerCase fuel table c = Outcome.done { table with rows := rows1 }) ∧
      ((¬ List.Pairwise (keyLe toLowerCase c) table.rows.tail ∧
          Relation.ReflTransGen (BubbleStep (outOfOrder toLowerCase c Dir.asc))
            table.rows rows1) ∨
        (List.Pairwise (keyLe toLowerCase c) table.rows.tail ∧
          Relation.ReflTransGen (BubbleStep (outOfOrder toLowerCase c Dir.desc))
            table.rows rows1)) := by
  by_cases hs : List.Pairwise (keyLe toLowerCase c) table.rows.tail
  · obtain ⟨rows1, hrun, hsteps, _⟩ := whileLoop_flip toLowerCase c
      (passBudget toLowerCase c table.rows) table.rows hcells
      (passBudget_desc toLowerCase c table.rows) (List.Pairwise.chain' hs)
    refine ⟨rows1, ?_, Or.inr ⟨hs, hsteps⟩⟩
    intro fuel hfuel
    simp only [sortTable, htable, if_true]
    rw [whileLoop_mono toLowerCase c _ fuel _ _ _ _ _ _ hfuel (by simp) hrun]
    rfl
  · obtain ⟨rows1, hrun, hsteps, _⟩ := whileLoop_phase toLowerCase c Dir.asc
      (passBudget toLowerCase c table.rows) table.rows false 0 hcells
      (passBudget_asc toLowerCase c table.rows) (by intro h; cases h)
      (fun _ _ h => hs (keyLe_chain_pairwise _ _ _ h))
    refine ⟨rows1, ?_, Or.inl ⟨hs, hsteps⟩⟩
    intro fuel hfuel
    simp only [sortTable, htable, if_true]
    rw [whileLoop_mono toLowerCase c _ fuel _ _ _ _ _ _ hfuel (by simp) hrun]
    rfl

theorem BubbleStep.inversions_succ (toLowerCase : JSString → JSString) (c : Nat) (d : Dir)
    {l l1 : List Row} (h : BubbleStep (outOfOrder toLowerCase c d) l l1) :
    inversions (outOfOrder toLowerCase c d) l1.tail + 1
      = inversions (outOfOrder toLowerCase c d) l.tail := by
  cases h with
  | swap h pre post a b hbad =>
    exact inversions_swap _ a b hbad (outOfOrder_asymm toLowerCase c d a b hbad) pre post

/-! ## Further claims about `sortTable` -/

/-- C15, amended. `sortTable` is stable in both directions with respect to the
key it compares: on a table whose data rows all have a `TD` cell at the column
the call completes, and for every key the data rows whose lower-cased
`innerHTML` at the column is that key are afterwards the same rows in the same
order; so two data rows of equal lower-cased markup that appear one before the
other still appear in that order. -/
theorem sortTable_stable (toLowerCase : JSString → JSString) (table : Element) (c : Nat)
    (htable : table.tagName = "table")
    (hcells : ∀ r ∈ table.rows.tail, c < r.tds.length) :
    ∃ t1, (∀ fuel, passBudget toLowerCase c table.rows ≤ fuel →
        sortTable toLowerCase fuel table c = Outcome.done t1) ∧
      (∀ k, t1.rows.tail.filter (fun r => decide (sortKey toLowerCase c r = k))
        = table.rows.tail.filter (fun r => decide (sortKey toLowerCase c r = k))) ∧
      (∀ a b, sortKey toLowerCase c a = sortKey toLowerCase c b →
        [a, b].Sublist table.rows.tail → [a, b].Sublist t1.rows.tail) := by
  obtain ⟨rows1, hrun, _, _, hfilter, _, _⟩ := sortTable_spec toLowerCase table c htable hcells
  refine ⟨{ table with rows := rows1 }, hrun, hfilter, ?_⟩
  intro a b hab hsub
  have h1 := hsub.filter (fun r => decide (sortKey toLowerCase c r = sortKey toLowerCase c b))
  rw [← hfilter] at h1
  have h2 : [a, b].filter (fun r => decide (sortKey toLowerCase c r = sortKey toLowerCase c b))
      = [a, b] := by simp [hab]
  rw [h2] at h1
  exact h1.trans (List.filter_sublist _)

/-- C15, amended, at the table `pearTable`, whose rows Pear and pear have one
key: the call returns apple, Pear, pear. -/
theorem sortTable_stable_witness :
    (pearTable.tagName = "table" ∧ ∀ r ∈ pearTable.rows.tail, 0 < r.tds.length) ∧
    (∃ t1, (∀ fuel, passBudget asciiToLowerCase 0 pearTable.rows ≤ fuel →
        sortTable asciiToLowerCase fuel pearTable 0 = Outcome.done t1) ∧
      (∀ k, t1.rows.tail.filter (fun r => decide (sortKey asciiToLowerCase 0 r = k))
        = pearTable.rows.tail.filter (fun r => decide (sortKey asciiToLowerCase 0 r = k))) ∧
      (∀ a b, sortKey asciiToLowerCase 0 a = sortKey asciiToLowerCase 0 b →
        [a, b].Sublist pearTable.rows.tail → [a, b].Sublist t1.rows.tail)) ∧
    sortTable asciiToLowerCase (passBudget asciiToLowerCase 0 pearTable.rows) pearTable 0
      = Outcome.done pearAscending :=
  ⟨⟨rfl, by decide⟩, sortTable_stable asciiToLowerCase pearTable 0 rfl (by decide), by decide⟩

/-- C16. `sortTable` terminates: on a table whose data rows all have a `TD` cell
at the column, the while loop ends within `n * n + 3` loop tests, `n` the
number of rows, with the same result on every larger budget. All the swaps of
the call go in one direction, ascending when the data rows were not in
non-decreasing order and descending when they were (the direction changes at
most once, before the first swap), and each swap lowers the number of
inversions of that direction by one. -/
theorem sortTable_terminates (toLowerCase : JSString → JSString) (table : Element) (c : Nat)
    (htable : table.tagName = "table")
    (hcells : ∀ r ∈ table.rows.tail, c < r.tds.length) :
    ∃ t1, (∀ fuel, table.rows.length ^ 2 + 3 ≤ fuel →
        sortTable toLowerCase fuel table c = Outcome.done t1) ∧
      (Relation.ReflTransGen (BubbleStep (outOfOrder toLowerCase c Dir.asc))
          table.rows t1.rows ∨
        Relation.ReflTransGen (BubbleStep (outOfOrder toLowerCase c Dir.desc))
          table.rows t1.rows) ∧
      (∀ d rows rows1, BubbleStep (outOfOrder toLowerCase c d) rows rows1 →
        inversions (outOfOrder toLowerCase c d) rows1.tail + 1
          = inversions (outOfOrder toLowerCase c d) rows.tail) := by
  obtain ⟨rows1, hrun, hsteps⟩ := sortTable_steps toLowerCase table c htable hcells
  refine ⟨{ table with rows := rows1 },
    fun fuel hfuel => hrun fuel (le_trans (passBudget_le toLowerCase c table.rows) hfuel),
    ?_, fun d _ _ h => h.inversions_succ toLowerCase c d⟩
  rcases hsteps with h | h
  · exact Or.inl h.2
  · exact Or.inr h.2

/-- C16, at the fruit table: four rows, so a budget of 19 loop tests. -/
theorem sortTable_terminates_witness :
    (fruitTable.tagName = "table" ∧ ∀ r ∈ fruitTable.rows.tail, 0 < r.tds.length) ∧
    ∃ t1, (∀ fuel, fruitTable.rows.length ^ 2 + 3 ≤ fuel →
        sortTable asciiToLowerCase fuel fruitTable 0 = Outcome.done t1) ∧
      (Relation.ReflTransGen (BubbleStep (outOfOrder asciiToLowerCase 0 Dir.asc))
          fruitTable.rows t1.rows ∨
        Relation.ReflTransGen (BubbleStep (outOfOrder asciiToLowerCase 0 Dir.desc))
          fruitTable.rows t1.rows) ∧
      (∀ d rows rows1, BubbleStep (outOfOrder asciiToLowerCase 0 d) rows rows1 →
        inversions (outOfOrder asciiToLowerCase 0 d) rows1.tail + 1
          = inversions (outOfOrder asciiToLowerCase 0 d) rows.tail) :=
  ⟨⟨rfl, by decide⟩, sortTable_terminates asciiToLowerCase fruitTable 0 rfl (by decide)⟩

/-- C20, amended. `sortTable` reads no missing row or cell when each data row
has more than `c` cells of tag `TD`: on such a table, with zero, one, two or
more rows, no budget makes the call end by a throw, the call completes on every
budget of at least `passBudget` loop tests, and a table of at most two rows is
returned as it was. -/
theorem sortTable_never_fails (toLowerCase : JSString → JSString) (table : Element) (c : Nat)
    (htable : table.tagName = "table")
    (hcells : ∀ r ∈ table.rows.tail, c < r.tds.length) :
    (∀ fuel d, sortTable toLowerCase fuel table c ≠ Outcome.threw d) ∧
    ∃ t1, (∀ fuel, passBudget toLowerCase c table.rows ≤ fuel →
        sortTable toLowerCase fuel table c = Outcome.done t1) ∧
      (table.rows.length ≤ 2 → t1 = table) := by
  obtain ⟨rows1, hrun, hhead, hperm, _, _, _⟩ :=
    sortTable_spec toLowerCase table c htable hcells
  refine ⟨?_, { table with rows := rows1 }, hrun, ?_⟩
  · intro fuel d hthrew
    have h1 := sortTable_mono toLowerCase table c fuel
      (max fuel (passBudget toLowerCase c table.rows)) _ (le_max_left _ _)
      (by intro h; cases h) hthrew
    rw [hrun _ (le_max_right _ _)] at h1
    cases h1
  · intro hlen
    have htail : rows1.tail = table.rows.tail := by
      cases hr : table.rows.tail with
      | nil =>
        rw [hr] at hperm
        exact List.perm_nil.mp hperm
      | cons x l =>
        have hl : l = [] := by
          have : table.rows.tail.length ≤ 1 := by simp; omega
          rw [hr] at this
          simp at this
          exact this
        subst hl
        rw [hr] at hperm
        exact List.perm_singleton.mp hperm
    have hrows : rows1 = table.rows := rows_eq_of_head_tail _ _ hhead htail
    rw [hrows]

/-- C20, amended, at the fruit table, whose three data rows are compared and
swapped: the call completes within four loop tests. The table with a header and
one data row and the table without any row are returned as they are. -/
theorem sortTable_never_fails_witness :
    (fruitTable.tagName = "table" ∧ ∀ r ∈ fruitTable.rows.tail, 0 < r.tds.length) ∧
    ((∀ fuel d, sortTable asciiToLowerCase fuel fruitTable 0 ≠ Outcome.threw d) ∧
      ∃ t1, (∀ fuel, passBudget asciiToLowerCase 0 fruitTable.rows ≤ fuel →
          sortTable asciiToLowerCase fuel fruitTable 0 = Outcome.done t1) ∧
        (fruitTable.rows.length ≤ 2 → t1 = fruitTable)) ∧
    sortTable asciiToLowerCase 4 fruitTable 0 = Outcome.done fruitAscending ∧
    sortTable asciiToLowerCase 3 oneRowTable 0 = Outcome.done oneRowTable ∧
    sortTable asciiToLowerCase 3 (mkTable "none" "" []) 7
      = Outcome.done (mkTable "none" "" []) :=
  ⟨⟨rfl, by decide⟩, sortTable_never_fails asciiToLowerCase fruitTable 0 rfl (by decide),
    by decide, by decide, by decide⟩

/-- C17. On a table whose data rows all have a `TD` cell at the column, three
calls of `sortTable(table, c)` in succession (each completes) leave exactly the
row order of the first call, rows of equal key included; the second call sorts
in the direction opposite to the one the first call left: descending when the
first result is non-decreasing, ascending otherwise. -/
theorem sortTable_three_times (toLowerCase : JSString → JSString) (table : Element) (c : Nat)
    (htable : table.tagName = "table")
    (hcells : ∀ r ∈ table.rows.tail, c < r.tds.length) :
    ∃ t1 t2 t3,
      (∀ fuel, passBudget toLowerCase c table.rows ≤ fuel →
        sortTable toLowerCase fuel table c = Outcome.done t1) ∧
      (∀ fuel, passBudget toLowerCase c t1.rows ≤ fuel →
        sortTable toLowerCase fuel t1 c = Outcome.done t2) ∧
      (∀ fuel, passBudget toLowerCase c t2.rows ≤ fuel →
        sortTable toLowerCase fuel t2 c = Outcome.done t3) ∧
      t3 = t1 ∧
      (List.Pairwise (keyLe toLowerCase c) t1.rows.tail →
        List.Pairwise (fun a b => keyLe toLowerCase c b a) t2.rows.tail) ∧
      (¬ List.Pairwise (keyLe toLowerCase c) t1.rows.tail →
        List.Pairwise (keyLe toLowerCase c) t2.rows.tail) := by
  obtain ⟨rows1, hrun1, hhead1, hperm1, hf1, hasc1, hdesc1⟩ :=
    sortTable_spec toLowerCase table c htable hcells
  have hcells1 : ∀ r ∈ rows1.tail, c < r.tds.length :=
    fun r hr => hcells r (hperm1.subset hr)
  obtain ⟨rows2, hrun2, hhead2, hperm2, hf2, hasc2, hdesc2⟩ :=
    sortTable_spec toLowerCase { table with rows := rows1 } c htable hcells1
  have hcells2 : ∀ r ∈ rows2.tail, c < r.tds.length :=
    fun r hr => hcells1 r (hperm2.subset hr)
  obtain ⟨rows3, hrun3, hhead3, _, hf3, hasc3, hdesc3⟩ :=
    sortTable_spec toLowerCase { table with rows := rows2 } c htable hcells2
  simp only at hrun2 hhead2 hperm2 hf2 hasc2 hdesc2 hrun3 hhead3 hf3 hasc3 hdesc3
  refine ⟨{ table with rows := rows1 }, { table with rows := rows2 },
    { table with rows := rows3 }, hrun1, hrun2, hrun3, ?_, hdesc2, hasc2⟩
  have hf31 : ∀ k, rows3.tail.filter (fun r => decide (sortKey toLowerCase c r = k))
      = rows1.tail.filter (fun r => decide (sortKey toLowerCase c r = k)) :=
    fun k => (hf3 k).trans (hf2 k)
  have htail : rows3.tail = rows1.tail := by
    by_cases h0 : List.Pairwise (keyLe toLowerCase c) table.rows.tail
    · have hd1 := hdesc1 h0
      by_cases h1 : List.Pairwise (keyLe toLowerCase c) rows1.tail
      · have hd2 := hdesc2 h1
        have h21 : rows2.tail = rows1.tail :=
          descending_unique toLowerCase c _ _ hd2 hd1 hf2
        have hd3 := hdesc3 (h21 ▸ h1)
        exact descending_unique toLowerCase c _ _ hd3 hd1 hf31
      · have ha2 := hasc2 h1
        have h20 : rows2.tail = table.rows.tail :=
          ascending_unique toLowerCase c _ _ ha2 h0 (fun k => (hf2 k).trans (hf1 k))
        have hd3 := hdesc3 (h20 ▸ h0)
        exact descending_unique toLowerCase c _ _ hd3 hd1 hf31
    · have ha1 := hasc1 h0
      have hd2 := hdesc2 ha1
      by_cases h2 : List.Pairwise (keyLe toLowerCase c) rows2.tail
      · have h21 : rows2.tail = rows1.tail :=
          ascending_unique toLowerCase c _ _ h2 ha1 hf2
        have hd1 : List.Pairwise (fun a b => keyLe toLowerCase c b a) rows1.tail :=
          h21 ▸ hd2
        exact descending_unique toLowerCase c _ _ (hdesc3 h2) hd1 hf31
      · exact ascending_unique toLowerCase c _ _ (hasc3 h2) ha1 hf31
  have hrows : rows3 = rows1 :=
    rows_eq_of_head_tail _ _ (hhead3.trans hhead2) htail
  rw [hrows]

/-- C17, at the fruit table: the calls return apple, banana, cherry, then
cherry, banana, apple, then apple, banana, cherry again. -/
theorem sortTable_three_times_witness :
    (fruitTable.tagName = "table" ∧ ∀ r ∈ fruitTable.rows.tail, 0 < r.tds.length) ∧
    (∃ t1 t2 t3,
      (∀ fuel, passBudget asciiToLowerCase 0 fruitTable.rows ≤ fuel →
        sortTable asciiToLowerCase fuel fruitTable 0 = Outcome.done t1) ∧
      (∀ fuel, passBudget asciiToLowerCase 0 t1.rows ≤ fuel →
        sortTable asciiToLowerCase fuel t1 0 = Outcome.done t2) ∧
      (∀ fuel, passBudget asciiToLowerCase 0 t2.rows ≤ fuel →
        sortTable asciiToLowerCase fuel t2 0 = Outcome.done t3) ∧
      t3 = t1 ∧
      (List.Pairwise (keyLe asciiToLowerCase 0) t1.rows.tail →
        List.Pairwise (fun a b => keyLe asciiToLowerCase 0 b a) t2.rows.tail) ∧
      (¬ List.Pairwise (keyLe asciiToLowerCase 0) t1.rows.tail →
        List.Pairwise (keyLe asciiToLowerCase 0) t2.rows.tail)) ∧
    sortTable asciiToLowerCase 6 fruitTable 0 = Outcome.done fruitAscending ∧
    sortTable asciiToLowerCase 6 fruitAscending 0 = Outcome.done fruitDescending ∧
    sortTable asciiToLowerCase 6 fruitDescending 0 = Outcome.done fruitAscending :=
  ⟨⟨rfl, by decide⟩, sortTable_three_times asciiToLowerCase fruitTable 0 rfl (by decide),
    by decide, by decide, by decide⟩

/-! ## Further claims about `toggleTable` and `sortBaseScoreDescending` -/

theorem displayFlipped_eq (doc : Document) (t : Nat) :
    displayFlipped doc t = doc.modify flipDisplay t := by
  unfold displayFlipped displayAt
  apply List.ext_getElem?
  intro p
  cases ht : doc[t]? with
  | none =>
    simp only [Option.map_none', if_false, List.getElem?_modify]
    by_cases htp : t = p
    · subst htp
      simp [ht]
    · simp [htp]
  | some e =>
    simp only [Option.map_some', Option.some.injEq]
    by_cases hd : e.display = "none"
    · simp only [hd, if_true, List.getElem?_modify]
      by_cases htp : t = p
      · subst htp
        simp [ht, flipDisplay, hd]
      · simp [htp]
    · simp only [hd, if_false, List.getElem?_modify]
      by_cases htp : t = p
      · subst htp
        simp [ht, flipDisplay, hd]
      · simp [htp]

/-- C19. `toggleTable` is not all-or-nothing on a missing arrow. When `tableId`
resolves and `arrowId` resolves to no element, the call fails by a throw after
the display of that table has been flipped (`"none"` becomes `"table"`, anything
else becomes `"none"`): nothing else is written, so no class of any arrow has
changed and no rows have been re-sorted. When `tableId` does not resolve, the
call fails with the document unchanged. -/
theorem toggleTable_partial_on_missing_arrow (parseFloat : JSString → JSNumber)
    (doc : Document) (tableId arrowId : String) :
    (getElementById doc tableId = none →
      toggleTable parseFloat doc tableId arrowId = Outcome.threw doc) ∧
    (∀ t, getElementById doc tableId = some t → getElementById doc arrowId = none →
      toggleTable parseFloat doc tableId arrowId = Outcome.threw (doc.modify flipDisplay t) ∧
      (∃ e, doc[t]? = some e ∧ (doc.modify flipDisplay t)[t]? = some (flipDisplay e)) ∧
      (∀ p, p ≠ t → (doc.modify flipDisplay t)[p]? = doc[p]?) ∧
      (doc.modify flipDisplay t).map (fun e => (e.id, e.tagName, e.classList, e.rows))
        = doc.map (fun e => (e.id, e.tagName, e.classList, e.rows))) := by
  refine ⟨toggleTable_no_table parseFloat doc tableId arrowId, ?_⟩
  intro t ht ha
  refine ⟨?_, ?_, ?_, ?_⟩
  · rw [toggleTable_no_arrow parseFloat doc tableId arrowId t ht ha, displayFlipped_eq]
  · obtain ⟨e, he, _⟩ := getElementById_some doc tableId t ht
    exact ⟨e, he, by simp [he]⟩
  · intro p hp
    exact List.getElem?_modify_ne flipDisplay doc (Ne.symm hp)
  · exact map_modify_proj (fun e : Element => (e.id, e.tagName, e.classList, e.rows))
      flipDisplay (fun _ => rfl) _ _

/-- C19, at the document `scoreDoc`: with the arrow missing the visible table
ends hidden and the call throws; with the table missing nothing is written. -/
theorem toggleTable_partial_on_missing_arrow_witness :
    getElementById scoreDoc "table1" = some 1 ∧ getElementById scoreDoc "missing" = none ∧
    toggleTable parseDigits scoreDoc "table1" "missing"
      = Outcome.threw (scoreDoc.modify flipDisplay 1) ∧
    scoreDoc.modify flipDisplay 1
      = [mkArrow "arrow1" ["arrow"],
          mkTable "table1" "none" [headRow ["name", "", "", "", "", "score"],
            scoreRow "a" "3", scoreRow "b" "7", scoreRow "c" "5"]] ∧
    toggleTable parseDigits scoreDoc "missing" "arrow1" = Outcome.threw scoreDoc :=
  ⟨by decide, by decide,
    ((toggleTable_partial_on_missing_arrow parseDigits scoreDoc "table1" "missing").2 1
      (by decide) (by decide)).1,
    by decide,
    (toggleTable_partial_on_missing_arrow parseDigits scoreDoc "missing" "arrow1").1
      (by decide)⟩

theorem parses_cell (parseFloat : JSString → JSNumber) (r : Row)
    (h : parses parseFloat r) : 5 < r.cells.length := by
  by_contra hn
  apply h
  unfold rowScore scoreOf
  rw [List.getElem?_eq_none (by omega)]
  rfl

theorem insertionSort_keepsBefore_idem (parseFloat : JSString → JSNumber) (l : List Row)
    (h : ∀ r ∈ l, parses parseFloat r) :
    List.insertionSort (keepsBefore parseFloat) (List.insertionSort (keepsBefore parseFloat) l)
      = List.insertionSort (keepsBefore parseFloat) l := by
  apply List.Sorted.insertionSort_eq
  have hmem : ∀ r ∈ List.insertionSort (keepsBefore parseFloat) l, parses parseFloat r :=
    fun r hr => h r ((List.perm_insertionSort _ l).subset hr)
  exact (insertionSort_scoreGe parseFloat l h).imp_of_mem
    (fun ha hb hab => (keepsBefore_iff parseFloat _ _ (hmem _ ha) (hmem _ hb)).mpr hab)

theorem rowsByScore_idem (parseFloat : JSString → JSNumber) (rows : List Row)
    (h : ∀ r ∈ rows.tail, parses parseFloat r) :
    rowsByScore parseFloat (rowsByScore parseFloat rows) = rowsByScore parseFloat rows := by
  have htake : (rowsByScore parseFloat rows).take 1 = rows.take 1 := by
    cases rows <;> simp [rowsByScore]
  have hdef : ∀ l, rowsByScore parseFloat l
      = l.take 1 ++ List.insertionSort (keepsBefore parseFloat) l.tail := fun _ => rfl
  rw [hdef (rowsByScore parseFloat rows), htake, rowsByScore_tail,
    insertionSort_keepsBefore_idem parseFloat _ h]
  rfl

theorem sortedElement_idem (parseFloat : JSString → JSNumber) (e : Element)
    (h : e.tagName = "table" → ∀ r ∈ e.rows.tail, parses parseFloat r) :
    sortedElement parseFloat (sortedElement parseFloat e) = sortedElement parseFloat e := by
  by_cases htab : e.tagName = "table"
  · simp only [sortedElement, htab, if_true, Element.setRows]
    rw [rowsByScore_idem parseFloat e.rows (h htab)]
  · simp only [sortedElement, htab, if_false]

/-- C18. `sortBaseScoreDescending` is idempotent on numeric data: when every
data row of every table has a column-5 cell that parses as a number, the call
completes, and a second call completes leaving the document exactly as the
first left it, so every table keeps the row order of the first call. -/
theorem sortBaseScoreDescending_idempotent (parseFloat : JSString → JSNumber)
    (doc : Document)
    (hparse : ∀ e ∈ doc, e.tagName = "table" → ∀ r ∈ e.rows.tail, parses parseFloat r) :
    ∃ d1, sortBaseScoreDescending parseFloat doc = Outcome.done d1 ∧
      sortBaseScoreDescending parseFloat d1 = Outcome.done d1 := by
  have hcells : ∀ e ∈ doc, e.tagName = "table" → ∀ r ∈ e.rows.tail, 5 < r.cells.length :=
    fun e he htab r hr => parses_cell parseFloat r (hparse e he htab r hr)
  refine ⟨doc.map (sortedElement parseFloat), sortBaseScoreDescending_eq parseFloat doc hcells,
    ?_⟩
  have hcells1 : ∀ e ∈ doc.map (sortedElement parseFloat), e.tagName = "table" →
      ∀ r ∈ e.rows.tail, 5 < r.cells.length := by
    intro e1 he1 htab r hr
    rw [List.mem_map] at he1
    obtain ⟨e, he, rfl⟩ := he1
    rw [sortedElement_tagName] at htab
    simp only [sortedElement, htab, if_true, Element.setRows, rowsByScore_tail] at hr
    exact hcells e he htab r ((List.perm_insertionSort _ _).subset hr)
  rw [sortBaseScoreDescending_eq parseFloat _ hcells1, List.map_map]
  congr 1
  apply List.map_congr_left
  intro e he
  exact sortedElement_idem parseFloat e (hparse e he)

/-- C18, at the document `scoreDoc`, whose scores read 3, 7, 5: both calls
leave them reading 7, 5, 3. -/
theorem sortBaseScoreDescending_idempotent_witness :
    (∀ e ∈ scoreDoc, e.tagName = "table" → ∀ r ∈ e.rows.tail, parses parseDigits r) ∧
    (∃ d1, sortBaseScoreDescending parseDigits scoreDoc = Outcome.done d1 ∧
      sortBaseScoreDescending parseDigits d1 = Outcome.done d1) ∧
    sortBaseScoreDescending parseDigits scoreDoc = Outcome.done scoreDocSorted ∧
    sortBaseScoreDescending parseDigits scoreDocSorted = Outcome.done scoreDocSorted :=
  ⟨by with_unfolding_all decide,
    sortBaseScoreDescending_idempotent parseDigits scoreDoc (by with_unfolding_all decide),
    by with_unfolding_all decide, by with_unfolding_all decide⟩

/-! ## toggleAll, pair by pair -/

theorem elemRun_snd_mem (pairs : List (Nat × Nat)) (f1 f2 : Nat → Element → Element)
    (J Q : Element → Prop) (p : Nat) (e : Element) (hJ0 : J e)
    (hJ2 : ∀ t x, (t, p) ∈ pairs → J x → Q (f2 t x)) (hQJ : ∀ x, Q x → J x)
    (hJ1 : ∀ x, J x → J (f1 p x)) (hQ1 : ∀ x, Q x → Q (f1 p x)) :
    ∀ (i : Nat), J (elemRun pairs f1 f2 p i e) ∧
      (p ∈ (pairs.take i).map Prod.snd → Q (elemRun pairs f1 f2 p i e))
  | 0 => ⟨hJ0, by simp⟩
  | i + 1 => by
    obtain ⟨ihJ, ihQ⟩ := elemRun_snd_mem pairs f1 f2 J Q p e hJ0 hJ2 hQJ hJ1 hQ1 i
    rw [List.take_succ, List.map_append, List.mem_append]
    simp only [elemRun]
    cases hp : pairs[i]? with
    | none => exact ⟨ihJ, fun h => ihQ (by simpa using h)⟩
    | some ta =>
      obtain ⟨t, a⟩ := ta
      have hmemp : (t, a) ∈ pairs := List.mem_iff_getElem?.mpr ⟨i, hp⟩
      by_cases ha : a = p
      · subst ha
        by_cases ht : t = a
        · simp only [ht, if_true]
          have hq := hJ2 t _ hmemp (hJ1 _ ihJ)
          rw [ht] at hq
          exact ⟨hQJ _ hq, fun _ => hq⟩
        · simp only [ht, if_true, if_false]
          have hq := hJ2 t _ hmemp ihJ
          exact ⟨hQJ _ hq, fun _ => hq⟩
      · have hmem : p ∈ List.map Prod.snd (some (t, a)).toList → False := by
          simp [Ne.symm ha]
        by_cases ht : t = p
        · simp only [ht, ha, if_true, if_false]
          exact ⟨hJ1 _ ihJ, fun h => hQ1 _ (ihQ (h.resolve_right hmem))⟩
        · simp only [ht, ha, if_false]
          exact ⟨ihJ, fun h => ihQ (h.resolve_right hmem)⟩

theorem zip_fst_unique (T A : List Nat) (hA : A.Nodup) (i t a t1 : Nat)
    (hT : T[i]? = some t) (hAi : A[i]? = some a) (hmem : (t1, a) ∈ T.zip A) : t1 = t := by
  obtain ⟨j, hj⟩ := List.mem_iff_getElem?.mp hmem
  rw [List.getElem?_zip_eq_some] at hj
  obtain ⟨hj1, hj2⟩ := hj
  obtain ⟨hjlt, hje⟩ := List.getElem?_eq_some.mp hj2
  obtain ⟨hilt, hie⟩ := List.getElem?_eq_some.mp hAi
  have hji : j = i := (List.Nodup.getElem_inj_iff hA).mp (hje.trans hie.symm)
  subst hji
  rw [hT] at hj1
  exact (Option.some.inj hj1).symm

theorem mem_tables (doc : Document) (t : Nat) (h : t ∈ getElementsByTagName doc "table") :
    ∃ e, doc[t]? = some e ∧ e.tagName = "table" := by
  unfold getElementsByTagName at h
  rw [mem_collect] at h
  obtain ⟨e, he, hp⟩ := h
  exact ⟨e, he, by simpa using hp⟩

theorem mem_arrows (doc : Document) (a : Nat) (h : a ∈ getElementsByClassName doc "arrow") :
    ∃ e, doc[a]? = some e ∧ "arrow" ∈ e.classList := by
  unfold getElementsByClassName at h
  rw [mem_collect] at h
  obtain ⟨e, he, hp⟩ := h
  exact ⟨e, he, by simpa using hp⟩

/-- `toggleAll` on a document with at least as many arrows as tables: it
completes, the collections are as before, every table has changed visibility
and the arrow paired with a table is rotated exactly when that table was hidden
before the call. -/
theorem toggleAll_result (doc : Document)
    (hle : (getElementsByTagName doc "table").length
      ≤ (getElementsByClassName doc "arrow").length) :
    ∃ d1, toggleAll doc = Outcome.done d1 ∧ d1.map shapeOf = doc.map shapeOf ∧
      ∀ (i t a : Nat), (getElementsByTagName doc "table")[i]? = some t →
        (getElementsByClassName doc "arrow")[i]? = some a →
        visibleAt d1 t = !visibleAt doc t ∧ rotatedAt d1 a = !visibleAt doc t := by
  have hshape : ∀ (x : Option String) (e : Element),
      shapeOf ((if x = some "none" then Element.classListAdd "rotated"
        else Element.classListRemove "rotated") e) = shapeOf e := by
    intro x e
    split
    · exact shapeOf_classListAdd e
    · exact shapeOf_classListRemove e
  have hdisp : ∀ (x : Option String) (e : Element),
      ((if x = some "none" then Element.classListAdd "rotated"
        else Element.classListRemove "rotated") e).display = e.display := by
    intro x e
    split <;> rfl
  obtain ⟨d1, hrun, hsh, hget⟩ := pairLoop_result
    (fun x => if x = some "none" then "table" else "none")
    (fun x => if x = some "none" then Element.classListAdd "rotated"
      else Element.classListRemove "rotated") hshape hdisp doc _ _ rfl rfl hle
  refine ⟨d1, ?_, hsh, ?_⟩
  · unfold toggleAll
    rw [toggleAllBody_eq]
    exact hrun
  · intro i t a hti hai
    obtain ⟨et, het, _⟩ := mem_tables doc t (List.mem_iff_getElem?.mpr ⟨i, hti⟩)
    obtain ⟨ea, hea, _⟩ := mem_arrows doc a (List.mem_iff_getElem?.mpr ⟨i, hai⟩)
    have hilt : i < (getElementsByTagName doc "table").length :=
      (List.getElem?_eq_some.mp hti).1
    have hdoct : displayAt doc t = some et.display := by simp [displayAt, het]
    constructor
    · have hq := (elemRun_fst
        ((getElementsByTagName doc "table").zip (getElementsByClassName doc "arrow"))
        (pairDisplay (fun x => if x = some "none" then "table" else "none") doc)
        (pairClass (fun x => if x = some "none" then Element.classListAdd "rotated"
          else Element.classListRemove "rotated") doc)
        (fun _ => True)
        (fun x => x.display = (if displayAt doc t = some "none" then "table" else "none"))
        t et trivial (fun _ _ => rfl) (fun _ _ => trivial) (fun _ _ _ => trivial)
        (fun _ x hx => (hdisp _ x).trans hx)
        (getElementsByTagName doc "table").length).2
        (by
          rw [List.map_take, List.map_fst_zip _ _ hle, List.take_length]
          exact List.mem_iff_getElem?.mpr ⟨i, hti⟩)
      simp only [visibleAt, hget t, het, Option.map_some', Element.visible, hq, hdoct,
        Option.some.injEq]
      by_cases hd : et.display = "none" <;> simp [hd]
    · have hq := (elemRun_snd_mem
        ((getElementsByTagName doc "table").zip (getElementsByClassName doc "arrow"))
        (pairDisplay (fun x => if x = some "none" then "table" else "none") doc)
        (pairClass (fun x => if x = some "none" then Element.classListAdd "rotated"
          else Element.classListRemove "rotated") doc)
        (fun _ => True)
        (fun x => (x.rotated ↔ displayAt doc t = some "none"))
        a ea trivial
        (by
          intro t1 x hmem _
          have ht1 : t1 = t := zip_fst_unique _ _ (collect_nodup _ doc) i t a t1 hti hai hmem
          subst ht1
          unfold pairClass
          by_cases hd : displayAt doc t1 = some "none"
          · simp only [hd, if_true, iff_true]
            exact rotated_classListAdd x
          · simp only [hd, if_false, iff_false]
            exact not_rotated_classListRemove x)
        (fun _ _ => trivial) (fun _ _ => trivial) (fun _ hx => hx)
        (getElementsByTagName doc "table").length).2
        (by
          apply List.mem_map.mpr
          refine ⟨(t, a), List.mem_iff_getElem?.mpr ⟨i, ?_⟩, rfl⟩
          rw [List.getElem?_take, if_pos hilt]
          exact List.getElem?_zip_eq_some.mpr ⟨hti, hai⟩)
      simp only [rotatedAt, hget a, hea, Option.map_some', visibleAt, het, Element.visible]
      rw [hdoct, Option.some.injEq] at hq
      by_cases hd : et.display = "none"
      · have hr := hq.mpr hd
        simp [hr, hd]
      · have hr := mt hq.mp hd
        simp [hr, hd]

/-! ## Claims about `toggleAll` -/

/-- C11. On a document with N tables and N arrows `toggleAll()` completes, the
tables are the same elements, and the number of visible tables (display not
`"none"`) after the call is N minus the number of visible tables before. -/
theorem toggleAll_visible_count (doc : Document)
    (hN : (getElementsByTagName doc "table").length
      = (getElementsByClassName doc "arrow").length) :
    ∃ d1, toggleAll doc = Outcome.done d1 ∧
      getElementsByTagName d1 "table" = getElementsByTagName doc "table" ∧
      visibleTables d1 = (getElementsByTagName doc "table").length - visibleTables doc := by
  obtain ⟨d1, hrun, hsh, hpairs⟩ := toggleAll_result doc (le_of_eq hN)
  have hT := tables_congr d1 doc hsh "table"
  refine ⟨d1, hrun, hT, ?_⟩
  have hflip : ∀ t ∈ getElementsByTagName doc "table", visibleAt d1 t = !visibleAt doc t := by
    intro t ht
    obtain ⟨i, hi⟩ := List.mem_iff_getElem?.mp ht
    have hilt : i < (getElementsByClassName doc "arrow").length := by
      rw [← hN]
      exact (List.getElem?_eq_some.mp hi).1
    exact (hpairs i t _ hi (List.getElem?_eq_getElem hilt)).1
  have hcount : (getElementsByTagName doc "table").countP (visibleAt d1)
      = (getElementsByTagName doc "table").countP
          (fun t => decide ¬ (visibleAt doc t = true)) := by
    apply List.countP_congr
    intro t ht
    rw [hflip t ht]
    simp
  have hlen := List.length_eq_countP_add_countP (visibleAt doc) (getElementsByTagName doc "table")
  unfold visibleTables
  rw [hT, hcount]
  omega

/-- C11, at the document `pairDoc`: one of its two tables is visible before the
call and one after. -/
theorem toggleAll_visible_count_witness :
    ((getElementsByTagName pairDoc "table").length
      = (getElementsByClassName pairDoc "arrow").length) ∧
    (∃ d1, toggleAll pairDoc = Outcome.done d1 ∧
      getElementsByTagName d1 "table" = getElementsByTagName pairDoc "table" ∧
      visibleTables d1 = (getElementsByTagName pairDoc "table").length
        - visibleTables pairDoc) ∧
    toggleAll pairDoc = Outcome.done pairDocToggled ∧
    visibleTables pairDoc = 1 ∧ visibleTables pairDocToggled = 1 :=
  ⟨by decide, toggleAll_visible_count pairDoc (by decide), by decide, by decide, by decide⟩

/-- C12, as stated, fails: on the document `scoreDoc`, whose table is visible
and whose arrow is not rotated, `toggleAll()` completes and the arrow is not
rotated after the call either. -/
theorem toggleAll_leaves_unrotated_arrow :
    ∃ d1, (getElementsByTagName scoreDoc "table").length
        = (getElementsByClassName scoreDoc "arrow").length ∧
      (getElementsByTagName scoreDoc "table")[0]? = some 1 ∧
      (getElementsByClassName scoreDoc "arrow")[0]? = some 0 ∧
      toggleAll scoreDoc = Outcome.done d1 ∧
      (getElementsByClassName d1 "arrow")[0]? = some 0 ∧
      rotatedAt scoreDoc 0 = false ∧ rotatedAt d1 0 = false :=
  ⟨[mkArrow "arrow1" ["arrow"],
      mkTable "table1" "none" [headRow ["name", "", "", "", "", "score"], scoreRow "a" "3",
        scoreRow "b" "7", scoreRow "c" "5"]],
    by decide, by decide, by decide, by decide, by decide, by decide, by decide⟩

/-- C12, amended. On a document with N tables and N arrows `toggleAll()`
completes, the tables and the arrows are the same elements, and for every index
`i < N` the `i`-th table is flipped between visible and hidden, while the `i`-th
arrow is rotated after the call exactly when the `i`-th table was hidden before
the call (so exactly when that table is visible after it). The arrow's class is
flipped when, before the call, the arrow was rotated if and only if its table
was visible. -/
theorem toggleAll_flips_pairs (doc : Document)
    (hN : (getElementsByTagName doc "table").length
      = (getElementsByClassName doc "arrow").length) :
    ∃ d1, toggleAll doc = Outcome.done d1 ∧
      getElementsByTagName d1 "table" = getElementsByTagName doc "table" ∧
      getElementsByClassName d1 "arrow" = getElementsByClassName doc "arrow" ∧
      ∀ (i t a : Nat), (getElementsByTagName doc "table")[i]? = some t →
        (getElementsByClassName doc "arrow")[i]? = some a →
        visibleAt d1 t = !visibleAt doc t ∧ rotatedAt d1 a = !visibleAt doc t ∧
        rotatedAt d1 a = visibleAt d1 t ∧
        (rotatedAt doc a = visibleAt doc t → rotatedAt d1 a = !rotatedAt doc a) := by
  obtain ⟨d1, hrun, hsh, hpairs⟩ := toggleAll_result doc (le_of_eq hN)
  refine ⟨d1, hrun, tables_congr d1 doc hsh "table", arrows_congr d1 doc hsh, ?_⟩
  intro i t a hti hai
  obtain ⟨hv, hr⟩ := hpairs i t a hti hai
  exact ⟨hv, hr, hr.trans hv.symm, fun h => by rw [hr, h]⟩

/-- C12, amended, at the document `pairDoc`. -/
theorem toggleAll_flips_pairs_witness :
    ((getElementsByTagName pairDoc "table").length
      = (getElementsByClassName pairDoc "arrow").length) ∧
    (∃ d1, toggleAll pairDoc = Outcome.done d1 ∧
      getElementsByTagName d1 "table" = getElementsByTagName pairDoc "table" ∧
      getElementsByClassName d1 "arrow" = getElementsByClassName pairDoc "arrow" ∧
      ∀ (i t a : Nat), (getElementsByTagName pairDoc "table")[i]? = some t →
        (getElementsByClassName pairDoc "arrow")[i]? = some a →
        visibleAt d1 t = !visibleAt pairDoc t ∧ rotatedAt d1 a = !visibleAt pairDoc t ∧
        rotatedAt d1 a = visibleAt d1 t ∧
        (rotatedAt pairDoc a = visibleAt pairDoc t → rotatedAt d1 a = !rotatedAt pairDoc a)) ∧
    toggleAll pairDoc = Outcome.done pairDocToggled :=
  ⟨by decide, toggleAll_flips_pairs pairDoc (by decide), by decide⟩

/-! ## collapseAll and expandAll a second time -/

theorem elemRun_fixed (pairs : List (Nat × Nat)) (f1 f2 : Nat → Element → Element)
    (p : Nat) (e : Element)
    (h1 : ∀ t a, (t, a) ∈ pairs → t = p → f1 t e = e)
    (h2 : ∀ t a, (t, a) ∈ pairs → a = p → f2 t e = e) :
    ∀ (i : Nat), elemRun pairs f1 f2 p i e = e
  | 0 => rfl
  | i + 1 => by
    have ih := elemRun_fixed pairs f1 f2 p e h1 h2 i
    simp only [elemRun, ih]
    cases hp : pairs[i]? with
    | none => rfl
    | some ta =>
      obtain ⟨t, a⟩ := ta
      have hmem : (t, a) ∈ pairs := List.mem_iff_getElem?.mpr ⟨i, hp⟩
      by_cases ht : t = p
      · by_cases ha : a = p
        · simp only [ht, ha, if_true]
          rw [← ht, h1 t a hmem ht, h2 t a hmem ha]
        · simp only [ht, ha, if_true, if_false]
          rw [← ht, h1 t a hmem ht]
      · by_cases ha : a = p
        · simp only [ht, ha, if_true, if_false]
          exact h2 t a hmem ha
        · simp only [ht, ha, if_false]

theorem setDisplay_self (e : Element) (v : String) (h : e.display = v) :
    e.setDisplay v = e := by
  cases e
  simp only [Element.setDisplay] at h ⊢
  rw [h]

theorem classListRemove_self (e : Element) (h : ¬ e.rotated) :
    e.classListRemove "rotated" = e := by
  cases e with
  | mk id tagName classList display rows =>
    simp only [Element.classListRemove, Element.rotated] at h ⊢
    congr 1
    rw [List.filter_eq_self]
    intro x hx
    simp only [ne_eq, decide_not, Bool.not_eq_true', decide_eq_false_iff_not]
    intro hc
    exact h (hc ▸ hx)

theorem classListAdd_self (e : Element) (h : e.rotated) :
    e.classListAdd "rotated" = e := by
  cases e with
  | mk id tagName classList display rows =>
    simp only [Element.classListAdd, Element.rotated] at h ⊢
    rw [if_pos h]

/-- A loop that sets every display to `v` and changes every arrow by `op` leaves
a document as it is when every table has display `v` already and `op` changes
no arrow of the document. -/
theorem pairLoop_const_fixed (v : String) (op : Element → Element)
    (hshape : ∀ e, shapeOf (op e) = shapeOf e) (hdisp : ∀ e, (op e).display = e.display)
    (doc : Document)
    (hN : (getElementsByTagName doc "table").length
      = (getElementsByClassName doc "arrow").length)
    (htab : ∀ e ∈ doc, e.tagName = "table" → e.display = v)
    (harr : ∀ e ∈ doc, "arrow" ∈ e.classList → op e = e) :
    forTables (pairBody (fun _ => v) (fun _ => op))
      (getElementsByTagName doc "table").length 0 doc = Outcome.done doc := by
  obtain ⟨d1, hrun, _, hget⟩ := pairLoop_result (fun _ => v) (fun _ => op)
    (fun _ e => hshape e) (fun _ e => hdisp e) doc _ _ rfl rfl (le_of_eq hN)
  rw [hrun]
  congr 1
  apply List.ext_getElem?
  intro p
  rw [hget p]
  cases hp : doc[p]? with
  | none => rfl
  | some e =>
    simp only [Option.map_some', Option.some.injEq]
    have hmem : e ∈ doc := List.mem_iff_getElem?.mpr ⟨p, hp⟩
    apply elemRun_fixed
    · intro t a hta htp
      subst htp
      obtain ⟨e1, he1, htag⟩ := mem_tables doc t (List.of_mem_zip hta).1
      rw [hp] at he1
      cases he1
      exact setDisplay_self e v (htab e hmem htag)
    · intro t a hta hap
      subst hap
      obtain ⟨e1, he1, hcls⟩ := mem_arrows doc a (List.of_mem_zip hta).2
      rw [hp] at he1
      cases he1
      exact harr e hmem hcls

/-! ## Claims about `collapseAll` and `expandAll`, continued -/

/-- C13. `collapseAll` and `expandAll` are unconditional and idempotent. On a
document with N tables and N arrows, in whatever state, `collapseAll()`
completes and leaves every table hidden and every arrow unrotated,
`expandAll()` completes and leaves every table visible (display `table`) and
every arrow rotated, and a second call of either one completes and leaves the
document exactly as the first call left it. -/
theorem collapseAll_expandAll_idempotent (doc : Document)
    (hN : (getElementsByTagName doc "table").length
      = (getElementsByClassName doc "arrow").length) :
    (∃ dc, collapseAll doc = Outcome.done dc ∧ dc.map shapeOf = doc.map shapeOf ∧
      (∀ e ∈ dc, e.tagName = "table" → e.display = "none" ∧ ¬ e.visible) ∧
      (∀ e ∈ dc, "arrow" ∈ e.classList → ¬ e.rotated) ∧
      collapseAll dc = Outcome.done dc) ∧
    (∃ de, expandAll doc = Outcome.done de ∧ de.map shapeOf = doc.map shapeOf ∧
      (∀ e ∈ de, e.tagName = "table" → e.display = "table" ∧ e.visible) ∧
      (∀ e ∈ de, "arrow" ∈ e.classList → e.rotated) ∧
      expandAll de = Outcome.done de) := by
  constructor
  · obtain ⟨dc, hc, hsh, htab, harr⟩ := collapseAll_result doc hN
    have hN1 : (getElementsByTagName dc "table").length
        = (getElementsByClassName dc "arrow").length := by
      rw [tables_congr dc doc hsh, arrows_congr dc doc hsh]
      exact hN
    refine ⟨dc, hc, hsh, ?_, harr, ?_⟩
    · intro e he ht
      have hd := htab e he ht
      exact ⟨hd, fun hv => hv hd⟩
    · unfold collapseAll
      rw [collapseAllBody_eq]
      exact pairLoop_const_fixed "none" (Element.classListRemove "rotated")
        shapeOf_classListRemove (fun _ => rfl) dc hN1 htab
        (fun e he ha => classListRemove_self e (harr e he ha))
  · obtain ⟨de, hc, hsh, htab, harr⟩ := expandAll_result doc hN
    have hN1 : (getElementsByTagName de "table").length
        = (getElementsByClassName de "arrow").length := by
      rw [tables_congr de doc hsh, arrows_congr de doc hsh]
      exact hN
    refine ⟨de, hc, hsh, ?_, harr, ?_⟩
    · intro e he ht
      have hd := htab e he ht
      refine ⟨hd, ?_⟩
      unfold Element.visible
      rw [hd]
      decide
    · unfold expandAll
      rw [expandAllBody_eq]
      exact pairLoop_const_fixed "table" (Element.classListAdd "rotated")
        shapeOf_classListAdd (fun _ => rfl) de hN1 htab
        (fun e he ha => classListAdd_self e (harr e he ha))

/-- C13, at the document `pairDoc`, with the two documents the calls return. -/
theorem collapseAll_expandAll_idempotent_witness :
    ((getElementsByTagName pairDoc "table").length
      = (getElementsByClassName pairDoc "arrow").length) ∧
    ((∃ dc, collapseAll pairDoc = Outcome.done dc ∧ dc.map shapeOf = pairDoc.map shapeOf ∧
      (∀ e ∈ dc, e.tagName = "table" → e.display = "none" ∧ ¬ e.visible) ∧
      (∀ e ∈ dc, "arrow" ∈ e.classList → ¬ e.rotated) ∧
      collapseAll dc = Outcome.done dc) ∧
    (∃ de, expandAll pairDoc = Outcome.done de ∧ de.map shapeOf = pairDoc.map shapeOf ∧
      (∀ e ∈ de, e.tagName = "table" → e.display = "table" ∧ e.visible) ∧
      (∀ e ∈ de, "arrow" ∈ e.classList → e.rotated) ∧
      expandAll de = Outcome.done de)) ∧
    collapseAll pairDoc = Outcome.done
      [mkArrow "arrow1" ["arrow"],
        mkTable "table1" "none" [headRow ["name", "", "", "", "", "score"], scoreRow "a" "3",
          scoreRow "b" "7"],
        mkArrow "arrow2" ["arrow"],
        mkTable "table2" "none" [headRow ["name", "", "", "", "", "score"],
          scoreRow "c" "5"]] ∧
    expandAll pairDoc = Outcome.done
      [mkArrow "arrow1" ["arrow", "rotated"],
        mkTable "table1" "table" [headRow ["name", "", "", "", "", "score"], scoreRow "a" "3",
          scoreRow "b" "7"],
        mkArrow "arrow2" ["arrow", "rotated"],
        mkTable "table2" "table" [headRow ["name", "", "", "", "", "score"],
          scoreRow "c" "5"]] :=
  ⟨by decide, collapseAll_expandAll_idempotent pairDoc (by decide), by decide, by decide⟩

/-! ## The arrows reflect the tables -/

theorem docRel_at (d d1 : Document) (h : DocRel SameButRowOrder d d1) (p : Nat) :
    visibleAt d1 p = visibleAt d p ∧ rotatedAt d1 p = rotatedAt d p := by
  unfold visibleAt rotatedAt
  cases hp : d[p]? with
  | none =>
    have : d1[p]? = none := by
      rw [List.getElem?_eq_none_iff] at hp ⊢
      rw [h.1]
      exact hp
    rw [this]
    exact ⟨rfl, rfl⟩
  | some e =>
    obtain ⟨e1, he1, hr⟩ := h.2 p e hp
    rw [he1]
    simp only [Element.visible, Element.rotated, hr.2.2.1, hr.2.2.2.1, and_self]

theorem arrowsReflect_of_docRel (d d1 : Document) (h : DocRel SameButRowOrder d d1)
    (hinv : arrowsReflect d) : arrowsReflect d1 := by
  intro ta hta
  rw [tables_congr d1 d (docRel_shape d d1 h), arrows_congr d1 d (docRel_shape d d1 h)] at hta
  rw [(docRel_at d d1 h ta.1).1, (docRel_at d d1 h ta.2).2]
  exact hinv ta hta

theorem arrowsReflect_const (d : Document) (b : Bool)
    (htab : ∀ e ∈ d, e.tagName = "table" → decide e.visible = b)
    (harr : ∀ e ∈ d, "arrow" ∈ e.classList → decide e.rotated = b) : arrowsReflect d := by
  intro ta hta
  obtain ⟨t, a⟩ := ta
  obtain ⟨ht, ha⟩ := List.of_mem_zip hta
  obtain ⟨et, het, htag⟩ := mem_tables d t ht
  obtain ⟨ea, hea, hcls⟩ := mem_arrows d a ha
  simp only [visibleAt, rotatedAt, het, hea]
  rw [htab et (List.mem_iff_getElem?.mpr ⟨t, het⟩) htag,
    harr ea (List.mem_iff_getElem?.mpr ⟨a, hea⟩) hcls]

theorem sortTable_done_frame (toLowerCase : JSString → JSString) (fuel : Nat)
    (table t1 : Element) (c : Nat)
    (hdone : sortTable toLowerCase fuel table c = Outcome.done t1) :
    SameButRowOrder table t1 := by
  have hrows : ∀ t2, (whileLoop toLowerCase c fuel table.rows true false Dir.asc 0).map
      (fun rows => { table with rows := rows }) = Outcome.done t2 →
      SameButRowOrder table t2 := by
    intro t2
    have hframe := whileLoop_frame toLowerCase c fuel table.rows true false Dir.asc 0
    revert hframe
    generalize whileLoop toLowerCase c fuel table.rows true false Dir.asc 0 = o
    cases o with
    | outOfFuel => intro _ h; cases h
    | threw r => intro _ h; cases h
    | done r =>
      intro hframe h
      simp only [Outcome.map, Outcome.done.injEq] at h
      subst h
      exact ⟨rfl, rfl, rfl, rfl, hframe.1, hframe.2⟩
  unfold sortTable at hdone
  by_cases h1 : table.tagName = "table"
  · rw [if_pos h1] at hdone
    exact hrows t1 hdone
  · rw [if_neg h1] at hdone
    by_cases h2 : table.tagName = "thead" ∨ table.tagName = "tbody" ∨ table.tagName = "tfoot"
    · rw [if_pos h2] at hdone
      exact hrows t1 hdone
    · rw [if_neg h2] at hdone
      by_cases h3 : table.tagName = "textarea"
      · rw [if_pos h3] at hdone
        have ht : t1 = table := by
          revert hdone
          generalize whileLoop toLowerCase c fuel [] true false Dir.asc 0 = o
          cases o with
          | outOfFuel => intro h; cases h
          | threw r => intro h; cases h
          | done r =>
            intro h
            simp only [Outcome.map, Outcome.done.injEq] at h
            exact h.symm
        subst ht
        exact sameButRowOrder_refl t1
      · rw [if_neg h3] at hdone
        cases hdone

theorem docRel_set (R : Element → Element → Prop) (hrefl : ∀ e, R e e)
    (d : Document) (t : Nat) (e e1 : Element) (he : d[t]? = some e) (hr : R e e1) :
    DocRel R d (d.set t e1) := by
  refine ⟨by simp, fun p x hx => ?_⟩
  rw [List.getElem?_set]
  by_cases htp : t = p
  · subst htp
    rw [he] at hx
    cases hx
    have hlt : t < d.length := (List.getElem?_eq_some.mp he).1
    exact ⟨e1, by simp [hlt], hr⟩
  · exact ⟨x, by simp [htp, hx], hrefl x⟩

theorem toggled_at_ne (doc : Document) (t a : Nat) (p : Nat) :
    (p ≠ t → visibleAt (toggled doc t a) p = visibleAt doc p) ∧
    (p ≠ a → rotatedAt (toggled doc t a) p = rotatedAt doc p) := by
  constructor
  · intro hpt
    unfold toggled visibleAt
    by_cases hd : displayAt doc t = some "none"
    · rw [if_pos hd, List.getElem?_modify, List.getElem?_modify_ne _ _ (Ne.symm hpt)]
      cases doc[p]? with
      | none => rfl
      | some e => by_cases hap : a = p <;> simp [hap, Element.visible, Element.classListAdd]
    · rw [if_neg hd, List.getElem?_modify, List.getElem?_modify_ne _ _ (Ne.symm hpt)]
      cases doc[p]? with
      | none => rfl
      | some e => by_cases hap : a = p <;> simp [hap, Element.visible, Element.classListRemove]
  · intro hpa
    unfold toggled rotatedAt
    by_cases hd : displayAt doc t = some "none"
    · rw [if_pos hd, List.getElem?_modify_ne _ _ (Ne.symm hpa), List.getElem?_modify]
      cases doc[p]? with
      | none => rfl
      | some e => by_cases htp : t = p <;> simp [htp, Element.rotated, Element.setDisplay]
    · rw [if_neg hd, List.getElem?_modify_ne _ _ (Ne.symm hpa), List.getElem?_modify]
      cases doc[p]? with
      | none => rfl
      | some e => by_cases htp : t = p <;> simp [htp, Element.rotated, Element.setDisplay]

/-- Lines 4-10 of `toggleTable` on the `i`-th table and the `i`-th arrow keep the
arrows reflecting the tables. -/
theorem toggled_reflect (doc : Document) (i t a : Nat)
    (hti : (getElementsByTagName doc "table")[i]? = some t)
    (hai : (getElementsByClassName doc "arrow")[i]? = some a)
    (hinv : arrowsReflect doc) : arrowsReflect (toggled doc t a) := by
  intro ta hta
  rw [tables_congr _ doc (toggled_shape doc t a), arrows_congr _ doc (toggled_shape doc t a)]
    at hta
  obtain ⟨t1, a1⟩ := ta
  obtain ⟨j, hj⟩ := List.mem_iff_getElem?.mp hta
  rw [List.getElem?_zip_eq_some] at hj
  obtain ⟨hj1, hj2⟩ := hj
  simp only at hj1 hj2 ⊢
  by_cases hji : j = i
  · subst hji
    rw [hti] at hj1
    rw [hai] at hj2
    cases hj1
    cases hj2
    obtain ⟨et, het, _⟩ := mem_tables doc t (List.mem_iff_getElem?.mpr ⟨j, hti⟩)
    obtain ⟨ea, hea, _⟩ := mem_arrows doc a (List.mem_iff_getElem?.mpr ⟨j, hai⟩)
    obtain ⟨et1, ea1, h1t, h1a, hv, hr⟩ := toggled_effect doc t a et ea het hea
    simp only [visibleAt, rotatedAt, h1t, h1a]
    rw [decide_eq_decide]
    exact hr.trans hv.symm
  · have hne1 : t1 ≠ t := by
      intro hc
      subst hc
      obtain ⟨h1, e1⟩ := List.getElem?_eq_some.mp hj1
      obtain ⟨h2, e2⟩ := List.getElem?_eq_some.mp hti
      exact hji ((List.Nodup.getElem_inj_iff (collect_nodup _ doc)).mp (e1.trans e2.symm))
    have hne2 : a1 ≠ a := by
      intro hc
      subst hc
      obtain ⟨h1, e1⟩ := List.getElem?_eq_some.mp hj2
      obtain ⟨h2, e2⟩ := List.getElem?_eq_some.mp hai
      exact hji ((List.Nodup.getElem_inj_iff (collect_nodup _ doc)).mp (e1.trans e2.symm))
    rw [(toggled_at_ne doc t a t1).1 hne1, (toggled_at_ne doc t a a1).2 hne2]
    exact hinv (t1, a1) hta

/-- C14, amended. The arrow of a table reflects its visibility as an invariant
of the documents none of whose table rows is or holds an arrow or a table (the
documents of `Document`). On such a document with N tables and N arrows in
which, for every `i`, the `i`-th arrow is rotated if and only if the `i`-th
table is visible, the same holds after `toggleAll`, `collapseAll` and
`expandAll` (which complete), and after every completed call of
`sortBaseScoreDescending`, of `sortTable` on an element of the document (a
table, a row group or a `textarea`: on any other element the call throws), of
`onHeaderClick` whatever element the identifier resolves to, and of
`toggleTable` with identifiers that resolve to the `i`-th table and the `i`-th
arrow for some `i`. -/
theorem arrowsReflect_preserved (parseFloat : JSString → JSNumber)
    (toLowerCase : JSString → JSString) (fuel : Nat) (doc : Document)
    (hN : (getElementsByTagName doc "table").length
      = (getElementsByClassName doc "arrow").length)
    (hinv : arrowsReflect doc) :
    (∃ d1, toggleAll doc = Outcome.done d1 ∧ arrowsReflect d1) ∧
    (∃ d1, collapseAll doc = Outcome.done d1 ∧ arrowsReflect d1) ∧
    (∃ d1, expandAll doc = Outcome.done d1 ∧ arrowsReflect d1) ∧
    (∀ d1, sortBaseScoreDescending parseFloat doc = Outcome.done d1 → arrowsReflect d1) ∧
    (∀ (t : Nat) (table : Element) (c : Nat) (t1 : Element), doc[t]? = some table →
      sortTable toLowerCase fuel table c = Outcome.done t1 → arrowsReflect (doc.set t t1)) ∧
    (∀ (tableId : String) (c : Nat) (d1 : Document),
      onHeaderClick toLowerCase fuel doc tableId c = Outcome.done d1 → arrowsReflect d1) ∧
    (∀ (tableId arrowId : String) (i t a : Nat) (d1 : Document),
      (getElementsByTagName doc "table")[i]? = some t →
      (getElementsByClassName doc "arrow")[i]? = some a →
      getElementById doc tableId = some t → getElementById doc arrowId = some a →
      toggleTable parseFloat doc tableId arrowId = Outcome.done d1 → arrowsReflect d1) := by
  refine ⟨?_, ?_, ?_, ?_, ?_, ?_, ?_⟩
  · obtain ⟨d1, hrun, hsh, hpairs⟩ := toggleAll_result doc (le_of_eq hN)
    refine ⟨d1, hrun, ?_⟩
    intro ta hta
    rw [tables_congr d1 doc hsh, arrows_congr d1 doc hsh] at hta
    obtain ⟨j, hj⟩ := List.mem_iff_getElem?.mp hta
    rw [List.getElem?_zip_eq_some] at hj
    obtain ⟨hv, hr⟩ := hpairs j ta.1 ta.2 hj.1 hj.2
    rw [hv, hr]
  · obtain ⟨d1, hrun, _, htab, harr⟩ := collapseAll_result doc hN
    refine ⟨d1, hrun, arrowsReflect_const d1 false ?_ ?_⟩
    · intro e he ht
      simp [Element.visible, htab e he ht]
    · intro e he ha
      simpa using harr e he ha
  · obtain ⟨d1, hrun, _, htab, harr⟩ := expandAll_result doc hN
    refine ⟨d1, hrun, arrowsReflect_const d1 true ?_ ?_⟩
    · intro e he ht
      simp [Element.visible, htab e he ht]
    · intro e he ha
      simpa using harr e he ha
  · intro d1 hdone
    have hframe := sortBaseScoreDescending_frame parseFloat doc
    rw [hdone] at hframe
    exact arrowsReflect_of_docRel doc d1 hframe hinv
  · intro t table c t1 ht hdone
    exact arrowsReflect_of_docRel doc _
      (docRel_set _ sameButRowOrder_refl doc t table t1 ht
        (sortTable_done_frame toLowerCase fuel table t1 c hdone)) hinv
  · intro tableId c d1 hdone
    unfold onHeaderClick at hdone
    cases hid : getElementById doc tableId with
    | none => rw [hid] at hdone; cases hdone
    | some t =>
      rw [hid] at hdone
      simp only at hdone
      cases ht : doc[t]? with
      | none => rw [ht] at hdone; cases hdone
      | some table =>
        rw [ht] at hdone
        simp only at hdone
        cases hs : sortTable toLowerCase fuel table c with
        | outOfFuel => rw [hs] at hdone; cases hdone
        | threw r => rw [hs] at hdone; cases hdone
        | done t1 =>
          rw [hs] at hdone
          simp only [Outcome.map, Outcome.done.injEq] at hdone
          subst hdone
          exact arrowsReflect_of_docRel doc _
            (docRel_set _ sameButRowOrder_refl doc t table t1 ht
              (sortTable_done_frame toLowerCase fuel table t1 c hs)) hinv
  · intro tableId arrowId i t a d1 hti hai hidt hida hdone
    rw [toggleTable_resolved parseFloat doc tableId arrowId t a hidt hida] at hdone
    have hframe := sortBaseScoreDescending_frame parseFloat (toggled doc t a)
    rw [hdone] at hframe
    exact arrowsReflect_of_docRel _ d1 hframe (toggled_reflect doc i t a hti hai hinv)

/-- C14, amended, at the document `pairDoc`, with a call of `toggleTable` on its
first pair and a header click on its first table. -/
theorem arrowsReflect_preserved_witness :
    ((getElementsByTagName pairDoc "table").length
      = (getElementsByClassName pairDoc "arrow").length ∧ arrowsReflect pairDoc) ∧
    ((∃ d1, toggleAll pairDoc = Outcome.done d1 ∧ arrowsReflect d1) ∧
    (∃ d1, collapseAll pairDoc = Outcome.done d1 ∧ arrowsReflect d1) ∧
    (∃ d1, expandAll pairDoc = Outcome.done d1 ∧ arrowsReflect d1) ∧
    (∀ d1, sortBaseScoreDescending parseDigits pairDoc = Outcome.done d1 →
      arrowsReflect d1) ∧
    (∀ (t : Nat) (table : Element) (c : Nat) (t1 : Element), pairDoc[t]? = some table →
      sortTable asciiToLowerCase 9 table c = Outcome.done t1 →
      arrowsReflect (pairDoc.set t t1)) ∧
    (∀ (tableId : String) (c : Nat) (d1 : Document),
      onHeaderClick asciiToLowerCase 9 pairDoc tableId c = Outcome.done d1 →
      arrowsReflect d1) ∧
    (∀ (tableId arrowId : String) (i t a : Nat) (d1 : Document),
      (getElementsByTagName pairDoc "table")[i]? = some t →
      (getElementsByClassName pairDoc "arrow")[i]? = some a →
      getElementById pairDoc tableId = some t → getElementById pairDoc arrowId = some a →
      toggleTable parseDigits pairDoc tableId arrowId = Outcome.done d1 →
      arrowsReflect d1)) ∧
    (∃ d1, toggleTable parseDigits pairDoc "table1" "arrow1" = Outcome.done d1 ∧
      rotatedAt d1 0 = false ∧ visibleAt d1 1 = false) ∧
    (∃ d1, onHeaderClick asciiToLowerCase 9 pairDoc "table1" 0 = Outcome.done d1) :=
  ⟨⟨by decide, by decide⟩,
    arrowsReflect_preserved parseDigits asciiToLowerCase 9 pairDoc (by decide) (by decide),
    ⟨[mkArrow "arrow1" ["arrow"],
      mkTable "table1" "none" [headRow ["name", "", "", "", "", "score"], scoreRow "b" "7",
        scoreRow "a" "3"],
      mkArrow "arrow2" ["arrow"],
      mkTable "table2" "none" [headRow ["name", "", "", "", "", "score"], scoreRow "c" "5"]],
      by with_unfolding_all decide, by decide, by decide⟩,
    ⟨pairDoc.set 1 (mkTable "table1" "" [headRow ["name", "", "", "", "", "score"],
      scoreRow "b" "7", scoreRow "a" "3"]), by decide⟩⟩


/-! ## Where the text of a cell is not its markup, or the cell is not a `TD` -/

/-- C1, as stated, fails. (1) In `entityTable` every data row has a cell at
column 0 and the texts `<`, `1`, `z` are not in non-decreasing order, yet
`sortTable` leaves them reading `z`, `1`, `<`, which is not non-decreasing:
the markup `&lt;`, `1`, `z` that the code compares is already ascending, so the
sort flips to descending. (2) In `keyedTable` every data row has a cell at
column 1 and the texts `2`, `1` are out of order, yet the call throws with the
table as it was: the rows have one `TD` cell each, and `TD[1]` is undefined. -/
theorem sortTable_orders_markup_not_text :
    ((∀ r ∈ entityTable.rows.tail, 0 < r.cells.length) ∧
      ¬ List.Pairwise (textLe asciiToLowerCase 0) entityTable.rows.tail ∧
      (∀ fuel, 6 ≤ fuel →
        sortTable asciiToLowerCase fuel entityTable 0 = Outcome.done entityDescending) ∧
      ¬ List.Pairwise (textLe asciiToLowerCase 0) entityDescending.rows.tail) ∧
    ((∀ r ∈ keyedTable.rows.tail, 1 < r.cells.length) ∧
      ¬ List.Pairwise (textLe asciiToLowerCase 1) keyedTable.rows.tail ∧
      ∀ fuel, 1 ≤ fuel →
        sortTable asciiToLowerCase fuel keyedTable 1 = Outcome.threw keyedTable) := by
  refine ⟨⟨by decide, by decide, ?_, by decide⟩, by decide, by decide, ?_⟩
  · intro fuel hfuel
    exact sortTable_mono asciiToLowerCase entityTable 0 6 fuel _ hfuel (by decide) (by decide)
  · intro fuel hfuel
    exact sortTable_mono asciiToLowerCase keyedTable 1 1 fuel _ hfuel (by decide) (by decide)

/-- C2, as stated, fails. (1) In `entityByText` every data row has a cell at
column 0 and the texts `1`, `<`, `z` are in non-decreasing order, yet
`sortTable` leaves them reading `<`, `1`, `z`, which is not non-increasing: the
markup `1`, `&lt;`, `z` is not ascending, so the code sorts it ascending and
does not flip. (2) In `keyedAscending` every data row has a cell at column 1
and the texts `1`, `2` are in order, yet the call throws: `TD[1]` is
undefined. -/
theorem sortTable_flips_on_markup_not_text :
    ((∀ r ∈ entityByText.rows.tail, 0 < r.cells.length) ∧
      List.Pairwise (textLe asciiToLowerCase 0) entityByText.rows.tail ∧
      (∀ fuel, 3 ≤ fuel →
        sortTable asciiToLowerCase fuel entityByText 0 = Outcome.done entityByMarkup) ∧
      ¬ List.Pairwise (fun a b => textLe asciiToLowerCase 0 b a) entityByMarkup.rows.tail) ∧
    ((∀ r ∈ keyedAscending.rows.tail, 1 < r.cells.length) ∧
      List.Pairwise (textLe asciiToLowerCase 1) keyedAscending.rows.tail ∧
      ∀ fuel, 1 ≤ fuel →
        sortTable asciiToLowerCase fuel keyedAscending 1 = Outcome.threw keyedAscending) := by
  refine ⟨⟨by decide, by decide, ?_, by decide⟩, by decide, by decide, ?_⟩
  · intro fuel hfuel
    exact sortTable_mono asciiToLowerCase entityByText 0 3 fuel _ hfuel (by decide) (by decide)
  · intro fuel hfuel
    exact sortTable_mono asciiToLowerCase keyedAscending 1 1 fuel _ hfuel (by decide)
      (by decide)

/-- C15, as stated, fails: the two data rows of `styledTable` have a `TD` cell
at column 0 with the same lower-cased text `x`, the italic row in front of the
bold one, and `sortTable` returns them with the bold row in front: their markup
`<i>x</i>` and `<b>x</b>` differs, and the code compares the markup. -/
theorem sortTable_swaps_rows_of_equal_text :
    (∀ r ∈ styledTable.rows.tail, 0 < r.tds.length) ∧
    textKey asciiToLowerCase 0 (markupRow "<i>x</i>" "x")
      = textKey asciiToLowerCase 0 (markupRow "<b>x</b>" "x") ∧
    [markupRow "<i>x</i>" "x", markupRow "<b>x</b>" "x"].Sublist styledTable.rows.tail ∧
    (∀ fuel, 3 ≤ fuel →
      sortTable asciiToLowerCase fuel styledTable 0 = Outcome.done styledSorted) ∧
    ¬ [markupRow "<i>x</i>" "x", markupRow "<b>x</b>" "x"].Sublist styledSorted.rows.tail := by
  refine ⟨by decide, by decide, by decide, ?_, by decide⟩
  intro fuel hfuel
  exact sortTable_mono asciiToLowerCase styledTable 0 3 fuel _ hfuel (by decide) (by decide)

/-- C20, as stated, fails: each data row of `keyedTable` has two cells, more
than the column index 1, and `sortTable(table, 1)` throws on its first
comparison, on every budget: the rows have a single `TD` cell, the other cell
being a `TH`, and line 38 reads `TD[1]`, which is undefined. -/
theorem sortTable_throws_on_row_heading :
    keyedTable.tagName = "table" ∧
    (∀ r ∈ keyedTable.rows.tail, 1 < r.cells.length) ∧
    (∀ fuel, 1 ≤ fuel →
      sortTable asciiToLowerCase fuel keyedTable 1 = Outcome.threw keyedTable) := by
  refine ⟨rfl, by decide, ?_⟩
  intro fuel hfuel
  exact sortTable_mono asciiToLowerCase keyedTable 1 1 fuel _ hfuel (by decide) (by decide)


/-! ## Rows that hold arrows or tables -/

/-- The score sort of `Tree.arrowRowsDoc`: in the first table the row that
scores 7 moves in front of the row that scores 3, each row with the arrow it
holds. -/
theorem arrowRowsDoc_sorted :
    Tree.sortBaseScoreDescending parseDigits Tree.Node.textContent Tree.arrowRowsDoc
      = Outcome.done Tree.arrowRowsSorted := by
  with_unfolding_all decide

/-- The score sort of `Tree.nestedTablesDoc`: the row that scores 7 moves in
front of the row that scores 3, each row with the table it holds. -/
theorem nestedTablesDoc_sorted :
    Tree.sortBaseScoreDescending parseDigits Tree.Node.textContent Tree.nestedTablesDoc
      = Outcome.done Tree.nestedTablesSorted := by
  with_unfolding_all decide

/-- C9, as stated, fails where a data row holds an arrow or a table. (1) On
`Tree.arrowRowsDoc` the call completes, and the arrows of the document, read
in the order of `getElementsByClassName("arrow")`, are a rotated arrow followed
by an unrotated one before the call and an unrotated arrow followed by a rotated
one after it. (2) On `Tree.nestedTablesDoc` the call completes, and the
displays of the tables, read in the order of `getElementsByTagName("table")`,
are visible, hidden, visible before the call and visible, visible, hidden after
it. -/
theorem sortBaseScoreDescending_reorders_collections :
    ((Tree.keys Tree.arrowRowsDoc).Nodup ∧
      Tree.sortBaseScoreDescending parseDigits Tree.Node.textContent Tree.arrowRowsDoc
        = Outcome.done Tree.arrowRowsSorted ∧
      (Tree.getElementsByClassName Tree.arrowRowsDoc "arrow").map Tree.Node.classList
        = [["arrow", "rotated"], ["arrow"]] ∧
      (Tree.getElementsByClassName Tree.arrowRowsSorted "arrow").map Tree.Node.classList
        = [["arrow"], ["arrow", "rotated"]]) ∧
    ((Tree.keys Tree.nestedTablesDoc).Nodup ∧
      Tree.sortBaseScoreDescending parseDigits Tree.Node.textContent Tree.nestedTablesDoc
        = Outcome.done Tree.nestedTablesSorted ∧
      (Tree.getElementsByTagName Tree.nestedTablesDoc "table").map Tree.Node.display
        = ["", "none", ""] ∧
      (Tree.getElementsByTagName Tree.nestedTablesSorted "table").map Tree.Node.display
        = ["", "", "none"]) :=
  ⟨⟨by decide, arrowRowsDoc_sorted, by decide, by decide⟩,
    by decide, nestedTablesDoc_sorted, by decide, by decide⟩

/-- C14, as stated, fails where a data row holds an arrow or a table. (1)
`Tree.arrowRowsDoc` has two tables and two arrows and every arrow reflects its
table; `sortBaseScoreDescending` completes on it, and afterwards the first
arrow is unrotated while the first table is visible. (2)
`Tree.nestedTablesDoc` has three tables and three arrows and every arrow
reflects its table; the call completes, and afterwards the second table is
visible while the second arrow is unrotated. -/
theorem sortBaseScoreDescending_breaks_arrowsReflect :
    ((Tree.keys Tree.arrowRowsDoc).Nodup ∧
      (Tree.getElementsByTagName Tree.arrowRowsDoc "table").length = 2 ∧
      (Tree.getElementsByClassName Tree.arrowRowsDoc "arrow").length = 2 ∧
      Tree.arrowsReflect Tree.arrowRowsDoc ∧
      Tree.sortBaseScoreDescending parseDigits Tree.Node.textContent Tree.arrowRowsDoc
        = Outcome.done Tree.arrowRowsSorted ∧
      ¬ Tree.arrowsReflect Tree.arrowRowsSorted) ∧
    ((Tree.keys Tree.nestedTablesDoc).Nodup ∧
      (Tree.getElementsByTagName Tree.nestedTablesDoc "table").length = 3 ∧
      (Tree.getElementsByClassName Tree.nestedTablesDoc "arrow").length = 3 ∧
      Tree.arrowsReflect Tree.nestedTablesDoc ∧
      Tree.sortBaseScoreDescending parseDigits Tree.Node.textContent Tree.nestedTablesDoc
        = Outcome.done Tree.nestedTablesSorted ∧
      ¬ Tree.arrowsReflect Tree.nestedTablesSorted) :=
  ⟨⟨by decide, by decide, by decide, by decide, arrowRowsDoc_sorted, by decide⟩,
    by decide, by decide, by decide, by decide, nestedTablesDoc_sorted, by decide⟩


/-- A header click whose identifier resolves to a `textarea` returns with the
document as it was, and one that resolves to a row group sorts the rows of the
group after its first row; in both cases the arrows still reflect the tables. -/
theorem onHeaderClick_on_other_elements :
    arrowsReflect notesDoc ∧
    onHeaderClick asciiToLowerCase 9 notesDoc "notes" 0 = Outcome.done notesDoc ∧
    onHeaderClick asciiToLowerCase 9 notesDoc "group" 0
      = Outcome.done (notesDoc.set 5
          { id := "group", tagName := "tbody", classList := [], display := "",
            rows := [textRow ["first"], textRow ["a"], textRow ["b"]] }) ∧
    arrowsReflect (notesDoc.set 5
      { id := "group", tagName := "tbody", classList := [], display := "",
        rows := [textRow ["first"], textRow ["a"], textRow ["b"]] }) ∧
    onHeaderClick asciiToLowerCase 9 notesDoc "arrow1" 0 = Outcome.threw notesDoc := by
  refine ⟨by decide, by decide, by decide, by decide, by decide⟩


/-- Where the arrows stand outside the rows, the tree and the list of elements
tell the same story: on `Tree.pairTree`, the document `pairDoc` as a tree, the
score sort completes, the collections of the tables and of the arrows read the
same before and after, as they do on `pairDoc`, and the arrows still reflect
the tables. -/
theorem pairTree_sorted :
    Tree.sortBaseScoreDescending parseDigits Tree.Node.textContent Tree.pairTree
      = Outcome.done Tree.pairTreeSorted ∧
    (Tree.getElementsByClassName Tree.pairTreeSorted "arrow").map Tree.Node.classList
      = (Tree.getElementsByClassName Tree.pairTree "arrow").map Tree.Node.classList ∧
    (Tree.getElementsByTagName Tree.pairTreeSorted "table").map Tree.Node.display
      = (Tree.getElementsByTagName Tree.pairTree "table").map Tree.Node.display ∧
    (Tree.getElementsByClassName Tree.pairTree "arrow").map Tree.Node.classList
      = (getElementsByClassName pairDoc "arrow").map
          (fun a => (pairDoc[a]?.map Element.classList).getD []) ∧
    (Tree.getElementsByTagName Tree.pairTree "table").map Tree.Node.display
      = (getElementsByTagName pairDoc "table").map
          (fun t => (pairDoc[t]?.map Element.display).getD "") ∧
    Tree.arrowsReflect Tree.pairTree ∧ Tree.arrowsReflect Tree.pairTreeSorted := by
  refine ⟨by with_unfolding_all decide, by decide, by decide, by decide, by decide, by decide,
    by decide⟩

end TableView
